import Mathlib

/-!
# Page-replacement engine of `virtmem/main.c`

A shallow embedding of the fault handler of `src/virtmem/main.c`
(`rm_page`, `rand_helper`, `fifo_helper`, `lru_helper`, `page_fault_handler`)
together with the properties of the frame table, the page table, the arrival
queue and the counters that the specification states about it.

Conventions of the embedding.

* The globals of `main.c` are the fields of `State`.  The page table `pt`
  that every helper receives is one more field, since there is one page table
  per run.
* C arrays are lists read with `rd` (the default value stands for a read
  outside the array) and written with `List.set`.
* `physmem` is kept as one block per frame: block `f` stands for the bytes
  `physmem[f*PAGE_SIZE .. (f+1)*PAGE_SIZE)`.
* The C `int` counters are natural numbers: signed overflow is undefined in C
  and is not modelled.
* `exit(1)` is the outcome `Outcome.exit 1 s`, where `s` holds the globals at
  the moment the process terminates.
* `lrand48()` is an extra argument `r` of the handler: the value the generator
  returns if it is called.
* The workload programs and the trap mechanism of the page table are not in
  `main.c`.  Properties of the handler are stated over sequences of handler
  invocations, with stores of the workload in between where the contents of
  physical memory matter; `main` runs a workload as a sequence of memory
  accesses, each of which invokes the handler and is retried until the page
  table lets it through.
-/

namespace Virtmem

/-! ## Data model -/

/-- Value of `PROT_READ` in `<sys/mman.h>`. -/
def PROT_READ : Nat := 1

/-- Value of `PROT_WRITE` in `<sys/mman.h>`. -/
def PROT_WRITE : Nat := 2

/-- One `PAGE_SIZE` block of bytes. -/
abbrev Block := List Nat

/-- The struct `Entry_frame` of `main.c`. -/
structure Entry_frame where
  page : Nat
  bits : Nat
  rbit : Nat
deriving DecidableEq, Repr, Inhabited

/-- Modelled from the spec: one entry of the page table of `page_table.c`
(absent from src/), the pair (frame, permission) that `get_entry` returns. -/
structure PTE where
  frame : Nat
  bits : Nat
deriving DecidableEq, Repr, Inhabited

/-- The globals of `main.c` and the page table. -/
structure State where
  fc : Nat
  rc : Nat
  wc : Nat
  npages : Nat
  nframes : Nat
  rt : String
  physmem : List Block
  disk : List Block
  f_table : List Entry_frame
  ft_pointer : Nat
  lt_pointer : Nat
  fifo_arr : List Nat
  pt : List PTE
deriving DecidableEq, Repr

/-- Result of running code that may call `exit`. -/
inductive Outcome where
  | ret (s : State)
  | exit (code : Nat) (s : State)
deriving DecidableEq, Repr

/-- Array read `a[i]`. -/
def rd {α : Type} [Inhabited α] (a : List α) (i : Nat) : α := a.getD i default

/-! ## External collaborators -/

/-- Modelled from the spec: `page_table_get_entry` of `page_table.c` (absent
from src/), "get_entry(handle, page) → (frame, permission)". -/
def page_table_get_entry (pt : List PTE) (page : Nat) : PTE := rd pt page

/-- Modelled from the spec: `page_table_set_entry` of `page_table.c` (absent
from src/), "set_entry(handle, page, frame, permission)". -/
def page_table_set_entry (pt : List PTE) (page frame bits : Nat) : List PTE :=
  pt.set page ⟨frame, bits⟩

/-- Modelled from the spec: `disk_read` of `disk.c` (absent from src/),
"read(handle, page_id, buffer)" transfers one block of the store into the
buffer; the result is the new contents of the buffer. -/
def disk_read (disk : List Block) (block : Nat) : Block := rd disk block

/-- Modelled from the spec: `disk_write` of `disk.c` (absent from src/),
"write(handle, page_id, buffer)" transfers the buffer into one block of the
store. -/
def disk_write (disk : List Block) (block : Nat) (data : Block) : List Block :=
  disk.set block data

/-! ## The code of `main.c` -/

/-- `rm_page`, lines 42-52. -/
def rm_page (s : State) (frame : Nat) : State :=
  let s1 :=
    if (rd s.f_table frame).bits &&& PROT_WRITE ≠ 0 then
      { s with
        disk := disk_write s.disk (rd s.f_table frame).page (rd s.physmem frame)
        wc := s.wc + 1 }
    else s
  { s1 with
    pt := page_table_set_entry s1.pt (rd s1.f_table frame).page frame 0
    f_table := s1.f_table.set frame { rd s1.f_table frame with bits := 0 } }

/-- The free-frame loop of the three helpers (lines 65-69, 103-107, 144-148):
`frame_idx` starts at -1 (`none`) and is overwritten at every free frame. -/
def scan_free (nframes : Nat) (f_table : List Entry_frame) : Option Nat :=
  (List.range nframes).foldl
    (fun frame_idx i => if (rd f_table i).bits = 0 then some i else frame_idx) none

/-- The reference-bit loop of `lru_helper`, lines 150-157, started with
`frame_idx = -1`: returns the final `frame_idx` and frame table. -/
def scan_rbit (nframes : Nat) (f_table : List Entry_frame) :
    Option Nat × List Entry_frame :=
  (List.range nframes).foldl
    (fun acc i =>
      if (rd acc.2 i).rbit = 0 then (some i, acc.2)
      else (acc.1, acc.2.set i { rd acc.2 i with rbit := 0 }))
    (none, f_table)

/-- The common tail of the helpers ("set entry; add data", lines 87-89,
128-130, 178-180). -/
def set_entry_add_data (s : State) (page frame_idx bits : Nat) : State :=
  { s with
    pt := page_table_set_entry s.pt page frame_idx bits
    f_table := s.f_table.set frame_idx { rd s.f_table frame_idx with page := page, bits := bits } }

/-- `rand_helper`, lines 54-90; `r` is the value of `lrand48()`. -/
def rand_helper (s : State) (page r : Nat) : Outcome :=
  let e := page_table_get_entry s.pt page
  if e.bits = 0 then
    let bits := PROT_READ
    match scan_free s.nframes s.f_table with
    | some frame_idx =>
      let s2 := { s with physmem := s.physmem.set frame_idx (disk_read s.disk page), rc := s.rc + 1 }
      .ret (set_entry_add_data s2 page frame_idx bits)
    | none =>
      let frame_idx := r % s.nframes
      let s1 := rm_page s frame_idx
      let s2 := { s1 with physmem := s1.physmem.set frame_idx (disk_read s1.disk page), rc := s1.rc + 1 }
      .ret (set_entry_add_data s2 page frame_idx bits)
  else if e.bits &&& PROT_READ ≠ 0 then
    .ret (set_entry_add_data s page e.frame (PROT_READ ||| PROT_WRITE))
  else
    .exit 1 s

/-- `fifo_helper`, lines 92-131. -/
def fifo_helper (s : State) (page : Nat) : Outcome :=
  let e := page_table_get_entry s.pt page
  if e.bits = 0 then
    let bits := PROT_READ
    match scan_free s.nframes s.f_table with
    | some frame_idx =>
      let s2 := { s with physmem := s.physmem.set frame_idx (disk_read s.disk page), rc := s.rc + 1 }
      let s3 := { s2 with
        fifo_arr := s2.fifo_arr.set s2.lt_pointer frame_idx
        lt_pointer := (s2.lt_pointer + 1) % s2.nframes }
      .ret (set_entry_add_data s3 page frame_idx bits)
    | none =>
      let frame_idx := rd s.fifo_arr s.ft_pointer
      let s1 := rm_page s frame_idx
      let s1 := { s1 with ft_pointer := (s1.ft_pointer + 1) % s1.nframes }
      let s2 := { s1 with physmem := s1.physmem.set frame_idx (disk_read s1.disk page), rc := s1.rc + 1 }
      let s3 := { s2 with
        fifo_arr := s2.fifo_arr.set s2.lt_pointer frame_idx
        lt_pointer := (s2.lt_pointer + 1) % s2.nframes }
      .ret (set_entry_add_data s3 page frame_idx bits)
  else if e.bits &&& PROT_READ ≠ 0 then
    .ret (set_entry_add_data s page e.frame (PROT_READ ||| PROT_WRITE))
  else
    .exit 1 s

/-- Line 181 of `lru_helper`: `f_table[frame_idx].rbit = 1`. -/
def set_rbit (s : State) (frame_idx : Nat) : State :=
  { s with f_table := s.f_table.set frame_idx { rd s.f_table frame_idx with rbit := 1 } }

/-- `lru_helper`, lines 133-182.  The `frame_idx` that the reference-bit loop
computes is overwritten by `fifo_arr[ft_pointer]` (line 158). -/
def lru_helper (s : State) (page : Nat) : Outcome :=
  let e := page_table_get_entry s.pt page
  if e.bits = 0 then
    let bits := PROT_READ
    match scan_free s.nframes s.f_table with
    | some frame_idx =>
      let s2 := { s with physmem := s.physmem.set frame_idx (disk_read s.disk page), rc := s.rc + 1 }
      let s3 := { s2 with
        fifo_arr := s2.fifo_arr.set s2.lt_pointer frame_idx
        lt_pointer := (s2.lt_pointer + 1) % s2.nframes }
      .ret (set_rbit (set_entry_add_data s3 page frame_idx bits) frame_idx)
    | none =>
      let s0 := { s with f_table := (scan_rbit s.nframes s.f_table).2 }
      let frame_idx := rd s0.fifo_arr s0.ft_pointer
      let s1 := rm_page s0 frame_idx
      let s1 := { s1 with ft_pointer := (s1.ft_pointer + 1) % s1.nframes }
      let s2 := { s1 with physmem := s1.physmem.set frame_idx (disk_read s1.disk page), rc := s1.rc + 1 }
      let s3 := { s2 with
        fifo_arr := s2.fifo_arr.set s2.lt_pointer frame_idx
        lt_pointer := (s2.lt_pointer + 1) % s2.nframes }
      .ret (set_rbit (set_entry_add_data s3 page frame_idx bits) frame_idx)
  else if e.bits &&& PROT_READ ≠ 0 then
    .ret (set_rbit (set_entry_add_data s page e.frame (PROT_READ ||| PROT_WRITE)) e.frame)
  else
    .exit 1 s

/-- `page_fault_handler`, lines 184-196: dispatch on the policy name, then
`fc++`. -/
def page_fault_handler (s : State) (page r : Nat) : Outcome :=
  let o :=
    if s.rt = "rand" then rand_helper s page r
    else if s.rt = "fifo" then fifo_helper s page
    else if s.rt = "lru" then lru_helper s page
    else .ret s
  match o with
  | .ret s1 => .ret { s1 with fc := s1.fc + 1 }
  | .exit c s1 => .exit c s1

/-- A sequence of handler invocations, each with its page and the generator
value; the run stops at the first invocation that exits. -/
def run : State → List (Nat × Nat) → Outcome
  | s, [] => .ret s
  | s, f :: fs =>
    match page_fault_handler s f.1 f.2 with
    | .ret s1 => run s1 fs
    | .exit c s1 => .exit c s1

/-- The state in which `main` starts the workload, as the specification
assumes it: counters and queue pointers 0 (their initialisers), every page
unmapped, every frame Absent; the `page` and `rbit` fields of the frames, the
queue array, the frames of the mappings and the memory contents are whatever
they happen to be. -/
def IsInitial (s : State) : Prop :=
  s.fc = 0 ∧ s.rc = 0 ∧ s.wc = 0 ∧ s.ft_pointer = 0 ∧ s.lt_pointer = 0 ∧
  1 ≤ s.nframes ∧
  s.f_table.length = s.nframes ∧ s.fifo_arr.length = s.nframes ∧
  s.physmem.length = s.nframes ∧
  s.pt.length = s.npages ∧ s.disk.length = s.npages ∧
  (∀ e ∈ s.f_table, e.bits = 0) ∧ (∀ e ∈ s.pt, e.bits = 0)

instance (s : State) : Decidable (IsInitial s) := by
  unfold IsInitial; infer_instance

/-- The policy names `page_fault_handler` knows. -/
def KnownPolicy (rt : String) : Prop := rt = "rand" ∨ rt = "fifo" ∨ rt = "lru"

instance (rt : String) : Decidable (KnownPolicy rt) := by
  unfold KnownPolicy; infer_instance

/-- A concrete initial state: zeroed tables, block `p` of the store holds the
single byte `p`. -/
def init (rt : String) (npages nframes : Nat) : State :=
  { fc := 0, rc := 0, wc := 0, npages := npages, nframes := nframes, rt := rt
    physmem := List.replicate nframes []
    disk := (List.range npages).map fun p => [p]
    f_table := List.replicate nframes ⟨0, 0, 0⟩
    ft_pointer := 0, lt_pointer := 0
    fifo_arr := List.replicate nframes 0
    pt := List.replicate npages ⟨0, 0⟩ }

/-! ## Effect of one handler invocation -/

/-- Two frame tables that differ at most in the reference flags. -/
def ft_eqv (a b : List Entry_frame) : Prop :=
  a.length = b.length ∧ ∀ i, (rd a i).page = (rd b i).page ∧ (rd a i).bits = (rd b i).bits

/-- What a read-fault that finds frame `i` free does to the state. -/
structure ReadFree (s : State) (p i : Nat) (s2 : State) : Prop where
  pt : s2.pt = s.pt.set p ⟨i, 1⟩
  ft : ft_eqv s2.f_table (s.f_table.set i ⟨p, 1, 0⟩)
  physmem : s2.physmem = s.physmem.set i (rd s.disk p)
  disk : s2.disk = s.disk
  rc : s2.rc = s.rc + 1
  wc : s2.wc = s.wc
  head : s2.ft_pointer = s.ft_pointer
  queue_rand : s.rt = "rand" → s2.fifo_arr = s.fifo_arr ∧ s2.lt_pointer = s.lt_pointer
  queue : s.rt ≠ "rand" → s2.fifo_arr = s.fifo_arr.set s.lt_pointer i ∧
    s2.lt_pointer = (s.lt_pointer + 1) % s.nframes

/-- The fields no helper writes, and the fault counter. -/
structure Fixed (s s2 : State) : Prop where
  rt : s2.rt = s.rt
  nframes : s2.nframes = s.nframes
  npages : s2.npages = s.npages
  fc : s2.fc = s.fc + 1

/-- The state an outcome carries. -/
def Outcome.state : Outcome → State
  | .ret s => s
  | .exit _ s => s

/-- The frame an eviction takes (lines 71, 109 and 158). -/
def victim (s : State) (r : Nat) : Nat :=
  if s.rt = "rand" then r % s.nframes else rd s.fifo_arr s.ft_pointer

/-- What a read-fault that evicts frame `v` does to the state. -/
structure ReadEvict (s : State) (p v : Nat) (s2 : State) : Prop where
  pt : s2.pt = (s.pt.set (rd s.f_table v).page ⟨v, 0⟩).set p ⟨v, 1⟩
  ft : ft_eqv s2.f_table (s.f_table.set v ⟨p, 1, 0⟩)
  disk : s2.disk = if (rd s.f_table v).bits &&& PROT_WRITE ≠ 0
    then s.disk.set (rd s.f_table v).page (rd s.physmem v) else s.disk
  wc : s2.wc = if (rd s.f_table v).bits &&& PROT_WRITE ≠ 0 then s.wc + 1 else s.wc
  physmem : s2.physmem = s.physmem.set v (rd s2.disk p)
  rc : s2.rc = s.rc + 1
  queue_rand : s.rt = "rand" → s2.fifo_arr = s.fifo_arr ∧ s2.lt_pointer = s.lt_pointer ∧
    s2.ft_pointer = s.ft_pointer
  queue : s.rt ≠ "rand" → s2.fifo_arr = s.fifo_arr.set s.lt_pointer v ∧
    s2.lt_pointer = (s.lt_pointer + 1) % s.nframes ∧
    s2.ft_pointer = (s.ft_pointer + 1) % s.nframes

/-- What a write-fault does to the state. -/
structure WriteUp (s : State) (p : Nat) (s2 : State) : Prop where
  pt : s2.pt = s.pt.set p ⟨(rd s.pt p).frame, 3⟩
  ft : ft_eqv s2.f_table (s.f_table.set (rd s.pt p).frame ⟨p, 3, 0⟩)
  disk : s2.disk = s.disk
  physmem : s2.physmem = s.physmem
  rc : s2.rc = s.rc
  wc : s2.wc = s.wc
  fifo_arr : s2.fifo_arr = s.fifo_arr
  lt_pointer : s2.lt_pointer = s.lt_pointer
  ft_pointer : s2.ft_pointer = s.ft_pointer

/-! ## Invariants -/

/-- Frame table and page table describe the same mapping. -/
structure Cons (n m : Nat) (ft : List Entry_frame) (pt : List PTE) : Prop where
  len_ft : ft.length = n
  len_pt : pt.length = m
  ft_pt : ∀ f, f < n → (rd ft f).bits ≠ 0 →
    (rd ft f).page < m ∧ rd pt (rd ft f).page = ⟨f, (rd ft f).bits⟩
  pt_ft : ∀ p, p < m → (rd pt p).bits ≠ 0 →
    (rd pt p).frame < n ∧ (rd ft (rd pt p).frame).page = p ∧
      (rd ft (rd pt p).frame).bits = (rd pt p).bits
  perm : ∀ p, p < m → (rd pt p).bits = 0 ∨ (rd pt p).bits = 1 ∨ (rd pt p).bits = 3

/-- State of the arrival queue of fifo and lru after `rc` loads into
`nframes` frames. -/
structure QInv (s : State) : Prop where
  tail : s.lt_pointer = s.rc % s.nframes
  head : s.ft_pointer = if s.rc < s.nframes then 0 else s.rc % s.nframes
  free : ∀ f, f < s.nframes → ((rd s.f_table f).bits = 0 ↔ f + s.rc < s.nframes)
  arr : ∀ j, j < s.nframes → j < s.rc → rd s.fifo_arr j = s.nframes - 1 - j

/-- The invariant of the simulation. -/
structure Good (s : State) : Prop where
  nf : 1 ≤ s.nframes
  cons : Cons s.nframes s.npages s.f_table s.pt
  len_fifo : s.fifo_arr.length = s.nframes
  len_phys : s.physmem.length = s.nframes
  len_disk : s.disk.length = s.npages
  queue : s.rt ≠ "rand" → QInv s

/-- The branch a handler invocation takes and its effect. -/
def Step (s : State) (p r : Nat) (s2 : State) : Prop :=
  ((rd s.pt p).bits = 0 ∧ ∃ i, scan_free s.nframes s.f_table = some i ∧ ReadFree s p i s2) ∨
  ((rd s.pt p).bits = 0 ∧ scan_free s.nframes s.f_table = none ∧
    ReadEvict s p (victim s r) s2) ∨
  ((rd s.pt p).bits ≠ 0 ∧ WriteUp s p s2)

/-! ## Reachable states and what they hold -/

/-- States the simulation reaches: a run of the handler from an initial state
under one of the three policies, on pages of the page table. -/
def Reachable (s : State) : Prop :=
  ∃ (s0 : State) (fs : List (Nat × Nat)), IsInitial s0 ∧ KnownPolicy s0.rt ∧
    (∀ f ∈ fs, f.1 < s0.npages) ∧ run s0 fs = .ret s

/-- A sample fault sequence. -/
def ex_faults : List (Nat × Nat) := [(0, 0), (1, 0), (2, 0), (3, 0), (1, 0), (4, 0)]

/-- The state the sample run reaches under lru with 5 pages and 3 frames. -/
def ex_state : State := (run (init "lru" 5 3) ex_faults).state

/-- The frames that hold page `p`. -/
def holders (s : State) (p : Nat) : List Nat :=
  (List.range s.nframes).filter fun f => (rd s.f_table f).bits ≠ 0 ∧ (rd s.f_table f).page = p

/-- The frames that are not Absent. -/
def occupied (s : State) : List Nat :=
  (List.range s.nframes).filter fun f => (rd s.f_table f).bits ≠ 0

/-! ## History of a run -/

/-- The history of a run: for every handler invocation that took place, the
state it started in, its page and its generator value. -/
def trace : State → List (Nat × Nat) → List (State × Nat × Nat)
  | _, [] => []
  | s, f :: fs =>
    (s, f.1, f.2) ::
      match page_fault_handler s f.1 f.2 with
      | .ret s1 => trace s1 fs
      | .exit _ _ => []

/-- The invocation takes the read-fault branch (`!bits`, lines 61, 99, 140). -/
def is_read_fault (e : State × Nat × Nat) : Bool :=
  decide ((page_table_get_entry e.1.pt e.2.1).bits = 0)

/-- The invocation takes the write-fault branch (`bits & PROT_READ`, lines
78, 119, 169). -/
def is_write_fault (e : State × Nat × Nat) : Bool :=
  decide ((page_table_get_entry e.1.pt e.2.1).bits ≠ 0 ∧
    (page_table_get_entry e.1.pt e.2.1).bits &&& PROT_READ ≠ 0)

/-- The page of the invocation is mapped ReadOnly (`PROT_READ`). -/
def on_readonly (e : State × Nat × Nat) : Bool :=
  decide ((page_table_get_entry e.1.pt e.2.1).bits = PROT_READ)

/-- The page of the invocation is already mapped ReadWrite
(`PROT_READ|PROT_WRITE`). -/
def on_readwrite (e : State × Nat × Nat) : Bool :=
  decide ((page_table_get_entry e.1.pt e.2.1).bits = PROT_READ ||| PROT_WRITE)

/-- The invocation is a read-fault that finds no free frame and evicts a
frame whose permission is ReadWrite. -/
def is_dirty_eviction (e : State × Nat × Nat) : Bool :=
  is_read_fault e && decide (scan_free e.1.nframes e.1.f_table = none) &&
    decide ((rd e.1.f_table (victim e.1 e.2.2)).bits = PROT_READ ||| PROT_WRITE)

/-- The invocations of the counter example run: page 0 three times (Absent,
ReadOnly, already ReadWrite), then pages 1 and 2; the last one evicts the
ReadWrite frame of page 0. -/
def ex7_faults : List (Nat × Nat) := [(0, 0), (0, 0), (0, 0), (1, 0), (2, 0)]

/-- Page `q` received a write-fault since it was last loaded: scanning the
history in order, a write-fault on `q` sets the flag and a load of `q`
clears it. -/
def written_since_load (tr : List (State × Nat × Nat)) (q : Nat) : Bool :=
  tr.foldl (fun d e => if e.2.1 = q then is_write_fault e else d) false

/-- One step of a workload as the handler sees it: an access that faults, with
the page and the generator value, or a store of one block of bytes to a
page. -/
inductive Op where
  | fault (page r : Nat)
  | store (page : Nat) (data : Block)
deriving DecidableEq, Repr

/-- Modelled from the spec: a store of the workload program through the page
table (`program.c` and `page_table.c` are absent from src/).  A page mapped
with `PROT_WRITE` takes the bytes into its frame of physical memory; without
`PROT_WRITE` the store does not take place (the access faults instead). -/
def workload_store (s : State) (page : Nat) (data : Block) : State :=
  if (page_table_get_entry s.pt page).bits &&& PROT_WRITE ≠ 0 then
    { s with physmem := s.physmem.set (page_table_get_entry s.pt page).frame data }
  else s

/-- A run of handler invocations with stores of the workload in between; it
stops at the first invocation that exits. -/
def run_ops : State → List Op → Outcome
  | s, [] => .ret s
  | s, .fault p r :: os =>
    match page_fault_handler s p r with
    | .ret s1 => run_ops s1 os
    | .exit c s1 => .exit c s1
  | s, .store p d :: os => run_ops (workload_store s p d) os

/-- The handler invocations of such a run, each with the state it started
in. -/
def trace_ops : State → List Op → List (State × Nat × Nat)
  | _, [] => []
  | s, .fault p r :: os =>
    (s, p, r) ::
      match page_fault_handler s p r with
      | .ret s1 => trace_ops s1 os
      | .exit _ _ => []
  | s, .store p d :: os => trace_ops (workload_store s p d) os

/-- The workload of the dirty-eviction scenario: read-fault and write-fault on
page 0, a store of the byte 42 to page 0, a read-fault on page 1. -/
def ex5_ops : List Op := [.fault 0 0, .fault 0 0, .store 0 [42], .fault 1 0]

/-- The state that workload reaches under fifo with 4 pages and 2 frames:
frame 1 holds page 0 with the byte 42, block 0 of the store still holds 0. -/
def ex5_dirty : State := (run_ops (init "fifo" 4 2) ex5_ops).state

/-- The permission of a mapped page has the write bit exactly when the page
received a write-fault since it was loaded. -/
def DInv (s : State) (tr : List (State × Nat × Nat)) : Prop :=
  ∀ q, q < s.npages → (rd s.pt q).bits ≠ 0 →
    ((rd s.pt q).bits &&& PROT_WRITE ≠ 0 ↔ written_since_load tr q = true)

/-- The pages that are mapped, in increasing order. -/
def resident (s : State) : List Nat :=
  (List.range s.npages).filter fun p => (page_table_get_entry s.pt p).bits ≠ 0

/-- The state after read-faults on pages 0 and 1 under fifo with 4 pages and
2 frames. -/
def ex6_state : State := (run (init "fifo" 4 2) [(0, 0), (1, 0)]).state

/-- One step of `load_time`: count the invocations and remember the position
of the last load of `q`. -/
def load_step (q : Nat) (acc : Nat × Option Nat) (e : State × Nat × Nat) : Nat × Option Nat :=
  (acc.1 + 1, if e.2.1 = q ∧ is_read_fault e = true then some acc.1 else acc.2)

/-- The position in the history of the invocation that last loaded page `q`
(the last read-fault on `q`), if there is one. -/
def load_time (tr : List (State × Nat × Nat)) (q : Nat) : Option Nat :=
  (tr.foldl (load_step q) (0, none)).2

/-- The resident page of the frame that received the load number `i`
(counting loads from 0) under fifo and lru. -/
def pg (s : State) (i : Nat) : Nat := (rd s.f_table (s.nframes - 1 - i % s.nframes)).page

/-- Under fifo and lru the frames that received the last `nframes` loads hold
pages whose load times increase with the load number. -/
def TInv (s : State) (tr : List (State × Nat × Nat)) : Prop :=
  s.rt ≠ "rand" →
    (∀ i j, i ≤ j → j < s.rc → s.rc ≤ i + s.nframes →
      ∃ ti tj, load_time tr (pg s i) = some ti ∧ load_time tr (pg s j) = some tj ∧
        (i < j → ti < tj)) ∧
    (s.rc = 0 → tr = []) ∧
    (0 < s.rc → s.rc ≤ s.nframes → load_time tr (pg s 0) = some 0)

/-- The state after read-faults on pages 0, 1, 2, 3 and a write-fault on page
1 under lru with 5 pages and 3 frames: every frame is occupied, frames 1 and
2 have their reference flag set and frame 0 has it clear. -/
def ex8_state : State := (run (init "lru" 5 3) [(0, 0), (1, 0), (2, 0), (3, 0), (1, 0)]).state

/-- The state after a read-fault and a write-fault on page 0 with 4 pages and
2 frames: page 0 is mapped `PROT_READ|PROT_WRITE`. -/
def ex10_state (rt : String) : State := (run (init rt 4 2) [(0, 0), (0, 0)]).state

/-- A state with 3 frames in which frame 1 holds page 0 and frames 0 and 2
are free. -/
def ex9_state : State :=
  { init "rand" 4 3 with
    pt := [⟨1, PROT_READ⟩, ⟨0, 0⟩, ⟨0, 0⟩, ⟨0, 0⟩]
    f_table := [⟨0, 0, 0⟩, ⟨0, PROT_READ, 0⟩, ⟨0, 0, 0⟩] }

/-- A state in which page 0 is mapped to frame 0 with permission `PROT_WRITE`
alone. -/
def ex10_wonly (rt : String) : State :=
  { init rt 4 2 with
    pt := [⟨0, PROT_WRITE⟩, ⟨0, 0⟩, ⟨0, 0⟩, ⟨0, 0⟩]
    f_table := [⟨0, PROT_WRITE, 0⟩, ⟨0, 0, 0⟩] }

/-! ## Sample states, agreement of states, logical contents -/

/-- A state with an unknown policy name in which page 1 is mapped ReadOnly to
frame 0. -/
def ex19_state : State :=
  { init "clock" 4 2 with
    pt := [⟨0, 0⟩, ⟨0, PROT_READ⟩, ⟨0, 0⟩, ⟨0, 0⟩]
    f_table := [⟨1, PROT_READ, 0⟩, ⟨0, 0, 0⟩] }

/-- The state after read-faults on pages 0 and 1 under rand with 4 pages and
2 frames: page 1, loaded last, is in frame 0. -/
def ex13_state : State := (run (init "rand" 4 2) [(0, 0), (1, 0)]).state

/-- The state after one read-fault on page 0 with 4 pages and 3 frames. -/
def ex18_state (rt : String) : State := (run (init rt 4 3) [(0, 0)]).state

/-- Two states that agree on everything except the reference flags of the
frames. -/
def agree_upto_rbit (a b : State) : Prop :=
  a.fc = b.fc ∧ a.rc = b.rc ∧ a.wc = b.wc ∧ a.npages = b.npages ∧ a.nframes = b.nframes ∧
  a.rt = b.rt ∧ a.physmem = b.physmem ∧ a.disk = b.disk ∧ ft_eqv a.f_table b.f_table ∧
  a.ft_pointer = b.ft_pointer ∧ a.lt_pointer = b.lt_pointer ∧ a.fifo_arr = b.fifo_arr ∧
  a.pt = b.pt

/-- Two outcomes of the same kind (both return or both exit with the same
code) whose states agree on everything except the reference flags. -/
def agree_outcome : Outcome → Outcome → Prop
  | .ret a, .ret b => agree_upto_rbit a b
  | .exit c a, .exit d b => c = d ∧ agree_upto_rbit a b
  | _, _ => False

/-- The state `ex8_state` with the reference flags of all frames changed. -/
def ex15_state : State :=
  { ex8_state with f_table := ex8_state.f_table.map fun e => { e with rbit := 1 - e.rbit } }

/-- The logical content of a page: the contents of its frame if the page is
mapped, its block of the backing store otherwise. -/
def logical (s : State) (p : Nat) : Block :=
  if (page_table_get_entry s.pt p).bits ≠ 0 then rd s.physmem (page_table_get_entry s.pt p).frame
  else disk_read s.disk p

/-- Every frame whose permission is ReadOnly holds the block of its page. -/
def CleanRO (s : State) : Prop :=
  ∀ f, f < s.nframes → (rd s.f_table f).bits = PROT_READ →
    rd s.physmem f = disk_read s.disk (rd s.f_table f).page

instance (s : State) : Decidable (CleanRO s) := by
  unfold CleanRO; infer_instance

/-- A state in which page 0 is mapped ReadWrite to frame 1 with contents that
differ from its block, page 1 is mapped ReadOnly to frame 0, and the queue
head is frame 1. -/
def ex20_state (rt : String) : State :=
  { init rt 4 2 with
    pt := [⟨1, 3⟩, ⟨0, 1⟩, ⟨0, 0⟩, ⟨0, 0⟩]
    f_table := [⟨1, 1, 0⟩, ⟨0, 3, 0⟩]
    physmem := [[1], [77]]
    fifo_arr := [1, 0]
    rc := 2 }

/-- Two states with the same observable contents: counters, sizes, policy,
physical memory and backing store are equal, the frames have the same bits
and the occupied ones the same page, the pages have the same permission and
the mapped ones the same frame.  The queue, the reference flags, the page
field of an Absent frame and the frame field of an unmapped page are left
out. -/
def same_obs (a b : State) : Prop :=
  a.fc = b.fc ∧ a.rc = b.rc ∧ a.wc = b.wc ∧ a.npages = b.npages ∧ a.nframes = b.nframes ∧
  a.rt = b.rt ∧ a.physmem = b.physmem ∧ a.disk = b.disk ∧
  (∀ f, f < a.nframes → (rd a.f_table f).bits = (rd b.f_table f).bits ∧
    ((rd a.f_table f).bits ≠ 0 → (rd a.f_table f).page = (rd b.f_table f).page)) ∧
  (∀ p, p < a.npages → (rd a.pt p).bits = (rd b.pt p).bits ∧
    ((rd a.pt p).bits ≠ 0 → (rd a.pt p).frame = (rd b.pt p).frame))

instance (a b : State) : Decidable (same_obs a b) := by
  unfold same_obs; infer_instance

/-- An initial state like `init "rand" 4 2` with other values in the memory
the program does not initialise: the queue array, the page and reference
fields of the frames, the frame fields of the unmapped pages. -/
def ex14_init : State :=
  { init "rand" 4 2 with
    fifo_arr := [9, 7]
    f_table := [⟨3, 0, 1⟩, ⟨8, 0, 5⟩]
    pt := [⟨1, 0⟩, ⟨6, 0⟩, ⟨0, 0⟩, ⟨2, 0⟩] }

/-! ## The program `main` -/

/-- One memory access of a workload program through the page table: a load
from a page (`store = none`) or a store of a block of bytes to a page. -/
structure Access where
  page : Nat
  store : Option Block
deriving DecidableEq, Repr

/-- What `main` receives from the code that is not in `main.c`: the results
of `disk_open` and `page_table_create` (`none` is NULL), the memory `malloc`
returns for `fifo_arr` and `f_table` (`none` is NULL), the memory accesses the
workload program makes, and the value `lrand48` returns in the handler
invocation with a given number. -/
structure Env where
  disk : Option (List Block)
  table : Option (List PTE × List Block)
  fifo_mem : List Nat
  f_table_mem : Option (List Entry_frame)
  accesses : String → List Access
  draw : Nat → Nat

/-- How far a workload has come: it is done, the process having returned from
the workload or exited in the handler, or it is still retrying an access that
faults when the bound on the handler invocations for one access is used
up. -/
inductive Progress where
  | done (o : Outcome)
  | faulting (s : State)
deriving DecidableEq, Repr

/-- How a run of `main` ends: the exit status (`none`: `main` has not
returned, the workload is still retrying an access that faults), whether the
page table was created, the workload program that was run, and the globals at
that moment once `main` has set them all. -/
structure MainResult where
  status : Option Nat
  pt_created : Bool
  workload : Option String
  last : Option State
deriving DecidableEq, Repr

/-- Modelled from the spec: the page table of `page_table.c` (absent from
src/) lets a load through when the page is mapped with `PROT_READ` and a store
when it is mapped with `PROT_WRITE`. -/
def access_ok (s : State) (a : Access) : Bool :=
  match a.store with
  | none => decide ((page_table_get_entry s.pt a.page).bits &&& PROT_READ ≠ 0)
  | some _ => decide ((page_table_get_entry s.pt a.page).bits &&& PROT_WRITE ≠ 0)

/-- The effect of an access the page table lets through. -/
def perform (s : State) (a : Access) : State :=
  match a.store with
  | none => s
  | some d => workload_store s a.page d

/-- Modelled from the spec: the trap mechanism of `page_table.c` (absent from
src/).  An access the page table does not let through invokes the handler, and
when the handler returns the access is retried, faulting again if it is still
not let through.  The first argument bounds the handler invocations for this
one access. -/
def do_access (draw : Nat → Nat) : Nat → State → Access → Progress
  | 0, s, a => if access_ok s a then .done (.ret (perform s a)) else .faulting s
  | n + 1, s, a =>
    if access_ok s a then .done (.ret (perform s a))
    else
      match page_fault_handler s a.page (draw s.fc) with
      | .ret s1 => do_access draw n s1 a
      | .exit c s1 => .done (.exit c s1)

/-- The accesses of a workload one after the other; the workload stops when
the handler exits, and does not get past an access that keeps faulting. -/
def run_accesses (draw : Nat → Nat) (fuel : Nat) : State → List Access → Progress
  | s, [] => .done (.ret s)
  | s, a :: as =>
    match do_access draw fuel s a with
    | .done (.ret s1) => run_accesses draw fuel s1 as
    | .done (.exit c s1) => .done (.exit c s1)
    | .faulting s1 => .faulting s1

/-- Modelled from the spec: a workload program of `program.c` (absent from
src/), given by the memory accesses `as` it makes.  The process ends with the
exit status of the handler if it exits; when the program comes to an end it
returns to `main`, which frees its memory and returns 0 (lines 250-262); while
an access keeps faulting the program does not return. -/
def run_workload (program : String) (s0 : State) (draw : Nat → Nat) (fuel : Nat)
    (as : List Access) : MainResult :=
  match run_accesses draw fuel s0 as with
  | .done (.ret s) => ⟨some 0, true, some program, some s⟩
  | .done (.exit c s) => ⟨some c, true, some program, some s⟩
  | .faulting s => ⟨none, true, some program, some s⟩

/-- `main`, lines 198-263.  `argc` is the argument count, `npages_arg` and
`nframes_arg` are `atoi(argv[1])` and `atoi(argv[2])`, `policy` is `argv[3]`
and `program` is `argv[4]`; `fuel` bounds the handler invocations for one
access of the workload. -/
def main (fuel argc npages_arg nframes_arg : Nat) (policy program : String) (env : Env) :
    MainResult :=
  if argc ≠ 5 then ⟨some 1, false, none, none⟩
  else
    match env.disk with
    | none => ⟨some 1, false, none, none⟩
    | some disk =>
      match env.table with
      | none => ⟨some 1, false, none, none⟩
      | some (pt, physmem) =>
        match env.f_table_mem with
        | none => ⟨some 1, true, none, none⟩
        | some f_table =>
          let s0 : State :=
            { fc := 0, rc := 0, wc := 0, npages := npages_arg, nframes := nframes_arg,
              rt := policy, physmem := physmem, disk := disk, f_table := f_table,
              ft_pointer := 0, lt_pointer := 0, fifo_arr := env.fifo_mem, pt := pt }
          if program = "sort" then
            run_workload program s0 env.draw fuel (env.accesses program)
          else if program = "scan" then
            run_workload program s0 env.draw fuel (env.accesses program)
          else if program = "focus" then
            run_workload program s0 env.draw fuel (env.accesses program)
          else ⟨some 0, true, none, some s0⟩

/-- An environment in which every creation succeeds, for 4 pages and 2
frames, and the workload loads from pages 0 and 1 and then stores the byte 7
to page 0. -/
def ex_env : Env :=
  { disk := some (init "" 4 2).disk
    table := some ((init "" 4 2).pt, (init "" 4 2).physmem)
    fifo_mem := [0, 0]
    f_table_mem := some (init "" 4 2).f_table
    accesses := fun _ => [⟨0, none⟩, ⟨1, none⟩, ⟨0, some [7]⟩]
    draw := fun _ => 0 }

/-- Under fifo and lru every queue slot below `min rc nframes` was written by
an earlier read-fault of the history, and still holds the value written. -/
def WInv (s : State) (tr : List (State × Nat × Nat)) : Prop :=
  s.rt ≠ "rand" → ∀ j, j < s.nframes → j < s.rc →
    ∃ e, e ∈ tr ∧ is_read_fault e = true ∧ e.1.lt_pointer = j ∧
      rd (page_fault_handler e.1 e.2.1 e.2.2).state.fifo_arr j = rd s.fifo_arr j

/-! ## Properties -/

/-! ### Array reads and writes -/

theorem rd_set_eq {α : Type} [Inhabited α] (a : List α) (i : Nat) (v : α) (h : i < a.length) :
    rd (a.set i v) i = v := by
  simp [rd, List.getD, h]

theorem rd_set_ne {α : Type} [Inhabited α] (a : List α) (i j : Nat) (v : α) (h : i ≠ j) :
    rd (a.set i v) j = rd a j := by
  simp [rd, List.getD, List.getElem?_set_ne h]

theorem ft_eqv.refl (a : List Entry_frame) : ft_eqv a a := ⟨rfl, fun _ => ⟨rfl, rfl⟩⟩

theorem ft_eqv.trans {a b c : List Entry_frame} (h1 : ft_eqv a b) (h2 : ft_eqv b c) :
    ft_eqv a c :=
  ⟨h1.1.trans h2.1, fun i => ⟨(h1.2 i).1.trans (h2.2 i).1, (h1.2 i).2.trans (h2.2 i).2⟩⟩

theorem ft_eqv.set {a b : List Entry_frame} (h : ft_eqv a b) (v : Nat) {x y : Entry_frame}
    (hp : x.page = y.page) (hb : x.bits = y.bits) : ft_eqv (a.set v x) (b.set v y) := by
  refine ⟨by simp [h.1], ?_⟩
  intro i
  by_cases hi : v = i
  · subst hi
    by_cases hlt : v < a.length
    · rw [rd_set_eq _ _ _ hlt, rd_set_eq _ _ _ (h.1 ▸ hlt)]; exact ⟨hp, hb⟩
    · rw [List.set_eq_of_length_le (by omega), List.set_eq_of_length_le (by rw [← h.1]; omega)]
      exact h.2 v
  · rw [rd_set_ne _ _ _ _ hi, rd_set_ne _ _ _ _ hi]; exact h.2 i

theorem ft_eqv.set_self {a b : List Entry_frame} (h : ft_eqv a b) (v : Nat) {x : Entry_frame}
    (hp : x.page = (rd a v).page) (hb : x.bits = (rd a v).bits) : ft_eqv (a.set v x) b := by
  refine ⟨by simp [h.1], ?_⟩
  intro i
  by_cases hi : v = i
  · subst hi
    by_cases hlt : v < a.length
    · rw [rd_set_eq _ _ _ hlt, hp, hb]; exact h.2 v
    · rw [List.set_eq_of_length_le (by omega)]
      exact h.2 v
  · rw [rd_set_ne _ _ _ _ hi]; exact h.2 i

theorem ft_eqv_set_rbit (a : List Entry_frame) (i c : Nat) (x : Entry_frame) :
    ft_eqv (a.set i { page := (rd (a.set i x) i).page, bits := (rd (a.set i x) i).bits, rbit := c })
      (a.set i x) := by
  by_cases hi : i < a.length
  · rw [rd_set_eq _ _ _ hi]
    exact (ft_eqv.refl _).set _ rfl rfl
  · rw [List.set_eq_of_length_le (by omega), List.set_eq_of_length_le (by omega)]
    exact ft_eqv.refl _

/-! ### The three branches of the handler -/

theorem str_ne1 : ¬ ("fifo" = "rand") := by decide
theorem str_ne2 : ¬ ("lru" = "rand") := by decide
theorem str_ne3 : ¬ ("lru" = "fifo") := by decide

theorem handler_read_free (s : State) (p r i : Nat) (hrt : KnownPolicy s.rt)
    (hb : (rd s.pt p).bits = 0) (hs : scan_free s.nframes s.f_table = some i) :
    ∃ s2, page_fault_handler s p r = .ret s2 ∧ Fixed s s2 ∧ ReadFree s p i s2 := by
  refine ⟨(page_fault_handler s p r).state, ?_, ?_, ?_⟩
  · rcases hrt with h | h | h <;>
      simp [page_fault_handler, h, rand_helper, fifo_helper, lru_helper, page_table_get_entry,
        hb, hs, Outcome.state]
  · rcases hrt with h | h | h <;>
      constructor <;>
      simp [page_fault_handler, h, rand_helper, fifo_helper, lru_helper, page_table_get_entry,
        hb, hs, Outcome.state, set_entry_add_data, set_rbit]
  · rcases hrt with h | h | h
    · constructor <;>
      simp [page_fault_handler, h, rand_helper, fifo_helper, lru_helper, page_table_get_entry,
        hb, hs, Outcome.state, set_entry_add_data, set_rbit, page_table_set_entry, PROT_READ,
        disk_read]
      exact (ft_eqv.refl _).set _ rfl rfl
    · constructor <;>
      simp [page_fault_handler, h, rand_helper, fifo_helper, lru_helper, page_table_get_entry,
        hb, hs, Outcome.state, set_entry_add_data, set_rbit, page_table_set_entry, PROT_READ,
        disk_read]
      exact (ft_eqv.refl _).set _ rfl rfl
    · constructor <;>
      simp [page_fault_handler, h, rand_helper, fifo_helper, lru_helper, page_table_get_entry,
        hb, hs, Outcome.state, set_entry_add_data, set_rbit, page_table_set_entry, PROT_READ,
        disk_read]
      exact (ft_eqv_set_rbit _ _ _ _).trans ((ft_eqv.refl _).set _ rfl rfl)

theorem scan_rbit_spec (ft : List Entry_frame) (n : Nat) :
    (scan_rbit n ft).2.length = ft.length ∧
    ∀ i, (rd (scan_rbit n ft).2 i).page = (rd ft i).page ∧
      (rd (scan_rbit n ft).2 i).bits = (rd ft i).bits := by
  induction n with
  | zero => simp [scan_rbit]
  | succ n ih =>
    have hstep : scan_rbit (n + 1) ft =
        if (rd (scan_rbit n ft).2 n).rbit = 0 then (some n, (scan_rbit n ft).2)
        else ((scan_rbit n ft).1,
          (scan_rbit n ft).2.set n { rd (scan_rbit n ft).2 n with rbit := 0 }) := by
      simp [scan_rbit, List.range_succ, List.foldl_append]
    rw [hstep]
    obtain ⟨hl, hp⟩ := ih
    split
    · exact ⟨hl, hp⟩
    · refine ⟨by simp [hl], ?_⟩
      intro i
      by_cases hi : n = i
      · subst hi
        by_cases hlt : n < (scan_rbit n ft).2.length
        · rw [rd_set_eq _ _ _ hlt]; exact hp n
        · rw [List.set_eq_of_length_le (by omega)]; exact hp n
      · rw [rd_set_ne _ _ _ _ hi]; exact hp i

theorem scan_rbit_eqv (ft : List Entry_frame) (n : Nat) : ft_eqv (scan_rbit n ft).2 ft :=
  scan_rbit_spec ft n

theorem scan_rbit_page (ft : List Entry_frame) (n i : Nat) :
    (rd (scan_rbit n ft).2 i).page = (rd ft i).page := ((scan_rbit_spec ft n).2 i).1

theorem scan_rbit_bits (ft : List Entry_frame) (n i : Nat) :
    (rd (scan_rbit n ft).2 i).bits = (rd ft i).bits := ((scan_rbit_spec ft n).2 i).2

theorem ft_eqv_set_rbit2 {a b : List Entry_frame} (h : ft_eqv a b) (i c : Nat)
    (x y : Entry_frame) (hp : x.page = y.page) (hb : x.bits = y.bits) :
    ft_eqv (a.set i { page := (rd (a.set i x) i).page, bits := (rd (a.set i x) i).bits, rbit := c })
      (b.set i y) :=
  (ft_eqv_set_rbit a i c x).trans (h.set i hp hb)

theorem rm_page_eq (s : State) (v : Nat) :
    rm_page s v =
      { s with
        disk := if (rd s.f_table v).bits &&& PROT_WRITE ≠ 0
          then s.disk.set (rd s.f_table v).page (rd s.physmem v) else s.disk
        wc := if (rd s.f_table v).bits &&& PROT_WRITE ≠ 0 then s.wc + 1 else s.wc
        pt := s.pt.set (rd s.f_table v).page ⟨v, 0⟩
        f_table := s.f_table.set v { rd s.f_table v with bits := 0 } } := by
  unfold rm_page
  by_cases h : (rd s.f_table v).bits &&& PROT_WRITE = 0 <;>
    simp [h, disk_write, page_table_set_entry]

theorem handler_read_evict (s : State) (p r : Nat) (hrt : KnownPolicy s.rt)
    (hb : (rd s.pt p).bits = 0) (hs : scan_free s.nframes s.f_table = none) :
    ∃ s2, page_fault_handler s p r = .ret s2 ∧ Fixed s s2 ∧ ReadEvict s p (victim s r) s2 := by
  refine ⟨(page_fault_handler s p r).state, ?_, ?_, ?_⟩
  · rcases hrt with h | h | h <;>
      simp [page_fault_handler, h, rand_helper, fifo_helper, lru_helper, page_table_get_entry,
        hb, hs, Outcome.state]
  · rcases hrt with h | h | h <;>
      constructor <;>
      simp [page_fault_handler, h, rand_helper, fifo_helper, lru_helper, page_table_get_entry,
        hb, hs, Outcome.state, set_entry_add_data, set_rbit, rm_page_eq]
  · rcases hrt with h | h | h
    · constructor <;>
      simp [page_fault_handler, h, rand_helper, fifo_helper, lru_helper, page_table_get_entry,
        hb, hs, Outcome.state, set_entry_add_data, set_rbit, page_table_set_entry, PROT_READ,
        disk_read, rm_page_eq, victim]
      exact (ft_eqv.refl _).set _ rfl rfl
    · constructor <;>
      simp [page_fault_handler, h, rand_helper, fifo_helper, lru_helper, page_table_get_entry,
        hb, hs, Outcome.state, set_entry_add_data, set_rbit, page_table_set_entry, PROT_READ,
        disk_read, rm_page_eq, victim, str_ne1, str_ne2, str_ne3]
      exact (ft_eqv.refl _).set _ rfl rfl
    · constructor <;>
      simp [page_fault_handler, h, rand_helper, fifo_helper, lru_helper, page_table_get_entry,
        hb, hs, Outcome.state, set_entry_add_data, set_rbit, page_table_set_entry, PROT_READ,
        disk_read, rm_page_eq, victim, str_ne1, str_ne2, str_ne3, scan_rbit_page, scan_rbit_bits]
      exact ft_eqv_set_rbit2 (scan_rbit_eqv _ _) _ _ _ _ rfl rfl

theorem prot_rw : PROT_READ ||| PROT_WRITE = 3 := by decide

theorem handler_write (s : State) (p r : Nat) (hrt : KnownPolicy s.rt)
    (hb : (rd s.pt p).bits ≠ 0) (hr : (rd s.pt p).bits &&& PROT_READ ≠ 0) :
    ∃ s2, page_fault_handler s p r = .ret s2 ∧ Fixed s s2 ∧ WriteUp s p s2 := by
  refine ⟨(page_fault_handler s p r).state, ?_, ?_, ?_⟩
  · rcases hrt with h | h | h <;>
      simp [page_fault_handler, h, rand_helper, fifo_helper, lru_helper, page_table_get_entry,
        hb, hr, Outcome.state]
  · rcases hrt with h | h | h <;>
      constructor <;>
      simp [page_fault_handler, h, rand_helper, fifo_helper, lru_helper, page_table_get_entry,
        hb, hr, Outcome.state, set_entry_add_data, set_rbit]
  · rcases hrt with h | h | h
    · constructor <;>
      simp [page_fault_handler, h, rand_helper, fifo_helper, lru_helper, page_table_get_entry,
        hb, hr, Outcome.state, set_entry_add_data, set_rbit, page_table_set_entry, prot_rw]
      exact (ft_eqv.refl _).set _ rfl rfl
    · constructor <;>
      simp [page_fault_handler, h, rand_helper, fifo_helper, lru_helper, page_table_get_entry,
        hb, hr, Outcome.state, set_entry_add_data, set_rbit, page_table_set_entry, prot_rw,
        str_ne1, str_ne2, str_ne3]
      exact (ft_eqv.refl _).set _ rfl rfl
    · constructor <;>
      simp [page_fault_handler, h, rand_helper, fifo_helper, lru_helper, page_table_get_entry,
        hb, hr, Outcome.state, set_entry_add_data, set_rbit, page_table_set_entry, prot_rw,
        str_ne1, str_ne2, str_ne3]
      exact ft_eqv_set_rbit2 (ft_eqv.refl _) _ _ _ _ rfl rfl

theorem handler_exit (s : State) (p r : Nat) (hrt : KnownPolicy s.rt)
    (hb : (rd s.pt p).bits ≠ 0) (hr : (rd s.pt p).bits &&& PROT_READ = 0) :
    page_fault_handler s p r = .exit 1 s := by
  rcases hrt with h | h | h <;>
    simp [page_fault_handler, h, rand_helper, fifo_helper, lru_helper, page_table_get_entry,
      hb, hr]

/-! ### Preservation of the invariants -/

theorem Cons.same {n m : Nat} {ft ft2 : List Entry_frame} {pt : List PTE}
    (h : Cons n m ft pt) (hl : ft2.length = ft.length)
    (hp : ∀ i, (rd ft2 i).page = (rd ft i).page ∧ (rd ft2 i).bits = (rd ft i).bits) :
    Cons n m ft2 pt := by
  refine ⟨by rw [hl]; exact h.len_ft, h.len_pt, ?_, ?_, h.perm⟩
  · intro f hf hb
    rw [(hp f).1, (hp f).2] at *
    exact h.ft_pt f hf hb
  · intro p hpm hb
    rw [(hp _).1, (hp _).2]
    exact h.pt_ft p hpm hb

theorem Cons.fill {n m : Nat} {ft : List Entry_frame} {pt : List PTE}
    (h : Cons n m ft pt) {p i : Nat} (hp : p < m) (hpb : (rd pt p).bits = 0)
    (hi : i < n) (hib : (rd ft i).bits = 0) :
    Cons n m (ft.set i { rd ft i with page := p, bits := 1 }) (pt.set p ⟨i, 1⟩) := by
  have hlf := h.len_ft
  have hlp := h.len_pt
  refine ⟨by simp [hlf], by simp [hlp], ?_, ?_, ?_⟩
  · intro f hf hb
    by_cases hfi : i = f
    · subst hfi
      rw [rd_set_eq _ _ _ (by omega)]
      exact ⟨hp, rd_set_eq _ _ _ (by omega)⟩
    · rw [rd_set_ne _ _ _ _ hfi] at hb ⊢
      obtain ⟨h1, h2⟩ := h.ft_pt f hf hb
      have hne : p ≠ (rd ft f).page := by
        intro he; rw [← he] at h2
        have h3 := congrArg PTE.bits h2
        rw [hpb] at h3
        exact hb h3.symm
      rw [rd_set_ne _ _ _ _ hne]
      exact ⟨h1, h2⟩
  · intro q hq hb
    by_cases hqp : p = q
    · subst hqp
      rw [rd_set_eq _ _ _ (by omega)]
      simp only
      rw [rd_set_eq _ _ _ (by omega)]
      exact ⟨hi, rfl, rfl⟩
    · rw [rd_set_ne _ _ _ _ hqp] at hb ⊢
      obtain ⟨h1, h2, h3⟩ := h.pt_ft q hq hb
      have hne : i ≠ (rd pt q).frame := by
        intro he; rw [← he, hib] at h3; exact hb h3.symm
      rw [rd_set_ne _ _ _ _ hne]
      exact ⟨h1, h2, h3⟩
  · intro q hq
    by_cases hqp : p = q
    · subst hqp
      rw [rd_set_eq _ _ _ (by omega)]; simp
    · rw [rd_set_ne _ _ _ _ hqp]; exact h.perm q hq

theorem Cons.rm {n m : Nat} {ft : List Entry_frame} {pt : List PTE}
    (h : Cons n m ft pt) {v : Nat} (hv : v < n) (hvb : (rd ft v).bits ≠ 0) :
    Cons n m (ft.set v { rd ft v with bits := 0 }) (pt.set (rd ft v).page ⟨v, 0⟩) := by
  have hlf := h.len_ft
  have hlp := h.len_pt
  obtain ⟨hq, hpq⟩ := h.ft_pt v hv hvb
  refine ⟨by simp [hlf], by simp [hlp], ?_, ?_, ?_⟩
  · intro f hf hb
    by_cases hfv : v = f
    · subst hfv
      rw [rd_set_eq _ _ _ (by omega)] at hb
      exact absurd rfl hb
    · rw [rd_set_ne _ _ _ _ hfv] at hb ⊢
      obtain ⟨h1, h2⟩ := h.ft_pt f hf hb
      have hne : (rd ft v).page ≠ (rd ft f).page := by
        intro he; rw [← he, hpq] at h2
        exact hfv (congrArg PTE.frame h2)
      rw [rd_set_ne _ _ _ _ hne]
      exact ⟨h1, h2⟩
  · intro p hp hb
    by_cases hpq2 : (rd ft v).page = p
    · rw [← hpq2, rd_set_eq _ _ _ (by omega)] at hb
      exact absurd rfl hb
    · rw [rd_set_ne _ _ _ _ hpq2] at hb ⊢
      obtain ⟨h1, h2, h3⟩ := h.pt_ft p hp hb
      have hne : v ≠ (rd pt p).frame := by
        intro he; rw [← he] at h2; exact hpq2 h2
      rw [rd_set_ne _ _ _ _ hne]
      exact ⟨h1, h2, h3⟩
  · intro p hp
    by_cases hpq2 : (rd ft v).page = p
    · rw [← hpq2, rd_set_eq _ _ _ (by omega)]; simp
    · rw [rd_set_ne _ _ _ _ hpq2]; exact h.perm p hp

theorem Cons.upgrade {n m : Nat} {ft : List Entry_frame} {pt : List PTE}
    (h : Cons n m ft pt) {p : Nat} (hp : p < m) (hpb : (rd pt p).bits ≠ 0) :
    Cons n m (ft.set (rd pt p).frame { rd ft (rd pt p).frame with page := p, bits := 3 })
      (pt.set p ⟨(rd pt p).frame, 3⟩) := by
  have hlf := h.len_ft
  have hlp := h.len_pt
  obtain ⟨hf, hfp, hfb⟩ := h.pt_ft p hp hpb
  refine ⟨by simp [hlf], by simp [hlp], ?_, ?_, ?_⟩
  · intro g hg hb
    by_cases hgf : (rd pt p).frame = g
    · subst hgf
      rw [rd_set_eq _ _ _ (by omega)]
      exact ⟨hp, rd_set_eq _ _ _ (by omega)⟩
    · rw [rd_set_ne _ _ _ _ hgf] at hb ⊢
      obtain ⟨h1, h2⟩ := h.ft_pt g hg hb
      have hne : p ≠ (rd ft g).page := by
        intro he; rw [← he] at h2
        exact hgf (congrArg PTE.frame h2)
      rw [rd_set_ne _ _ _ _ hne]
      exact ⟨h1, h2⟩
  · intro q hq hb
    by_cases hqp : p = q
    · subst hqp
      rw [rd_set_eq _ _ _ (by omega)]
      simp only
      rw [rd_set_eq _ _ _ (by omega)]
      exact ⟨hf, rfl, rfl⟩
    · rw [rd_set_ne _ _ _ _ hqp] at hb ⊢
      obtain ⟨h1, h2, h3⟩ := h.pt_ft q hq hb
      have hne : (rd pt p).frame ≠ (rd pt q).frame := by
        intro he; rw [← he, hfp] at h2; exact hqp h2
      rw [rd_set_ne _ _ _ _ hne]
      exact ⟨h1, h2, h3⟩
  · intro q hq
    by_cases hqp : p = q
    · subst hqp
      rw [rd_set_eq _ _ _ (by omega)]; simp
    · rw [rd_set_ne _ _ _ _ hqp]; exact h.perm q hq

/-- The loop of `scan_free` over the first `n` frames. -/
theorem scan_free_spec (ft : List Entry_frame) (n : Nat) :
    (scan_free n ft = none ∧ ∀ i < n, (rd ft i).bits ≠ 0) ∨
    (∃ i, scan_free n ft = some i ∧ i < n ∧ (rd ft i).bits = 0 ∧
      ∀ j, i < j → j < n → (rd ft j).bits ≠ 0) := by
  induction n with
  | zero => left; simp [scan_free]
  | succ n ih =>
    have hstep : scan_free (n + 1) ft =
        if (rd ft n).bits = 0 then some n else scan_free n ft := by
      simp [scan_free, List.range_succ, List.foldl_append]
    rw [hstep]
    by_cases hn : (rd ft n).bits = 0
    · right
      refine ⟨n, by simp [hn], by omega, hn, ?_⟩
      intro j h1 h2; omega
    · simp only [hn, if_false]
      rcases ih with ⟨h1, h2⟩ | ⟨i, h1, h2, h3, h4⟩
      · left
        refine ⟨h1, ?_⟩
        intro i hi
        rcases Nat.lt_succ_iff_lt_or_eq.mp hi with h | h
        · exact h2 i h
        · subst h; exact hn
      · right
        refine ⟨i, h1, by omega, h3, ?_⟩
        intro j hj1 hj2
        rcases Nat.lt_succ_iff_lt_or_eq.mp hj2 with h | h
        · exact h4 j hj1 h
        · subst h; exact hn

theorem rd_of_mem_all {α : Type} [Inhabited α] (a : List α) (P : α → Prop)
    (h : ∀ e ∈ a, P e) (i : Nat) (hi : i < a.length) : P (rd a i) := by
  have : rd a i = a[i] := by simp [rd, List.getD, hi]
  rw [this]; exact h _ (List.getElem_mem hi)

theorem Cons.eqv {n m : Nat} {ft ft2 : List Entry_frame} {pt : List PTE}
    (h : Cons n m ft pt) (he : ft_eqv ft2 ft) : Cons n m ft2 pt :=
  h.same he.1 he.2

theorem rd_eqv_bits {a b : List Entry_frame} (h : ft_eqv a b) (i : Nat) :
    (rd a i).bits = (rd b i).bits := (h.2 i).2

theorem rd_eqv_page {a b : List Entry_frame} (h : ft_eqv a b) (i : Nat) :
    (rd a i).page = (rd b i).page := (h.2 i).1

/-- In fifo and lru the free frames are the lowest ones, so the scan finds
frame `nframes - 1 - rc`. -/
theorem QInv.scan_some {s : State} (hq : QInv s) {i : Nat}
    (hs : scan_free s.nframes s.f_table = some i) : i + s.rc + 1 = s.nframes := by
  rcases scan_free_spec s.f_table s.nframes with ⟨h1, _⟩ | ⟨j, h1, h2, h3, h4⟩
  · rw [h1] at hs; cases hs
  · rw [h1] at hs; cases hs
    have ha := (hq.free i h2).1 h3
    by_cases hlast : i + 1 < s.nframes
    · have hb := h4 (i + 1) (by omega) hlast
      have hc := (hq.free (i + 1) hlast).not.1 hb
      omega
    · omega

theorem QInv.scan_none {s : State} (hq : QInv s) (hn : 1 ≤ s.nframes)
    (hs : scan_free s.nframes s.f_table = none) :
    s.nframes ≤ s.rc ∧ rd s.fifo_arr s.ft_pointer = s.nframes - 1 - s.rc % s.nframes ∧
      s.ft_pointer = s.rc % s.nframes := by
  rcases scan_free_spec s.f_table s.nframes with ⟨_, h2⟩ | ⟨j, h1, _⟩
  · have h0 := (hq.free 0 (by omega)).not.1 (h2 0 (by omega))
    have hge : s.nframes ≤ s.rc := by omega
    have hh := hq.head
    rw [if_neg (by omega)] at hh
    have hlt : s.rc % s.nframes < s.nframes := Nat.mod_lt _ (by omega)
    refine ⟨hge, ?_, hh⟩
    rw [hh]
    exact hq.arr _ hlt (by omega)
  · rw [h1] at hs; cases hs

theorem victim_lt {s : State} (hg : Good s) (r : Nat)
    (hs : scan_free s.nframes s.f_table = none) : victim s r < s.nframes := by
  have hn := hg.nf
  unfold victim
  split
  · exact Nat.mod_lt _ (by omega)
  · next h =>
    rw [(QInv.scan_none (hg.queue h) hn hs).2.1]
    omega

theorem scan_none_occupied {s : State} (hs : scan_free s.nframes s.f_table = none)
    {f : Nat} (hf : f < s.nframes) : (rd s.f_table f).bits ≠ 0 := by
  rcases scan_free_spec s.f_table s.nframes with ⟨_, h2⟩ | ⟨j, h1, _⟩
  · exact h2 f hf
  · rw [h1] at hs; cases hs

theorem scan_some_free {n : Nat} {ft : List Entry_frame} {i : Nat}
    (hs : scan_free n ft = some i) :
    i < n ∧ (rd ft i).bits = 0 ∧ ∀ j, i < j → j < n → (rd ft j).bits ≠ 0 := by
  rcases scan_free_spec ft n with ⟨h1, _⟩ | ⟨j, h1, h2, h3, h4⟩
  · rw [h1] at hs; cases hs
  · rw [h1] at hs; cases hs; exact ⟨h2, h3, h4⟩

theorem good_read_free {s s2 : State} {p i : Nat} (hg : Good s) (hp : p < s.npages)
    (hb : (rd s.pt p).bits = 0) (hs : scan_free s.nframes s.f_table = some i)
    (hf : Fixed s s2) (h : ReadFree s p i s2) : Good s2 := by
  obtain ⟨hi, hib, _⟩ := scan_some_free hs
  have hlf := hg.cons.len_ft
  refine ⟨by rw [hf.nframes]; exact hg.nf, ?_, ?_, ?_, ?_, ?_⟩
  · rw [hf.nframes, hf.npages, h.pt]
    exact (hg.cons.fill hp hb hi hib).eqv (h.ft.trans ((ft_eqv.refl _).set _ rfl rfl))
  · rw [hf.nframes]
    by_cases hr : s.rt = "rand"
    · rw [(h.queue_rand hr).1]; exact hg.len_fifo
    · rw [(h.queue hr).1]; simp [hg.len_fifo]
  · rw [hf.nframes, h.physmem]; simp [hg.len_phys]
  · rw [hf.npages, h.disk]; exact hg.len_disk
  · intro hr
    rw [hf.rt] at hr
    have hq := hg.queue hr
    have hirc := hq.scan_some hs
    obtain ⟨hfa, hlt⟩ := h.queue hr
    have htl := hq.tail
    have hhd := hq.head
    rw [Nat.mod_eq_of_lt (by omega)] at htl
    rw [if_pos (by omega)] at hhd
    refine ⟨?_, ?_, ?_, ?_⟩
    · rw [hlt, h.rc, hf.nframes, htl]
    · rw [h.head, h.rc, hf.nframes, hhd]
      split
      · rfl
      · have : s.rc + 1 = s.nframes := by omega
        rw [this, Nat.mod_self]
    · intro f hfn
      rw [hf.nframes] at hfn ⊢
      rw [h.rc, rd_eqv_bits h.ft]
      by_cases hfi : i = f
      · subst hfi
        rw [rd_set_eq _ _ _ (by omega)]
        simp; omega
      · rw [rd_set_ne _ _ _ _ hfi, hq.free f hfn]
        omega
    · intro j hj hjr
      rw [hf.nframes] at hj ⊢
      rw [h.rc] at hjr
      rw [hfa, htl]
      by_cases hjl : s.rc = j
      · subst hjl
        rw [rd_set_eq _ _ _ (by rw [hg.len_fifo]; omega)]
        omega
      · rw [rd_set_ne _ _ _ _ hjl]
        exact hq.arr j hj (by omega)

/-- Facts about the victim of an eviction in a good state. -/
theorem victim_facts {s : State} (hg : Good s) {p : Nat} (r : Nat)
    (hb : (rd s.pt p).bits = 0) (hs : scan_free s.nframes s.f_table = none) :
    victim s r < s.nframes ∧ (rd s.f_table (victim s r)).bits ≠ 0 ∧
      (rd s.f_table (victim s r)).page < s.npages ∧
      (rd s.f_table (victim s r)).page ≠ p := by
  have hv := victim_lt hg r hs
  have hvb := scan_none_occupied hs hv
  obtain ⟨h1, h2⟩ := hg.cons.ft_pt _ hv hvb
  refine ⟨hv, hvb, h1, ?_⟩
  intro he
  rw [he] at h2
  have h3 := congrArg PTE.bits h2
  rw [hb] at h3
  exact hvb h3.symm

theorem good_read_evict {s s2 : State} {p r : Nat} (hg : Good s) (hp : p < s.npages)
    (hb : (rd s.pt p).bits = 0) (hs : scan_free s.nframes s.f_table = none)
    (hf : Fixed s s2) (h : ReadEvict s p (victim s r) s2) : Good s2 := by
  obtain ⟨hv, hvb, hq, hqp⟩ := victim_facts hg r hb hs
  have hlf := hg.cons.len_ft
  have hlp := hg.cons.len_pt
  have hn := hg.nf
  refine ⟨by rw [hf.nframes]; exact hg.nf, ?_, ?_, ?_, ?_, ?_⟩
  · rw [hf.nframes, hf.npages, h.pt]
    have c1 := hg.cons.rm hv hvb
    have hb1 : (rd (s.pt.set (rd s.f_table (victim s r)).page ⟨victim s r, 0⟩) p).bits = 0 := by
      rw [rd_set_ne _ _ _ _ hqp]; exact hb
    have hv1 : (rd (s.f_table.set (victim s r)
        { rd s.f_table (victim s r) with bits := 0 }) (victim s r)).bits = 0 := by
      rw [rd_set_eq _ _ _ (by omega)]
    have c2 := c1.fill hp hb1 hv hv1
    rw [List.set_set] at c2
    exact c2.eqv (h.ft.trans ((ft_eqv.refl _).set _ rfl rfl))
  · rw [hf.nframes]
    by_cases hr : s.rt = "rand"
    · rw [(h.queue_rand hr).1]; exact hg.len_fifo
    · rw [(h.queue hr).1]; simp [hg.len_fifo]
  · rw [hf.nframes, h.physmem]; simp [hg.len_phys]
  · rw [hf.npages, h.disk]; split <;> simp [hg.len_disk]
  · intro hr
    rw [hf.rt] at hr
    have hqi := hg.queue hr
    obtain ⟨hge, hhead, hft⟩ := hqi.scan_none hn hs
    obtain ⟨hfa, hlt, hfp⟩ := h.queue hr
    have hvv : victim s r = s.nframes - 1 - s.rc % s.nframes := by
      unfold victim; rw [if_neg hr]; exact hhead
    have hmod : s.rc % s.nframes < s.nframes := Nat.mod_lt _ (by omega)
    refine ⟨?_, ?_, ?_, ?_⟩
    · rw [hlt, h.rc, hf.nframes, hqi.tail, Nat.mod_add_mod]
    · rw [hfp, h.rc, hf.nframes, hft, Nat.mod_add_mod, if_neg (by omega)]
    · intro f hfn
      rw [hf.nframes] at hfn ⊢
      rw [h.rc, rd_eqv_bits h.ft]
      have hocc := scan_none_occupied hs hfn
      by_cases hfi : victim s r = f
      · subst hfi
        rw [rd_set_eq _ _ _ (by omega)]
        simp; omega
      · rw [rd_set_ne _ _ _ _ hfi]
        constructor
        · intro h0; exact absurd h0 hocc
        · intro h0; omega
    · intro j hj hjr
      rw [hf.nframes] at hj ⊢
      rw [hfa, hqi.tail]
      by_cases hjl : s.rc % s.nframes = j
      · subst hjl
        rw [rd_set_eq _ _ _ (by rw [hg.len_fifo]; omega)]
        exact hvv
      · rw [rd_set_ne _ _ _ _ hjl]
        exact hqi.arr j hj (by omega)

theorem good_write {s s2 : State} {p : Nat} (hg : Good s) (hp : p < s.npages)
    (hb : (rd s.pt p).bits ≠ 0) (hf : Fixed s s2) (h : WriteUp s p s2) : Good s2 := by
  obtain ⟨hfr, hfp, hfb⟩ := hg.cons.pt_ft p hp hb
  have hlf := hg.cons.len_ft
  refine ⟨by rw [hf.nframes]; exact hg.nf, ?_, ?_, ?_, ?_, ?_⟩
  · rw [hf.nframes, hf.npages, h.pt]
    exact (hg.cons.upgrade hp hb).eqv (h.ft.trans ((ft_eqv.refl _).set _ rfl rfl))
  · rw [hf.nframes, h.fifo_arr]; exact hg.len_fifo
  · rw [hf.nframes, h.physmem]; exact hg.len_phys
  · rw [hf.npages, h.disk]; exact hg.len_disk
  · intro hr
    rw [hf.rt] at hr
    have hq := hg.queue hr
    refine ⟨?_, ?_, ?_, ?_⟩
    · rw [h.lt_pointer, h.rc, hf.nframes]; exact hq.tail
    · rw [h.ft_pointer, h.rc, hf.nframes]; exact hq.head
    · intro f hfn
      rw [hf.nframes] at hfn ⊢
      rw [h.rc, rd_eqv_bits h.ft]
      by_cases hfi : (rd s.pt p).frame = f
      · subst hfi
        rw [rd_set_eq _ _ _ (by omega)]
        have := (hq.free _ hfr).not.1 (by rw [hfb]; exact hb)
        simp; omega
      · rw [rd_set_ne _ _ _ _ hfi]; exact hq.free f hfn
    · intro j hj hjr
      rw [hf.nframes] at hj ⊢
      rw [h.rc] at hjr
      rw [h.fifo_arr]
      exact hq.arr j hj hjr

theorem perm_read {b : Nat} (h : b = 0 ∨ b = 1 ∨ b = 3) (hb : b ≠ 0) :
    b &&& PROT_READ ≠ 0 := by
  rcases h with h | h | h
  · exact absurd h hb
  · subst h; decide
  · subst h; decide

/-- In a good state the handler returns, in a good state, through one of the
three branches. -/
theorem handler_good (s : State) (p r : Nat) (hg : Good s) (hrt : KnownPolicy s.rt)
    (hp : p < s.npages) :
    ∃ s2, page_fault_handler s p r = .ret s2 ∧ Fixed s s2 ∧ Good s2 ∧ Step s p r s2 := by
  by_cases hb : (rd s.pt p).bits = 0
  · cases hs : scan_free s.nframes s.f_table with
    | none =>
      obtain ⟨s2, h1, h2, h3⟩ := handler_read_evict s p r hrt hb hs
      exact ⟨s2, h1, h2, good_read_evict hg hp hb hs h2 h3, Or.inr (Or.inl ⟨hb, hs, h3⟩)⟩
    | some i =>
      obtain ⟨s2, h1, h2, h3⟩ := handler_read_free s p r i hrt hb hs
      exact ⟨s2, h1, h2, good_read_free hg hp hb hs h2 h3, Or.inl ⟨hb, i, hs, h3⟩⟩
  · obtain ⟨s2, h1, h2, h3⟩ :=
      handler_write s p r hrt hb (perm_read (hg.cons.perm p hp) hb)
    exact ⟨s2, h1, h2, good_write hg hp hb h2 h3, Or.inr (Or.inr ⟨hb, h3⟩)⟩

theorem good_initial {s : State} (h : IsInitial s) : Good s := by
  obtain ⟨h1, h2, h3, h4, h5, h6, h7, h8, h9, h10, h11, h12, h13⟩ := h
  refine ⟨h6, ⟨h7, h10, ?_, ?_, ?_⟩, h8, h9, h11, fun _ => ⟨?_, ?_, ?_, ?_⟩⟩
  · intro f hf hb
    exact absurd (rd_of_mem_all s.f_table (fun e => e.bits = 0) h12 f (by omega)) hb
  · intro p hp hb
    exact absurd (rd_of_mem_all s.pt (fun e => e.bits = 0) h13 p (by omega)) hb
  · intro p hp
    exact Or.inl (rd_of_mem_all s.pt (fun e => e.bits = 0) h13 p (by omega))
  · rw [h5, h2, Nat.zero_mod]
  · rw [h4, h2, if_pos (by omega)]
  · intro f hf
    have := rd_of_mem_all s.f_table (fun e => e.bits = 0) h12 f (by omega)
    simp only at this
    rw [h2]; constructor
    · intro _; omega
    · intro _; exact this
  · intro j _ hj; rw [h2] at hj; omega

/-- A run from a good state returns, in a good state. -/
theorem run_good (fs : List (Nat × Nat)) (s : State) (hg : Good s) (hrt : KnownPolicy s.rt)
    (hfs : ∀ f ∈ fs, f.1 < s.npages) :
    ∃ s2, run s fs = .ret s2 ∧ Good s2 ∧ s2.rt = s.rt ∧ s2.nframes = s.nframes ∧
      s2.npages = s.npages := by
  induction fs generalizing s with
  | nil => exact ⟨s, rfl, hg, rfl, rfl, rfl⟩
  | cons f fs ih =>
    obtain ⟨s1, h1, h2, h3, _⟩ := handler_good s f.1 f.2 hg hrt (hfs f (List.mem_cons_self _ _))
    obtain ⟨s2, h5, h6, h7, h8, h9⟩ := ih s1 h3 (by rw [h2.rt]; exact hrt)
      (fun g hgm => by rw [h2.npages]; exact hfs g (List.mem_cons_of_mem _ hgm))
    refine ⟨s2, ?_, h6, by rw [h7, h2.rt], by rw [h8, h2.nframes], by rw [h9, h2.npages]⟩
    simp [run, h1, h5]

/-! ### Consistency of frame table and page table, read-faults, write-faults -/

theorem reachable_good {s : State} (h : Reachable s) : Good s ∧ KnownPolicy s.rt := by
  obtain ⟨s0, fs, h0, hrt, hfs, hrun⟩ := h
  obtain ⟨s2, h1, h2, h3, _⟩ := run_good fs s0 (good_initial h0) hrt hfs
  rw [h1] at hrun
  cases hrun
  exact ⟨h2, by rw [h3]; exact hrt⟩

theorem length_le_one_of_all_eq (l : List Nat) (hn : l.Nodup)
    (h : ∀ a ∈ l, ∀ b ∈ l, a = b) : l.length ≤ 1 := by
  match l, hn, h with
  | [], _, _ => simp
  | [_], _, _ => simp
  | a :: b :: t, hn, h =>
    have hab : a = b := h a (by simp) b (by simp)
    subst hab
    simp at hn

/-- C1: after any run of the handler from an initial state under rand, fifo
or lru on pages of the page table, the run returns and in the state it
returns the page-table entry of the resident page of every frame with non-zero
bits is that frame with the frame's bits. -/
theorem C1_frame_table_consistent (s0 : State) (fs : List (Nat × Nat))
    (h0 : IsInitial s0) (hrt : KnownPolicy s0.rt) (hfs : ∀ f ∈ fs, f.1 < s0.npages) :
    ∃ s, run s0 fs = .ret s ∧
      ∀ f, f < s.nframes → (rd s.f_table f).bits ≠ 0 →
        page_table_get_entry s.pt (rd s.f_table f).page = ⟨f, (rd s.f_table f).bits⟩ := by
  obtain ⟨s, h1, h2, _⟩ := run_good fs s0 (good_initial h0) hrt hfs
  exact ⟨s, h1, fun f hf hb => (h2.cons.ft_pt f hf hb).2⟩

theorem C1_frame_table_consistent_witness :
    ∃ s, run (init "lru" 5 3) [(0, 0), (1, 0), (2, 0), (3, 0), (1, 0), (4, 0)] = .ret s ∧
      ∀ f, f < s.nframes → (rd s.f_table f).bits ≠ 0 →
        page_table_get_entry s.pt (rd s.f_table f).page = ⟨f, (rd s.f_table f).bits⟩ :=
  C1_frame_table_consistent (init "lru" 5 3) [(0, 0), (1, 0), (2, 0), (3, 0), (1, 0), (4, 0)]
    (by decide) (by decide) (by decide)

/-- C2: in every reachable state no two distinct frames with non-zero bits
have the same resident page, every page is held by at most one frame, and at
most `nframes` frames are not Absent. -/
theorem C2_one_frame_per_page (s : State) (h : Reachable s) :
    (∀ f g, f < s.nframes → g < s.nframes → (rd s.f_table f).bits ≠ 0 →
      (rd s.f_table g).bits ≠ 0 → (rd s.f_table f).page = (rd s.f_table g).page → f = g) ∧
    (∀ p, (holders s p).length ≤ 1) ∧
    (occupied s).length ≤ s.nframes := by
  have hg := (reachable_good h).1
  have hinj : ∀ f g, f < s.nframes → g < s.nframes → (rd s.f_table f).bits ≠ 0 →
      (rd s.f_table g).bits ≠ 0 → (rd s.f_table f).page = (rd s.f_table g).page → f = g := by
    intro f g hf hgn hfb hgb hpg
    have h1 := (hg.cons.ft_pt f hf hfb).2
    have h2 := (hg.cons.ft_pt g hgn hgb).2
    rw [hpg, h2] at h1
    exact (congrArg PTE.frame h1).symm
  refine ⟨hinj, ?_, ?_⟩
  · intro p
    apply length_le_one_of_all_eq
    · exact (List.nodup_range _).filter _
    · intro a ha b hb
      simp only [holders, List.mem_filter, List.mem_range, decide_eq_true_eq] at ha hb
      exact hinj a b ha.1 hb.1 ha.2.1 hb.2.1 (ha.2.2.trans hb.2.2.symm)
  · calc (occupied s).length ≤ (List.range s.nframes).length := List.length_filter_le _ _
      _ = s.nframes := List.length_range _

theorem C2_one_frame_per_page_witness :
    Reachable ex_state ∧
    (∀ f g, f < ex_state.nframes → g < ex_state.nframes → (rd ex_state.f_table f).bits ≠ 0 →
      (rd ex_state.f_table g).bits ≠ 0 →
      (rd ex_state.f_table f).page = (rd ex_state.f_table g).page → f = g) ∧
    (∀ p, (holders ex_state p).length ≤ 1) ∧
    (occupied ex_state).length ≤ ex_state.nframes :=
  ⟨⟨init "lru" 5 3, ex_faults, by decide, by decide, by decide, by decide⟩,
    C2_one_frame_per_page ex_state
      ⟨init "lru" 5 3, ex_faults, by decide, by decide, by decide, by decide⟩⟩

/-- C3: in a reachable state a handler invocation on a page whose permission
is Absent returns with the page mapped to a frame `f < nframes` with
permission exactly `PROT_READ`, `f_table[f] = (page, PROT_READ)`, frame `f`
of physical memory equal to the block of the page in the backing store, and
the read counter one higher. -/
theorem C3_read_fault_post (s : State) (p r : Nat) (h : Reachable s) (hp : p < s.npages)
    (hb : (page_table_get_entry s.pt p).bits = 0) :
    ∃ s2 f, page_fault_handler s p r = .ret s2 ∧ f < s2.nframes ∧
      page_table_get_entry s2.pt p = ⟨f, PROT_READ⟩ ∧
      (rd s2.f_table f).page = p ∧ (rd s2.f_table f).bits = PROT_READ ∧
      rd s2.physmem f = disk_read s2.disk p ∧ disk_read s2.disk p = disk_read s.disk p ∧
      s2.rc = s.rc + 1 := by
  obtain ⟨hg, hrt⟩ := reachable_good h
  obtain ⟨s2, h1, hf, hg2, hstep⟩ := handler_good s p r hg hrt hp
  have hlp := hg.cons.len_pt
  have hlf := hg.cons.len_ft
  have hlm := hg.len_phys
  rcases hstep with ⟨_, i, hs, hr⟩ | ⟨_, hs, hr⟩ | ⟨hnb, _⟩
  · obtain ⟨hi, _, _⟩ := scan_some_free hs
    refine ⟨s2, i, h1, by rw [hf.nframes]; exact hi, ?_, ?_, ?_, ?_, ?_, hr.rc⟩
    · rw [page_table_get_entry, hr.pt, rd_set_eq _ _ _ (by omega)]; rfl
    · rw [rd_eqv_page hr.ft, rd_set_eq _ _ _ (by omega)]
    · rw [rd_eqv_bits hr.ft, rd_set_eq _ _ _ (by omega)]; rfl
    · rw [hr.physmem, rd_set_eq _ _ _ (by omega), hr.disk]; rfl
    · rw [hr.disk]
  · obtain ⟨hv, hvb, hq, hqp⟩ := victim_facts hg r hb hs
    refine ⟨s2, victim s r, h1, by rw [hf.nframes]; exact hv, ?_, ?_, ?_, ?_, ?_, hr.rc⟩
    · rw [page_table_get_entry, hr.pt, rd_set_eq _ _ _ (by simp; omega)]; rfl
    · rw [rd_eqv_page hr.ft, rd_set_eq _ _ _ (by omega)]
    · rw [rd_eqv_bits hr.ft, rd_set_eq _ _ _ (by omega)]; rfl
    · rw [hr.physmem, rd_set_eq _ _ _ (by omega)]; rfl
    · rw [hr.disk, disk_read, disk_read]
      split
      · rw [rd_set_ne _ _ _ _ hqp]
      · rfl
  · exact absurd hb hnb

theorem C3_read_fault_post_witness :
    ∃ s2 f, page_fault_handler ex_state 0 7 = .ret s2 ∧ f < s2.nframes ∧
      page_table_get_entry s2.pt 0 = ⟨f, PROT_READ⟩ ∧
      (rd s2.f_table f).page = 0 ∧ (rd s2.f_table f).bits = PROT_READ ∧
      rd s2.physmem f = disk_read s2.disk 0 ∧ disk_read s2.disk 0 = disk_read ex_state.disk 0 ∧
      s2.rc = ex_state.rc + 1 :=
  C3_read_fault_post ex_state 0 7
    ⟨init "lru" 5 3, ex_faults, by decide, by decide, by decide, by decide⟩
    (by decide) (by decide)

/-- C4: in a reachable state a handler invocation on a page mapped ReadOnly
to frame `f` returns with the permission of the page `PROT_READ|PROT_WRITE`
in the page table and in `f_table[f]`, the page still in frame `f`, and the
backing store, physical memory, read and write counters, queue array, head
and tail pointers, every other frame's page and bits and every other page's
mapping unchanged. -/
theorem C4_write_fault_upgrade (s : State) (p r f : Nat) (h : Reachable s) (hp : p < s.npages)
    (hb : page_table_get_entry s.pt p = ⟨f, PROT_READ⟩) :
    ∃ s2, page_fault_handler s p r = .ret s2 ∧
      page_table_get_entry s2.pt p = ⟨f, PROT_READ ||| PROT_WRITE⟩ ∧
      (rd s2.f_table f).page = p ∧ (rd s2.f_table f).bits = PROT_READ ||| PROT_WRITE ∧
      s2.disk = s.disk ∧ s2.physmem = s.physmem ∧ s2.rc = s.rc ∧ s2.wc = s.wc ∧
      s2.fifo_arr = s.fifo_arr ∧ s2.ft_pointer = s.ft_pointer ∧ s2.lt_pointer = s.lt_pointer ∧
      (∀ g, g ≠ f → (rd s2.f_table g).page = (rd s.f_table g).page ∧
        (rd s2.f_table g).bits = (rd s.f_table g).bits) ∧
      (∀ q, q ≠ p → page_table_get_entry s2.pt q = page_table_get_entry s.pt q) := by
  obtain ⟨hg, hrt⟩ := reachable_good h
  obtain ⟨s2, h1, hf, hg2, hstep⟩ := handler_good s p r hg hrt hp
  have hlp := hg.cons.len_pt
  have hlf := hg.cons.len_ft
  have hbits : (rd s.pt p).bits = 1 := by
    have := congrArg PTE.bits hb; exact this
  have hfr : (rd s.pt p).frame = f := congrArg PTE.frame hb
  have hnb : (rd s.pt p).bits ≠ 0 := by rw [hbits]; decide
  have hfn : f < s.nframes := hfr ▸ (hg.cons.pt_ft p hp hnb).1
  rcases hstep with ⟨h0, _⟩ | ⟨h0, _⟩ | ⟨_, hw⟩
  · exact absurd h0 hnb
  · exact absurd h0 hnb
  · have hft := hw.ft
    rw [hfr] at hft
    refine ⟨s2, h1, ?_, ?_, ?_, hw.disk, hw.physmem, hw.rc, hw.wc, hw.fifo_arr, hw.ft_pointer,
      hw.lt_pointer, ?_, ?_⟩
    · rw [page_table_get_entry, hw.pt, rd_set_eq _ _ _ (by omega), hfr]; rfl
    · rw [rd_eqv_page hft, rd_set_eq _ _ _ (by omega)]
    · rw [rd_eqv_bits hft, rd_set_eq _ _ _ (by omega)]; rfl
    · intro g hgf
      rw [rd_eqv_page hft, rd_eqv_bits hft, rd_set_ne _ _ _ _ (Ne.symm hgf)]
      exact ⟨rfl, rfl⟩
    · intro q hqp
      rw [page_table_get_entry, page_table_get_entry, hw.pt, rd_set_ne _ _ _ _ (Ne.symm hqp)]

theorem C4_write_fault_upgrade_witness :
    ∃ s2, page_fault_handler ex_state 3 0 = .ret s2 ∧
      page_table_get_entry s2.pt 3 = ⟨2, PROT_READ ||| PROT_WRITE⟩ ∧
      (rd s2.f_table 2).page = 3 ∧ (rd s2.f_table 2).bits = PROT_READ ||| PROT_WRITE ∧
      s2.disk = ex_state.disk ∧ s2.physmem = ex_state.physmem ∧ s2.rc = ex_state.rc ∧
      s2.wc = ex_state.wc ∧
      s2.fifo_arr = ex_state.fifo_arr ∧ s2.ft_pointer = ex_state.ft_pointer ∧
      s2.lt_pointer = ex_state.lt_pointer ∧
      (∀ g, g ≠ 2 → (rd s2.f_table g).page = (rd ex_state.f_table g).page ∧
        (rd s2.f_table g).bits = (rd ex_state.f_table g).bits) ∧
      (∀ q, q ≠ 3 → page_table_get_entry s2.pt q = page_table_get_entry ex_state.pt q) :=
  C4_write_fault_upgrade ex_state 3 0 2
    ⟨init "lru" 5 3, ex_faults, by decide, by decide, by decide, by decide⟩
    (by decide) (by decide)

/-! ### Counters -/

theorem victim_bits {s : State} (hg : Good s) {p : Nat} (r : Nat)
    (hb : (rd s.pt p).bits = 0) (hs : scan_free s.nframes s.f_table = none) :
    (rd s.f_table (victim s r)).bits = 1 ∨ (rd s.f_table (victim s r)).bits = 3 := by
  obtain ⟨hv, hvb, hq, _⟩ := victim_facts hg r hb hs
  have h2 := congrArg PTE.bits (hg.cons.ft_pt _ hv hvb).2
  simp only at h2
  rcases hg.cons.perm _ hq with h | h | h
  · rw [h] at h2; exact absurd h2.symm hvb
  · rw [h] at h2; exact Or.inl h2.symm
  · rw [h] at h2; exact Or.inr h2.symm

/-- Counters and branch counts along a run from a good state. -/
theorem counters_run (fs : List (Nat × Nat)) (s : State) (hg : Good s)
    (hrt : KnownPolicy s.rt) (hfs : ∀ f ∈ fs, f.1 < s.npages) :
    ∃ s2, run s fs = .ret s2 ∧ (trace s fs).length = fs.length ∧
      s2.fc = s.fc + fs.length ∧
      s2.rc = s.rc + (trace s fs).countP is_read_fault ∧
      s2.wc = s.wc + (trace s fs).countP is_dirty_eviction ∧
      (trace s fs).countP is_read_fault + (trace s fs).countP is_write_fault = fs.length ∧
      (trace s fs).countP is_write_fault =
        (trace s fs).countP on_readonly + (trace s fs).countP on_readwrite ∧
      ∀ e ∈ trace s fs, ∃ s3, page_fault_handler e.1 e.2.1 e.2.2 = .ret s3 ∧
        s3.fc = e.1.fc + 1 := by
  induction fs generalizing s with
  | nil => exact ⟨s, rfl, rfl, rfl, by simp [trace], by simp [trace], by simp [trace],
      by simp [trace], by simp [trace]⟩
  | cons f fs ih =>
    have hp := hfs f (List.mem_cons_self _ _)
    obtain ⟨s1, h1, h2, h3, hstep⟩ := handler_good s f.1 f.2 hg hrt hp
    obtain ⟨s2, k1, k2, k3, k4, k5, k6, k8, k7⟩ := ih s1 h3 (by rw [h2.rt]; exact hrt)
      (fun g hgm => by rw [h2.npages]; exact hfs g (List.mem_cons_of_mem _ hgm))
    have hrun : run s (f :: fs) = .ret s2 := by simp [run, h1, k1]
    have htr : trace s (f :: fs) = (s, f.1, f.2) :: trace s1 fs := by simp [trace, h1]
    have hall : ∀ e ∈ trace s (f :: fs), ∃ s3, page_fault_handler e.1 e.2.1 e.2.2 = .ret s3 ∧
        s3.fc = e.1.fc + 1 := by
      intro e he
      rw [htr] at he
      rcases List.mem_cons.mp he with he | he
      · subst he; exact ⟨s1, h1, h2.fc⟩
      · exact k7 e he
    refine ⟨s2, hrun, by simp [htr, k2], by rw [k3, h2.fc]; simp; omega, ?_, ?_, ?_, ?_, hall⟩
    all_goals simp only [htr, List.countP_cons, List.length_cons]
    all_goals rcases hstep with ⟨hb, i, hs, hr⟩ | ⟨hb, hs, hr⟩ | ⟨hb, hr⟩
    · have e1 : is_read_fault (s, f.1, f.2) = true := by
        simp [is_read_fault, page_table_get_entry, hb]
      simp [e1, k4, hr.rc]; omega
    · have e1 : is_read_fault (s, f.1, f.2) = true := by
        simp [is_read_fault, page_table_get_entry, hb]
      simp [e1, k4, hr.rc]; omega
    · have e1 : is_read_fault (s, f.1, f.2) = false := by
        simp [is_read_fault, page_table_get_entry, hb]
      simp [e1, k4, hr.rc]
    · have e1 : is_dirty_eviction (s, f.1, f.2) = false := by
        simp [is_dirty_eviction, hs]
      simp [e1, k5, hr.wc]
    · have hvb := victim_bits hg f.2 hb hs
      rw [k5, hr.wc]
      rcases hvb with hv | hv
      · have e1 : is_dirty_eviction (s, f.1, f.2) = false := by
          simp [is_dirty_eviction, hs, hv, prot_rw]
        simp [e1, hv, PROT_WRITE]
      · have e1 : is_dirty_eviction (s, f.1, f.2) = true := by
          simp [is_dirty_eviction, is_read_fault, page_table_get_entry, hb, hs, hv, prot_rw]
        simp [e1, hv, PROT_WRITE]; omega
    · have e1 : is_dirty_eviction (s, f.1, f.2) = false := by
        simp [is_dirty_eviction, is_read_fault, page_table_get_entry, hb]
      simp [e1, k5, hr.wc]
    · have e1 : is_read_fault (s, f.1, f.2) = true := by
        simp [is_read_fault, page_table_get_entry, hb]
      have e2 : is_write_fault (s, f.1, f.2) = false := by
        simp [is_write_fault, page_table_get_entry, hb]
      simp [e1, e2]; omega
    · have e1 : is_read_fault (s, f.1, f.2) = true := by
        simp [is_read_fault, page_table_get_entry, hb]
      have e2 : is_write_fault (s, f.1, f.2) = false := by
        simp [is_write_fault, page_table_get_entry, hb]
      simp [e1, e2]; omega
    · have e1 : is_read_fault (s, f.1, f.2) = false := by
        simp [is_read_fault, page_table_get_entry, hb]
      have e2 : is_write_fault (s, f.1, f.2) = true := by
        have := perm_read (hg.cons.perm _ hp) hb
        simp [is_write_fault, page_table_get_entry, hb, this]
      simp [e1, e2]; omega
    · have e2 : is_write_fault (s, f.1, f.2) = false := by
        simp [is_write_fault, page_table_get_entry, hb]
      have e3 : on_readonly (s, f.1, f.2) = false := by
        simp [on_readonly, page_table_get_entry, hb, PROT_READ]
      have e4 : on_readwrite (s, f.1, f.2) = false := by
        simp [on_readwrite, page_table_get_entry, hb, prot_rw]
      simp [e2, e3, e4, k8]
    · have e2 : is_write_fault (s, f.1, f.2) = false := by
        simp [is_write_fault, page_table_get_entry, hb]
      have e3 : on_readonly (s, f.1, f.2) = false := by
        simp [on_readonly, page_table_get_entry, hb, PROT_READ]
      have e4 : on_readwrite (s, f.1, f.2) = false := by
        simp [on_readwrite, page_table_get_entry, hb, prot_rw]
      simp [e2, e3, e4, k8]
    · have e2 : is_write_fault (s, f.1, f.2) = true := by
        have := perm_read (hg.cons.perm _ hp) hb
        simp [is_write_fault, page_table_get_entry, hb, this]
      rcases hg.cons.perm _ hp with h | h | h
      · exact absurd h hb
      · have e3 : on_readonly (s, f.1, f.2) = true := by
          simp [on_readonly, page_table_get_entry, h, PROT_READ]
        have e4 : on_readwrite (s, f.1, f.2) = false := by
          simp [on_readwrite, page_table_get_entry, h, prot_rw]
        simp [e2, e3, e4, k8]; omega
      · have e3 : on_readonly (s, f.1, f.2) = false := by
          simp [on_readonly, page_table_get_entry, h, PROT_READ]
        have e4 : on_readwrite (s, f.1, f.2) = true := by
          simp [on_readwrite, page_table_get_entry, h, prot_rw]
        simp [e2, e3, e4, k8]; omega

/-- C7 (the claim as stated is refuted): under fifo with 4 pages and 2 frames
the three invocations on page 0 from the initial state all return; the first
finds the page Absent, the second finds it ReadOnly, the third finds it
already ReadWrite and is resolved by the write-fault branch as well.  The
fault counter is 3, the read counter is 1 and one invocation was on a
ReadOnly page, so the fault count is not the read count plus the number of
invocations on a ReadOnly page. -/
theorem C7_readonly_count_counterexample :
    IsInitial (init "fifo" 4 2) ∧
    (∃ s, run (init "fifo" 4 2) [(0, 0), (0, 0), (0, 0)] = .ret s ∧
      s.fc = 3 ∧ s.rc = 1 ∧ s.wc = 0 ∧
      (trace (init "fifo" 4 2) [(0, 0), (0, 0), (0, 0)]).countP is_read_fault = 1 ∧
      (trace (init "fifo" 4 2) [(0, 0), (0, 0), (0, 0)]).countP on_readonly = 1 ∧
      (trace (init "fifo" 4 2) [(0, 0), (0, 0), (0, 0)]).countP on_readwrite = 1 ∧
      ¬ (s.fc = s.rc +
        (trace (init "fifo" 4 2) [(0, 0), (0, 0), (0, 0)]).countP on_readonly)) ∧
    (trace (init "fifo" 4 2) [(0, 0), (0, 0), (0, 0)]).map
      (fun e => (page_table_get_entry e.1.pt e.2.1).bits) =
      [0, PROT_READ, PROT_READ ||| PROT_WRITE] :=
  ⟨by decide, ⟨(run (init "fifo" 4 2) [(0, 0), (0, 0), (0, 0)]).state, by decide⟩, by decide⟩

/-- C7 (amended): along every run of the handler from an initial state under
rand, fifo or lru the run returns, every invocation takes place and increases
the fault counter by exactly one, the read counter is the number of
invocations that took the read-fault branch (page Absent), the write counter
is the number of evictions of a ReadWrite frame, and the fault counter is the
read counter plus the number of invocations that took the write-fault branch
(`bits & PROT_READ`): the invocations on a page mapped ReadOnly together with
those on a page already mapped ReadWrite.  When no invocation is on a page
already mapped ReadWrite, the fault counter is the read counter plus the
number of invocations on a ReadOnly page. -/
theorem C7_counter_law (s0 : State) (fs : List (Nat × Nat))
    (h0 : IsInitial s0) (hrt : KnownPolicy s0.rt) (hfs : ∀ f ∈ fs, f.1 < s0.npages) :
    ∃ s, run s0 fs = .ret s ∧ (trace s0 fs).length = fs.length ∧
      (∀ e ∈ trace s0 fs, ∃ s3, page_fault_handler e.1 e.2.1 e.2.2 = .ret s3 ∧
        s3.fc = e.1.fc + 1) ∧
      s.fc = fs.length ∧
      s.rc = (trace s0 fs).countP is_read_fault ∧
      s.wc = (trace s0 fs).countP is_dirty_eviction ∧
      s.fc = s.rc + (trace s0 fs).countP is_write_fault ∧
      (trace s0 fs).countP is_write_fault =
        (trace s0 fs).countP on_readonly + (trace s0 fs).countP on_readwrite ∧
      s.fc = s.rc + (trace s0 fs).countP on_readonly + (trace s0 fs).countP on_readwrite ∧
      ((trace s0 fs).countP on_readwrite = 0 →
        s.fc = s.rc + (trace s0 fs).countP on_readonly) := by
  obtain ⟨s, k1, k2, k3, k4, k5, k6, k8, k7⟩ := counters_run fs s0 (good_initial h0) hrt hfs
  obtain ⟨c1, c2, c3, _⟩ := h0
  refine ⟨s, k1, k2, k7, by omega, by omega, by omega, by omega, k8, by omega, fun h => by omega⟩

theorem C7_counter_law_witness :
    (∃ s, run (init "fifo" 4 2) ex7_faults = .ret s ∧
      (trace (init "fifo" 4 2) ex7_faults).length = ex7_faults.length ∧
      (∀ e ∈ trace (init "fifo" 4 2) ex7_faults,
        ∃ s3, page_fault_handler e.1 e.2.1 e.2.2 = .ret s3 ∧ s3.fc = e.1.fc + 1) ∧
      s.fc = ex7_faults.length ∧
      s.rc = (trace (init "fifo" 4 2) ex7_faults).countP is_read_fault ∧
      s.wc = (trace (init "fifo" 4 2) ex7_faults).countP is_dirty_eviction ∧
      s.fc = s.rc + (trace (init "fifo" 4 2) ex7_faults).countP is_write_fault ∧
      (trace (init "fifo" 4 2) ex7_faults).countP is_write_fault =
        (trace (init "fifo" 4 2) ex7_faults).countP on_readonly +
        (trace (init "fifo" 4 2) ex7_faults).countP on_readwrite ∧
      s.fc = s.rc + (trace (init "fifo" 4 2) ex7_faults).countP on_readonly +
        (trace (init "fifo" 4 2) ex7_faults).countP on_readwrite ∧
      ((trace (init "fifo" 4 2) ex7_faults).countP on_readwrite = 0 →
        s.fc = s.rc + (trace (init "fifo" 4 2) ex7_faults).countP on_readonly)) ∧
    (run (init "fifo" 4 2) ex7_faults).state.fc = 5 ∧
    (run (init "fifo" 4 2) ex7_faults).state.rc = 3 ∧
    (run (init "fifo" 4 2) ex7_faults).state.wc = 1 ∧
    (trace (init "fifo" 4 2) ex7_faults).countP on_readonly = 1 ∧
    (trace (init "fifo" 4 2) ex7_faults).countP on_readwrite = 1 :=
  ⟨C7_counter_law (init "fifo" 4 2) ex7_faults (by decide) (by decide) (by decide),
    by decide, by decide, by decide, by decide, by decide⟩

/-! ### Write-back of dirty frames -/

theorem written_since_load_snoc (tr : List (State × Nat × Nat)) (e : State × Nat × Nat)
    (q : Nat) :
    written_since_load (tr ++ [e]) q =
      if e.2.1 = q then is_write_fault e else written_since_load tr q := by
  simp [written_since_load, List.foldl_append]

/-- Induction along the history of a run from a good state. -/
theorem run_history_induction (P : State → List (State × Nat × Nat) → Prop)
    (step : ∀ s tr p r s2, Good s → KnownPolicy s.rt → P s tr → p < s.npages →
      page_fault_handler s p r = .ret s2 → Fixed s s2 → Step s p r s2 →
      P s2 (tr ++ [(s, p, r)]))
    (fs : List (Nat × Nat)) (s : State) (tr : List (State × Nat × Nat))
    (hg : Good s) (hrt : KnownPolicy s.rt) (hfs : ∀ f ∈ fs, f.1 < s.npages)
    (hP : P s tr) (s2 : State) (hrun : run s fs = .ret s2) :
    P s2 (tr ++ trace s fs) := by
  induction fs generalizing s tr with
  | nil =>
    simp only [run, Outcome.ret.injEq] at hrun
    subst hrun
    simpa [trace] using hP
  | cons f fs ih =>
    have hp := hfs f (List.mem_cons_self _ _)
    obtain ⟨s1, h1, h2, h3, hstep⟩ := handler_good s f.1 f.2 hg hrt hp
    have hrun1 : run s1 fs = .ret s2 := by simpa [run, h1] using hrun
    have htr : trace s (f :: fs) = (s, f.1, f.2) :: trace s1 fs := by simp [trace, h1]
    have := ih s1 (tr ++ [(s, f.1, f.2)]) h3 (by rw [h2.rt]; exact hrt)
      (fun g hgm => by rw [h2.npages]; exact hfs g (List.mem_cons_of_mem _ hgm))
      (step s tr f.1 f.2 s1 hg hrt hP hp h1 h2 hstep) hrun1
    rw [htr]
    simpa using this

theorem dinv_step (s : State) (tr : List (State × Nat × Nat)) (p r : Nat) (s2 : State)
    (hg : Good s) (_hrt : KnownPolicy s.rt) (hd : DInv s tr) (hp : p < s.npages)
    (_h1 : page_fault_handler s p r = .ret s2) (hf : Fixed s s2) (hstep : Step s p r s2) :
    DInv s2 (tr ++ [(s, p, r)]) := by
  have hlp := hg.cons.len_pt
  intro q hq hqb
  rw [hf.npages] at hq
  rw [written_since_load_snoc]
  simp only
  rcases hstep with ⟨hb, i, hs, hr⟩ | ⟨hb, hs, hr⟩ | ⟨hb, hr⟩
  · rw [hr.pt] at hqb ⊢
    by_cases hpq : p = q
    · subst hpq
      rw [rd_set_eq _ _ _ (by omega)]
      simp [is_write_fault, page_table_get_entry, hb, PROT_WRITE]
    · rw [rd_set_ne _ _ _ _ hpq] at hqb ⊢
      rw [if_neg hpq]
      exact hd q hq hqb
  · obtain ⟨hv, hvb, hvq, hqp⟩ := victim_facts hg r hb hs
    rw [hr.pt] at hqb ⊢
    by_cases hpq : p = q
    · subst hpq
      rw [rd_set_eq _ _ _ (by simp; omega)]
      simp [is_write_fault, page_table_get_entry, hb, PROT_WRITE]
    · rw [rd_set_ne _ _ _ _ hpq] at hqb ⊢
      rw [if_neg hpq]
      by_cases hvq2 : (rd s.f_table (victim s r)).page = q
      · rw [← hvq2, rd_set_eq _ _ _ (by omega)] at hqb
        exact absurd rfl hqb
      · rw [rd_set_ne _ _ _ _ hvq2] at hqb ⊢
        exact hd q hq hqb
  · rw [hr.pt] at hqb ⊢
    by_cases hpq : p = q
    · subst hpq
      rw [rd_set_eq _ _ _ (by omega)]
      have := perm_read (hg.cons.perm _ hp) hb
      simp [is_write_fault, page_table_get_entry, hb, this, PROT_WRITE]
    · rw [rd_set_ne _ _ _ _ hpq] at hqb ⊢
      rw [if_neg hpq]
      exact hd q hq hqb

theorem dinv_run (s0 : State) (fs : List (Nat × Nat)) (s : State)
    (h0 : IsInitial s0) (hrt : KnownPolicy s0.rt) (hfs : ∀ f ∈ fs, f.1 < s0.npages)
    (hrun : run s0 fs = .ret s) : DInv s (trace s0 fs) := by
  have hg0 := good_initial h0
  have hbase : DInv s0 [] := by
    intro q hq hqb
    obtain ⟨_, _, _, _, _, _, _, _, _, h10, _, _, h13⟩ := h0
    exact absurd (rd_of_mem_all s0.pt (fun e => e.bits = 0) h13 q (by omega)) hqb
  have := run_history_induction DInv dinv_step fs s0 [] hg0 hrt hfs hbase s hrun
  simpa using this

theorem scan_free_full {n : Nat} {ft : List Entry_frame}
    (h : ∀ f, f < n → (rd ft f).bits ≠ 0) : scan_free n ft = none := by
  rcases scan_free_spec ft n with ⟨h1, _⟩ | ⟨j, _, h2, h3, _⟩
  · exact h1
  · exact absurd h3 (h j h2)

theorem store_good {s : State} (hg : Good s) (p : Nat) (d : Block) :
    Good (workload_store s p d) ∧ (workload_store s p d).pt = s.pt ∧
      (workload_store s p d).rt = s.rt ∧ (workload_store s p d).npages = s.npages := by
  unfold workload_store
  split
  · exact ⟨⟨hg.nf, hg.cons, hg.len_fifo, by simp [hg.len_phys], hg.len_disk, fun h => by
      obtain ⟨q1, q2, q3, q4⟩ := hg.queue h
      exact ⟨q1, q2, q3, q4⟩⟩, rfl, rfl, rfl⟩
  · exact ⟨hg, rfl, rfl, rfl⟩

/-- Induction along the history of a run with stores from a good state. -/
theorem ops_history_induction (P : State → List (State × Nat × Nat) → Prop)
    (step : ∀ s tr p r s2, Good s → KnownPolicy s.rt → P s tr → p < s.npages →
      page_fault_handler s p r = .ret s2 → Fixed s s2 → Step s p r s2 →
      P s2 (tr ++ [(s, p, r)]))
    (hstore : ∀ s tr p d, Good s → P s tr → P (workload_store s p d) tr)
    (os : List Op) (s : State) (tr : List (State × Nat × Nat))
    (hg : Good s) (hrt : KnownPolicy s.rt) (hos : ∀ q r, Op.fault q r ∈ os → q < s.npages)
    (hP : P s tr) (s2 : State) (hrun : run_ops s os = .ret s2) :
    P s2 (tr ++ trace_ops s os) ∧ Good s2 ∧ KnownPolicy s2.rt := by
  induction os generalizing s tr with
  | nil =>
    simp only [run_ops, Outcome.ret.injEq] at hrun
    subst hrun
    exact ⟨by simpa [trace_ops] using hP, hg, hrt⟩
  | cons o os ih =>
    cases o with
    | fault p r =>
      have hp := hos p r (List.mem_cons_self _ _)
      obtain ⟨s1, h1, h2, h3, hstep⟩ := handler_good s p r hg hrt hp
      have hrun1 : run_ops s1 os = .ret s2 := by simpa [run_ops, h1] using hrun
      have htr : trace_ops s (Op.fault p r :: os) = (s, p, r) :: trace_ops s1 os := by
        simp [trace_ops, h1]
      have := ih s1 (tr ++ [(s, p, r)]) h3 (by rw [h2.rt]; exact hrt)
        (fun q r2 hm => by rw [h2.npages]; exact hos q r2 (List.mem_cons_of_mem _ hm))
        (step s tr p r s1 hg hrt hP hp h1 h2 hstep) hrun1
      rw [htr]
      simpa using this
    | store p d =>
      obtain ⟨k1, _, k3, k4⟩ := store_good hg p d
      have hrun1 : run_ops (workload_store s p d) os = .ret s2 := by
        simpa [run_ops] using hrun
      have := ih (workload_store s p d) tr k1 (by rw [k3]; exact hrt)
        (fun q r2 hm => by rw [k4]; exact hos q r2 (List.mem_cons_of_mem _ hm))
        (hstore s tr p d hg hP) hrun1
      simpa [trace_ops] using this

theorem dinv_ops (s0 : State) (os : List Op) (s : State)
    (h0 : IsInitial s0) (hrt : KnownPolicy s0.rt)
    (hos : ∀ q r, Op.fault q r ∈ os → q < s0.npages)
    (hrun : run_ops s0 os = .ret s) :
    DInv s (trace_ops s0 os) ∧ Good s ∧ KnownPolicy s.rt := by
  have hg0 := good_initial h0
  have hbase : DInv s0 [] := by
    intro q hq hqb
    obtain ⟨_, _, _, _, _, _, _, _, _, h10, _, _, h13⟩ := h0
    exact absurd (rd_of_mem_all s0.pt (fun e => e.bits = 0) h13 q (by omega)) hqb
  have hstore : ∀ s tr p d, Good s → DInv s tr → DInv (workload_store s p d) tr := by
    intro s tr p d hg hd q hq hqb
    obtain ⟨_, k2, _, k4⟩ := store_good hg p d
    rw [k2] at hqb ⊢
    rw [k4] at hq
    exact hd q hq hqb
  have := ops_history_induction DInv dinv_step hstore os s0 [] hg0 hrt hos hbase s hrun
  simpa using this

/-- C5: along every run of handler invocations and workload stores from an
initial state under rand, fifo or lru, a read-fault that finds every frame
occupied evicts the resident page of the victim frame and loads the faulting
page into that frame.  If the evicted page received a write-fault since it was
last loaded, the handler writes the contents of the frame to the block of
that page, which then holds these contents, and increments the write
counter; if it did not, the backing store and the write counter are
unchanged. -/
theorem C5_dirty_writeback (s0 s : State) (os : List Op) (p r : Nat)
    (h0 : IsInitial s0) (hrt : KnownPolicy s0.rt)
    (hos : ∀ q r, Op.fault q r ∈ os → q < s0.npages)
    (hrun : run_ops s0 os = .ret s) (hp : p < s.npages)
    (hb : (page_table_get_entry s.pt p).bits = 0)
    (hfull : ∀ f, f < s.nframes → (rd s.f_table f).bits ≠ 0) :
    ∃ s2, page_fault_handler s p r = .ret s2 ∧
      (page_table_get_entry s.pt (rd s.f_table (victim s r)).page).bits ≠ 0 ∧
      (page_table_get_entry s2.pt (rd s.f_table (victim s r)).page).bits = 0 ∧
      page_table_get_entry s2.pt p = ⟨victim s r, PROT_READ⟩ ∧
      (written_since_load (trace_ops s0 os) (rd s.f_table (victim s r)).page = true →
        s2.disk = disk_write s.disk (rd s.f_table (victim s r)).page (rd s.physmem (victim s r)) ∧
        disk_read s2.disk (rd s.f_table (victim s r)).page = rd s.physmem (victim s r) ∧
        s2.wc = s.wc + 1) ∧
      (written_since_load (trace_ops s0 os) (rd s.f_table (victim s r)).page = false →
        s2.disk = s.disk ∧ s2.wc = s.wc) := by
  obtain ⟨hd, hg, hrt2⟩ := dinv_ops s0 os s h0 hrt hos hrun
  have hs := scan_free_full hfull
  obtain ⟨s2, h1, hf, hr⟩ := handler_read_evict s p r hrt2 hb hs
  obtain ⟨hv, hvb, hvq, hqp⟩ := victim_facts hg r hb hs
  have hlp := hg.cons.len_pt
  have hld := hg.len_disk
  have hpt := (hg.cons.ft_pt _ hv hvb).2
  have hbits : (rd s.pt (rd s.f_table (victim s r)).page).bits =
      (rd s.f_table (victim s r)).bits := congrArg PTE.bits hpt
  have hdq := hd _ hvq (by rw [hbits]; exact hvb)
  rw [hbits] at hdq
  refine ⟨s2, h1, ?_, ?_, ?_, ?_, ?_⟩
  · rw [page_table_get_entry, hbits]; exact hvb
  · rw [page_table_get_entry, hr.pt, rd_set_ne _ _ _ _ (Ne.symm hqp), rd_set_eq _ _ _ (by omega)]
  · rw [page_table_get_entry, hr.pt, rd_set_eq _ _ _ (by simp; omega)]; rfl
  · intro hw
    have := hdq.2 hw
    rw [hr.disk, hr.wc, if_pos this, if_pos this]
    exact ⟨rfl, by rw [disk_read, rd_set_eq _ _ _ (by omega)], rfl⟩
  · intro hw
    have : ¬ ((rd s.f_table (victim s r)).bits &&& PROT_WRITE ≠ 0) := by
      intro hc; rw [hdq.1 hc] at hw; cases hw
    rw [hr.disk, hr.wc, if_neg this, if_neg this]
    exact ⟨rfl, rfl⟩

theorem C5_dirty_writeback_witness :
    (∃ s2, page_fault_handler ex5_dirty 2 0 = .ret s2 ∧
      (page_table_get_entry ex5_dirty.pt (rd ex5_dirty.f_table (victim ex5_dirty 0)).page).bits ≠ 0 ∧
      (page_table_get_entry s2.pt (rd ex5_dirty.f_table (victim ex5_dirty 0)).page).bits = 0 ∧
      page_table_get_entry s2.pt 2 = ⟨victim ex5_dirty 0, PROT_READ⟩ ∧
      (written_since_load (trace_ops (init "fifo" 4 2) ex5_ops)
          (rd ex5_dirty.f_table (victim ex5_dirty 0)).page = true →
        s2.disk = disk_write ex5_dirty.disk (rd ex5_dirty.f_table (victim ex5_dirty 0)).page
          (rd ex5_dirty.physmem (victim ex5_dirty 0)) ∧
        disk_read s2.disk (rd ex5_dirty.f_table (victim ex5_dirty 0)).page =
          rd ex5_dirty.physmem (victim ex5_dirty 0) ∧
        s2.wc = ex5_dirty.wc + 1) ∧
      (written_since_load (trace_ops (init "fifo" 4 2) ex5_ops)
          (rd ex5_dirty.f_table (victim ex5_dirty 0)).page = false →
        s2.disk = ex5_dirty.disk ∧ s2.wc = ex5_dirty.wc)) ∧
    written_since_load (trace_ops (init "fifo" 4 2) ex5_ops)
      (rd ex5_dirty.f_table (victim ex5_dirty 0)).page = true ∧
    (rd ex5_dirty.f_table (victim ex5_dirty 0)).page = 0 ∧
    rd ex5_dirty.physmem (victim ex5_dirty 0) = [42] ∧
    disk_read ex5_dirty.disk 0 = [0] ∧
    disk_read (page_fault_handler ex5_dirty 2 0).state.disk 0 = [42] ∧
    (page_fault_handler ex5_dirty 2 0).state.wc = 1 ∧
    (run (init "fifo" 4 2) [(0, 0), (0, 0), (1, 0), (2, 0)]).state.wc = 1 ∧
    (run (init "fifo" 4 2) [(0, 0), (1, 0), (2, 0)]).state.wc = 0 ∧
    (run (init "fifo" 4 2) [(0, 0), (1, 0), (2, 0)]).state.disk = (init "fifo" 4 2).disk :=
  ⟨C5_dirty_writeback (init "fifo" 4 2) ex5_dirty ex5_ops 2 0
    (by decide) (by decide) (by simp [ex5_ops, init]; omega) (by decide) (by decide) (by decide)
    (by decide),
    by decide, by decide, by decide, by decide, by decide, by decide, by decide, by decide,
    by decide⟩

/-! ### Order of eviction under fifo -/

theorem load_fold_fst (q : Nat) (tr : List (State × Nat × Nat)) (a : Nat) (o : Option Nat) :
    (tr.foldl (load_step q) (a, o)).1 = a + tr.length := by
  induction tr generalizing a o with
  | nil => rfl
  | cons e tr ih =>
    simp only [List.foldl_cons, List.length_cons, load_step]
    rw [ih]; omega

theorem load_time_snoc (tr : List (State × Nat × Nat)) (e : State × Nat × Nat) (q : Nat) :
    load_time (tr ++ [e]) q =
      if e.2.1 = q ∧ is_read_fault e = true then some tr.length else load_time tr q := by
  have h := load_fold_fst q tr 0 none
  simp only [load_time, List.foldl_append, List.foldl_cons, List.foldl_nil, load_step]
  rw [h, Nat.zero_add]

theorem load_time_lt (tr : List (State × Nat × Nat)) (q t : Nat)
    (h : load_time tr q = some t) : t < tr.length := by
  induction tr using List.reverseRecOn generalizing t with
  | nil => simp [load_time] at h
  | append_singleton tr e ih =>
    rw [load_time_snoc] at h
    rw [List.length_append, List.length_singleton]
    split at h
    · cases h; omega
    · have := ih t h; omega

theorem load_time_event (tr : List (State × Nat × Nat)) (q t : Nat)
    (h : load_time tr q = some t) :
    ∃ e, tr[t]? = some e ∧ e.2.1 = q ∧ is_read_fault e = true := by
  induction tr using List.reverseRecOn generalizing t with
  | nil => simp [load_time] at h
  | append_singleton tr e ih =>
    rw [load_time_snoc] at h
    split at h
    · next hc =>
      cases h
      exact ⟨e, by simp, hc.1, hc.2⟩
    · obtain ⟨e2, h1, h2⟩ := ih t h
      have hlt := load_time_lt tr q t h
      exact ⟨e2, by rw [List.getElem?_append_left hlt]; exact h1, h2⟩

theorem mod_ne_of_lt_of_lt {k x y : Nat} (h1 : x < y) (h2 : y < x + k) : x % k ≠ y % k := by
  intro he
  have h3 : (y - x) % k = 0 := Nat.sub_mod_eq_zero_of_mod_eq he.symm
  rw [Nat.mod_eq_of_lt (by omega)] at h3
  omega

/-- Under fifo and lru a read-fault fills frame `nframes - 1 - rc % nframes`. -/
theorem read_fills {s s2 : State} {p r : Nat} (hg : Good s) (hr : s.rt ≠ "rand")
    (hstep : (∃ i, scan_free s.nframes s.f_table = some i ∧ ReadFree s p i s2) ∨
      (scan_free s.nframes s.f_table = none ∧ ReadEvict s p (victim s r) s2)) :
    ft_eqv s2.f_table (s.f_table.set (s.nframes - 1 - s.rc % s.nframes) ⟨p, 1, 0⟩) ∧
      s2.rc = s.rc + 1 := by
  have hq := hg.queue hr
  rcases hstep with ⟨i, hs, h⟩ | ⟨hs, h⟩
  · have hi := hq.scan_some hs
    have : s.nframes - 1 - s.rc % s.nframes = i := by
      rw [Nat.mod_eq_of_lt (by omega)]; omega
    rw [this]
    exact ⟨h.ft, h.rc⟩
  · have hv := (hq.scan_none hg.nf hs).2.1
    have : s.nframes - 1 - s.rc % s.nframes = victim s r := by
      unfold victim; rw [if_neg hr, hv]
    rw [this]
    exact ⟨h.ft, h.rc⟩

/-- Under fifo and lru the frame of a recent load is occupied. -/
theorem recent_occupied {s : State} (hg : Good s) (hr : s.rt ≠ "rand") {x : Nat}
    (hx : x < s.rc) :
    s.nframes - 1 - x % s.nframes < s.nframes ∧
      (rd s.f_table (s.nframes - 1 - x % s.nframes)).bits ≠ 0 := by
  have hn := hg.nf
  have hq := hg.queue hr
  have h1 : x % s.nframes < s.nframes := Nat.mod_lt _ (by omega)
  have h2 : x % s.nframes ≤ x := Nat.mod_le _ _
  have h3 : s.nframes - 1 - x % s.nframes < s.nframes := by omega
  exact ⟨h3, (hq.free _ h3).not.2 (by omega)⟩

theorem tinv_step (s : State) (tr : List (State × Nat × Nat)) (p r : Nat) (s2 : State)
    (hg : Good s) (_hrt : KnownPolicy s.rt) (ht : TInv s tr) (hp : p < s.npages)
    (_h1 : page_fault_handler s p r = .ret s2) (hf : Fixed s s2) (hstep : Step s p r s2) :
    TInv s2 (tr ++ [(s, p, r)]) := by
  intro hr
  rw [hf.rt] at hr
  obtain ⟨htA, htB, htC⟩ := ht hr
  have hn := hg.nf
  have hlf := hg.cons.len_ft
  have hread : ∀ (_ : (rd s.pt p).bits = 0)
      (_ : ft_eqv s2.f_table (s.f_table.set (s.nframes - 1 - s.rc % s.nframes) ⟨p, 1, 0⟩))
      (_ : s2.rc = s.rc + 1),
      (∀ i j, i ≤ j → j < s2.rc → s2.rc ≤ i + s2.nframes →
        ∃ ti tj, load_time (tr ++ [(s, p, r)]) (pg s2 i) = some ti ∧
          load_time (tr ++ [(s, p, r)]) (pg s2 j) = some tj ∧ (i < j → ti < tj)) ∧
      (s2.rc = 0 → tr ++ [(s, p, r)] = []) ∧
      (0 < s2.rc → s2.rc ≤ s2.nframes → load_time (tr ++ [(s, p, r)]) (pg s2 0) = some 0) := by
    intro hb hft hrc
    have hmr : s.rc % s.nframes < s.nframes := Nat.mod_lt _ (by omega)
    have hnew : pg s2 s.rc = p := by
      unfold pg
      rw [hf.nframes, rd_eqv_page hft, rd_set_eq _ _ _ (by omega)]
    have hnewt : load_time (tr ++ [(s, p, r)]) p = some tr.length := by
      rw [load_time_snoc, if_pos]
      exact ⟨rfl, by simp [is_read_fault, page_table_get_entry, hb]⟩
    have hold : ∀ x, x < s.rc → s.rc + 1 ≤ x + s.nframes →
        pg s2 x = pg s x ∧
        load_time (tr ++ [(s, p, r)]) (pg s x) = load_time tr (pg s x) := by
      intro x hx hxk
      have hne := mod_ne_of_lt_of_lt hx (show s.rc < x + s.nframes by omega)
      have hmx : x % s.nframes < s.nframes := Nat.mod_lt _ (by omega)
      obtain ⟨ho1, ho2⟩ := recent_occupied hg hr hx
      have hpne : pg s x ≠ p := by
        intro he
        have h3 := congrArg PTE.bits (hg.cons.ft_pt _ ho1 ho2).2
        unfold pg at he
        rw [he, hb] at h3
        exact ho2 h3.symm
      constructor
      · unfold pg
        rw [hf.nframes, rd_eqv_page hft, rd_set_ne _ _ _ _ (by omega)]
      · rw [load_time_snoc, if_neg]
        intro hc; exact hpne hc.1.symm
    refine ⟨?_, by omega, ?_⟩
    · intro i j hij hj hi
      rw [hrc] at hj hi
      rw [hf.nframes] at hi
      by_cases hjr : j = s.rc
      · subst hjr
        by_cases hir : i = s.rc
        · subst hir
          exact ⟨tr.length, tr.length, by rw [hnew]; exact hnewt, by rw [hnew]; exact hnewt,
            fun h => absurd h (lt_irrefl _)⟩
        · obtain ⟨e1, e2⟩ := hold i (by omega) (by omega)
          obtain ⟨ti, _, h3, _, _⟩ := htA i i (le_refl _) (by omega) (by omega)
          refine ⟨ti, tr.length, by rw [e1, e2]; exact h3, by rw [hnew]; exact hnewt, ?_⟩
          intro _
          exact load_time_lt tr _ ti h3
      · obtain ⟨e1, e2⟩ := hold i (by omega) (by omega)
        obtain ⟨e3, e4⟩ := hold j (by omega) (by omega)
        obtain ⟨ti, tj, h3, h4, h5⟩ := htA i j hij (by omega) (by omega)
        exact ⟨ti, tj, by rw [e1, e2]; exact h3, by rw [e3, e4]; exact h4, h5⟩
    · intro _ hle
      rw [hrc, hf.nframes] at hle
      by_cases h0 : s.rc = 0
      · have htr := htB h0
        rw [h0] at hnew
        rw [hnew, hnewt, htr]; rfl
      · obtain ⟨e1, e2⟩ := hold 0 (by omega) (by omega)
        rw [e1, e2]
        exact htC (by omega) (by omega)
  rcases hstep with ⟨hb, i, hs, h⟩ | ⟨hb, hs, h⟩ | ⟨hb, h⟩
  · obtain ⟨k1, k2⟩ := read_fills (r := r) hg hr (Or.inl ⟨i, hs, h⟩)
    exact hread hb k1 k2
  · obtain ⟨k1, k2⟩ := read_fills hg hr (Or.inr ⟨hs, h⟩)
    exact hread hb k1 k2
  · obtain ⟨hfr, hfp, hfb⟩ := hg.cons.pt_ft p hp hb
    have hpg : ∀ x, pg s2 x = pg s x := by
      intro x
      unfold pg
      rw [hf.nframes, rd_eqv_page h.ft]
      by_cases hx : (rd s.pt p).frame = s.nframes - 1 - x % s.nframes
      · rw [← hx, rd_set_eq _ _ _ (by omega), hfp]
      · rw [rd_set_ne _ _ _ _ hx]
    have hlt : ∀ q, load_time (tr ++ [(s, p, r)]) q = load_time tr q := by
      intro q
      rw [load_time_snoc, if_neg]
      intro hc
      have := hc.2
      simp [is_read_fault, page_table_get_entry, hb] at this
    have hrcpos : 0 < s.rc := by
      have hocc : (rd s.f_table (rd s.pt p).frame).bits ≠ 0 := by rw [hfb]; exact hb
      have := ((hg.queue hr).free _ hfr).not.1 hocc
      omega
    refine ⟨?_, ?_, ?_⟩
    · intro i j hij hj hi
      rw [h.rc] at hj hi
      rw [hf.nframes] at hi
      obtain ⟨ti, tj, h3, h4, h5⟩ := htA i j hij hj hi
      exact ⟨ti, tj, by rw [hpg, hlt]; exact h3, by rw [hpg, hlt]; exact h4, h5⟩
    · intro h0; rw [h.rc] at h0; omega
    · intro h1 h2
      rw [h.rc] at h1 h2
      rw [hf.nframes] at h2
      rw [hpg, hlt]
      exact htC h1 h2

theorem tinv_run (s0 : State) (fs : List (Nat × Nat)) (s : State)
    (h0 : IsInitial s0) (hrt : KnownPolicy s0.rt) (hfs : ∀ f ∈ fs, f.1 < s0.npages)
    (hrun : run s0 fs = .ret s) : TInv s (trace s0 fs) := by
  have hg0 := good_initial h0
  have hbase : TInv s0 [] := by
    obtain ⟨_, h2, _⟩ := h0
    refine fun _ => ⟨?_, fun _ => rfl, ?_⟩
    · intro i j _ hj _
      rw [h2] at hj
      exact absurd hj (Nat.not_lt_zero _)
    · intro hpos; rw [h2] at hpos; exact absurd hpos (lt_irrefl _)
  have := run_history_induction TInv tinv_step fs s0 [] hg0 hrt hfs hbase s hrun
  simpa using this

/-- Among `k` consecutive numbers one has a given remainder modulo `k`. -/
theorem exists_mod_in_window (k a c : Nat) (hc : c < k) :
    ∃ j, a ≤ j ∧ j < a + k ∧ j % k = c := by
  have h1 : k * (a / k) + a % k = a := Nat.div_add_mod a k
  have h2 : a % k < k := Nat.mod_lt _ (by omega)
  by_cases h : a % k ≤ c
  · refine ⟨k * (a / k) + c, by omega, by omega, ?_⟩
    rw [Nat.mul_add_mod, Nat.mod_eq_of_lt hc]
  · refine ⟨k * (a / k + 1) + c, ?_, ?_, ?_⟩
    · rw [Nat.mul_add, Nat.mul_one]; omega
    · rw [Nat.mul_add, Nat.mul_one]; omega
    · rw [Nat.mul_add_mod, Nat.mod_eq_of_lt hc]

/-- C6: under fifo, in a state reached from an initial state in which every
frame is occupied, a read-fault on a page that is not resident evicts a
resident page `q` whose last load (invocation number `t` of the run) came
before the last load of every other resident page, and every other resident
page keeps its mapping; if exactly `nframes` loads have taken place, so that
nothing was evicted before, `q` was loaded by the first invocation. -/
theorem C6_fifo_order (s0 s : State) (fs : List (Nat × Nat)) (p r : Nat)
    (h0 : IsInitial s0) (hrt : s0.rt = "fifo") (hfs : ∀ f ∈ fs, f.1 < s0.npages)
    (hrun : run s0 fs = .ret s)
    (hb : (page_table_get_entry s.pt p).bits = 0)
    (hfull : ∀ f, f < s.nframes → (rd s.f_table f).bits ≠ 0) :
    ∃ s2 q t, page_fault_handler s p r = .ret s2 ∧ q < s.npages ∧
      (page_table_get_entry s.pt q).bits ≠ 0 ∧ (page_table_get_entry s2.pt q).bits = 0 ∧
      load_time (trace s0 fs) q = some t ∧
      (∃ e, (trace s0 fs)[t]? = some e ∧ e.2.1 = q ∧ is_read_fault e = true) ∧
      (∀ q2, q2 < s.npages → q2 ≠ q → (page_table_get_entry s.pt q2).bits ≠ 0 →
        page_table_get_entry s2.pt q2 = page_table_get_entry s.pt q2 ∧
        ∃ t2, load_time (trace s0 fs) q2 = some t2 ∧ t < t2) ∧
      (s.rc = s.nframes → t = 0) := by
  have hkp : KnownPolicy s0.rt := Or.inr (Or.inl hrt)
  have hreach : Reachable s := ⟨s0, fs, h0, hkp, hfs, hrun⟩
  obtain ⟨hg, hrt2⟩ := reachable_good hreach
  have hti := tinv_run s0 fs s h0 hkp hfs hrun
  have hs := scan_free_full hfull
  obtain ⟨s2, h1, hf, hr⟩ := handler_read_evict s p r hrt2 hb hs
  obtain ⟨hv, hvb, hvq, hqp⟩ := victim_facts hg r hb hs
  have hrs : s.rt = "fifo" := by
    obtain ⟨s3, k1, _, k3, _⟩ := run_good fs s0 (good_initial h0) hkp hfs
    rw [k1] at hrun; cases hrun; rw [k3, hrt]
  have hnr : s.rt ≠ "rand" := by rw [hrs]; decide
  obtain ⟨htA, _, htC⟩ := hti hnr
  have hn := hg.nf
  have hlp := hg.cons.len_pt
  obtain ⟨hge, hhead, _⟩ := (hg.queue hnr).scan_none hn hs
  have hvv : victim s r = s.nframes - 1 - s.rc % s.nframes := by
    unfold victim; rw [if_neg hnr]; exact hhead
  have hmodk : (s.rc - s.nframes) % s.nframes = s.rc % s.nframes := by
    conv_rhs => rw [show s.rc = (s.rc - s.nframes) + s.nframes by omega]
    rw [Nat.add_mod_right]
  have hq : pg s (s.rc - s.nframes) = (rd s.f_table (victim s r)).page := by
    unfold pg; rw [hmodk, hvv]
  have hpt := (hg.cons.ft_pt _ hv hvb).2
  obtain ⟨t, _, ht, _, _⟩ := htA (s.rc - s.nframes) (s.rc - s.nframes) (le_refl _)
    (by omega) (by omega)
  rw [hq] at ht
  refine ⟨s2, (rd s.f_table (victim s r)).page, t, h1, hvq, ?_, ?_, ht,
    load_time_event _ _ _ ht, ?_, ?_⟩
  · rw [page_table_get_entry, hpt]; exact hvb
  · rw [page_table_get_entry, hr.pt, rd_set_ne _ _ _ _ (Ne.symm hqp), rd_set_eq _ _ _ (by omega)]
  · intro q2 hq2 hne hq2b
    obtain ⟨g1, g2, g3⟩ := hg.cons.pt_ft q2 hq2 hq2b
    constructor
    · have hne2 : q2 ≠ p := by intro he; rw [he] at hq2b; exact hq2b hb
      rw [page_table_get_entry, page_table_get_entry, hr.pt, rd_set_ne _ _ _ _ (Ne.symm hne2),
        rd_set_ne _ _ _ _ (Ne.symm hne)]
    · obtain ⟨j, j1, j2, j3⟩ := exists_mod_in_window s.nframes (s.rc - s.nframes)
        (s.nframes - 1 - (rd s.pt q2).frame) (by omega)
      have hpj : pg s j = q2 := by
        unfold pg
        rw [j3, show s.nframes - 1 - (s.nframes - 1 - (rd s.pt q2).frame) = (rd s.pt q2).frame
          by omega]
        exact g2
      have hjne : j ≠ s.rc - s.nframes := by
        intro he
        rw [he, hq] at hpj
        exact hne hpj.symm
      obtain ⟨ti, tj, k1, k2, k3⟩ := htA (s.rc - s.nframes) j j1 (by omega) (by omega)
      rw [hq, ht] at k1
      cases k1
      rw [hpj] at k2
      exact ⟨tj, k2, k3 (by omega)⟩
  · intro hrc
    have h3 := htC (by omega) (by omega)
    rw [hrc, Nat.sub_self] at hq
    rw [hq, ht] at h3
    exact Option.some.inj h3

theorem C6_fifo_order_witness :
    (∃ s2 q t, page_fault_handler ex6_state 2 0 = .ret s2 ∧ q < ex6_state.npages ∧
      (page_table_get_entry ex6_state.pt q).bits ≠ 0 ∧ (page_table_get_entry s2.pt q).bits = 0 ∧
      load_time (trace (init "fifo" 4 2) [(0, 0), (1, 0)]) q = some t ∧
      (∃ e, (trace (init "fifo" 4 2) [(0, 0), (1, 0)])[t]? = some e ∧ e.2.1 = q ∧
        is_read_fault e = true) ∧
      (∀ q2, q2 < ex6_state.npages → q2 ≠ q → (page_table_get_entry ex6_state.pt q2).bits ≠ 0 →
        page_table_get_entry s2.pt q2 = page_table_get_entry ex6_state.pt q2 ∧
        ∃ t2, load_time (trace (init "fifo" 4 2) [(0, 0), (1, 0)]) q2 = some t2 ∧ t < t2) ∧
      (ex6_state.rc = ex6_state.nframes → t = 0)) ∧
    resident (run (init "fifo" 4 2) [(0, 0)]).state = [0] ∧
    resident (run (init "fifo" 4 2) [(0, 0), (1, 0)]).state = [0, 1] ∧
    resident (run (init "fifo" 4 2) [(0, 0), (1, 0), (2, 0)]).state = [1, 2] :=
  ⟨C6_fifo_order (init "fifo" 4 2) ex6_state [(0, 0), (1, 0)] 2 0
    (by decide) (by decide) (by decide) (by decide) (by decide) (by decide),
    by decide, by decide, by decide⟩

/-! ### The lru policy, the free-frame scan and the error exit -/

/-- C8 (the code departs from the claim): in a reachable lru state with every
frame occupied, frame 1 has its reference flag set and frame 0 has it clear,
and a read-fault on page 4 evicts page 1 from frame 1, the head of the queue,
while the page of frame 0 stays mapped. -/
theorem C8_lru_evicts_referenced_frame :
    Reachable ex8_state ∧
    (∀ f, f < ex8_state.nframes → (rd ex8_state.f_table f).bits ≠ 0) ∧
    (rd ex8_state.f_table 1).rbit = 1 ∧ (rd ex8_state.f_table 0).rbit = 0 ∧
    (rd ex8_state.f_table 1).page = 1 ∧
    (scan_rbit ex8_state.nframes ex8_state.f_table).1 = some 0 ∧
    rd ex8_state.fifo_arr ex8_state.ft_pointer = 1 ∧
    (page_table_get_entry (page_fault_handler ex8_state 4 0).state.pt 1).bits = 0 ∧
    page_table_get_entry (page_fault_handler ex8_state 4 0).state.pt 4 = ⟨1, PROT_READ⟩ ∧
    page_table_get_entry (page_fault_handler ex8_state 4 0).state.pt
      (rd ex8_state.f_table 0).page = ⟨0, PROT_READ⟩ := by
  refine ⟨⟨init "lru" 5 3, [(0, 0), (1, 0), (2, 0), (3, 0), (1, 0)],
    by decide, by decide, by decide, by decide⟩, ?_⟩
  decide

/-- C9 (as stated, refuted): with both frames free the lowest free index is
0, but the scan of the three helpers returns 1, the read-fault loads the page
into frame 1 and frame 0 stays free. -/
theorem C9_lowest_free_counterexample :
    (rd (init "fifo" 4 2).f_table 0).bits = 0 ∧
    scan_free 2 (init "fifo" 4 2).f_table = some 1 ∧
    ¬ (∃ i, scan_free 2 (init "fifo" 4 2).f_table = some i ∧
        ∀ j, j < i → (rd (init "fifo" 4 2).f_table j).bits ≠ 0) ∧
    (∀ rt, rt ∈ ["rand", "fifo", "lru"] →
      page_table_get_entry (page_fault_handler (init rt 4 2) 0 0).state.pt 0 = ⟨1, PROT_READ⟩ ∧
      (rd (page_fault_handler (init rt 4 2) 0 0).state.f_table 0).bits = 0) := by
  refine ⟨by decide, by decide, ?_, by decide⟩
  rintro ⟨i, h1, h2⟩
  have h3 : scan_free 2 (init "fifo" 4 2).f_table = some 1 := by decide
  rw [h3] at h1
  cases h1
  exact h2 0 (by decide) (by decide)

/-- C9 (amended): when some frame is free, the free-frame scan selects the
largest index below `nframes` whose bits are 0, and a read-fault under rand,
fifo or lru loads the faulting page into that frame. -/
theorem C9_scan_picks_highest_free (s : State) (p r : Nat) (hrt : KnownPolicy s.rt)
    (hlf : s.f_table.length = s.nframes) (hlm : s.physmem.length = s.nframes)
    (hp : p < s.pt.length)
    (hfree : ∃ i, i < s.nframes ∧ (rd s.f_table i).bits = 0)
    (hb : (page_table_get_entry s.pt p).bits = 0) :
    ∃ i, scan_free s.nframes s.f_table = some i ∧ i < s.nframes ∧
      (rd s.f_table i).bits = 0 ∧
      (∀ j, i < j → j < s.nframes → (rd s.f_table j).bits ≠ 0) ∧
      ∃ s2, page_fault_handler s p r = .ret s2 ∧
        page_table_get_entry s2.pt p = ⟨i, PROT_READ⟩ ∧
        (rd s2.f_table i).page = p ∧ (rd s2.f_table i).bits = PROT_READ ∧
        rd s2.physmem i = disk_read s.disk p := by
  rcases scan_free_spec s.f_table s.nframes with ⟨_, h2⟩ | ⟨i, h1, h2, h3, h4⟩
  · obtain ⟨i, hi, hib⟩ := hfree
    exact absurd hib (h2 i hi)
  · obtain ⟨s2, k1, _, k3⟩ := handler_read_free s p r i hrt hb h1
    refine ⟨i, h1, h2, h3, h4, s2, k1, ?_, ?_, ?_, ?_⟩
    · rw [page_table_get_entry, k3.pt, rd_set_eq _ _ _ hp]; rfl
    · rw [rd_eqv_page k3.ft, rd_set_eq _ _ _ (by omega)]
    · rw [rd_eqv_bits k3.ft, rd_set_eq _ _ _ (by omega)]; rfl
    · rw [k3.physmem, rd_set_eq _ _ _ (by omega)]; rfl

theorem C9_scan_picks_highest_free_witness :
    ∃ i, scan_free ex9_state.nframes ex9_state.f_table = some i ∧
      i < ex9_state.nframes ∧
      (rd ex9_state.f_table i).bits = 0 ∧
      (∀ j, i < j → j < ex9_state.nframes → (rd ex9_state.f_table j).bits ≠ 0) ∧
      ∃ s2, page_fault_handler ex9_state 1 0 = .ret s2 ∧
        page_table_get_entry s2.pt 1 = ⟨i, PROT_READ⟩ ∧
        (rd s2.f_table i).page = 1 ∧ (rd s2.f_table i).bits = PROT_READ ∧
        rd s2.physmem i = disk_read ex9_state.disk 1 :=
  C9_scan_picks_highest_free ex9_state 1 0 (by decide) (by decide) (by decide) (by decide)
    ⟨0, by decide, by decide⟩ (by decide)

/-- C10 (as stated, refuted): page 0 is mapped `PROT_READ|PROT_WRITE`, which
is neither Absent nor ReadOnly, and a handler invocation on it under rand,
fifo or lru returns with the fault counter incremented instead of exiting. -/
theorem C10_case_c_counterexample :
    page_table_get_entry (ex10_state "fifo").pt 0 = ⟨1, PROT_READ ||| PROT_WRITE⟩ ∧
    (∀ rt, rt ∈ ["rand", "fifo", "lru"] →
      Reachable (ex10_state rt) ∧
      (page_table_get_entry (ex10_state rt).pt 0).bits = PROT_READ ||| PROT_WRITE ∧
      (page_table_get_entry (ex10_state rt).pt 0).bits ≠ 0 ∧
      (page_table_get_entry (ex10_state rt).pt 0).bits ≠ PROT_READ ∧
      ∃ s2, page_fault_handler (ex10_state rt) 0 0 = .ret s2 ∧
        s2.fc = (ex10_state rt).fc + 1) := by
  refine ⟨by decide, ?_⟩
  intro rt hrt
  simp only [List.mem_cons, List.mem_singleton, List.not_mem_nil, or_false] at hrt
  rcases hrt with h | h | h <;> subst h
  · exact ⟨⟨init "rand" 4 2, [(0, 0), (0, 0)], by decide, by decide, by decide, by decide⟩,
      by decide, by decide, by decide,
      (page_fault_handler (ex10_state "rand") 0 0).state, by decide, by decide⟩
  · exact ⟨⟨init "fifo" 4 2, [(0, 0), (0, 0)], by decide, by decide, by decide, by decide⟩,
      by decide, by decide, by decide,
      (page_fault_handler (ex10_state "fifo") 0 0).state, by decide, by decide⟩
  · exact ⟨⟨init "lru" 4 2, [(0, 0), (0, 0)], by decide, by decide, by decide, by decide⟩,
      by decide, by decide, by decide,
      (page_fault_handler (ex10_state "lru") 0 0).state, by decide, by decide⟩

/-- C10 (amended): for every state and every page whose permission is
non-zero and lacks the `PROT_READ` bit, a handler invocation under rand, fifo
or lru terminates the process with `exit(1)` with the page table, the frame
table and the counters as they were. -/
theorem C10_case_c_exit (s : State) (p r : Nat) (hrt : KnownPolicy s.rt)
    (hb : (page_table_get_entry s.pt p).bits ≠ 0)
    (hr : (page_table_get_entry s.pt p).bits &&& PROT_READ = 0) :
    page_fault_handler s p r = .exit 1 s :=
  handler_exit s p r hrt hb hr

theorem C10_case_c_exit_witness :
    page_fault_handler (ex10_wonly "lru") 0 0 = .exit 1 (ex10_wonly "lru") :=
  C10_case_c_exit (ex10_wonly "lru") 0 0 (by decide) (by decide) (by decide)

/-! ### Random eviction, unreachable exit, free frames, unknown policy -/

/-- C13: under rand, in a reachable state in which no frame is free, a
read-fault on an Absent page with generator value `r` takes the victim
`r % nframes`, which is below `nframes`, whatever the order in which the
frames were filled: the page that frame held becomes Absent, the faulting
page is mapped to that frame with `PROT_READ` and the frame holds it. -/
theorem C13_rand_victim (s : State) (p r : Nat) (h : Reachable s) (hrt : s.rt = "rand")
    (hp : p < s.npages) (hb : (page_table_get_entry s.pt p).bits = 0)
    (hfull : ∀ f, f < s.nframes → (rd s.f_table f).bits ≠ 0) :
    ∃ s2, page_fault_handler s p r = .ret s2 ∧ r % s.nframes < s.nframes ∧
      (page_table_get_entry s.pt (rd s.f_table (r % s.nframes)).page).bits ≠ 0 ∧
      (page_table_get_entry s2.pt (rd s.f_table (r % s.nframes)).page).bits = 0 ∧
      page_table_get_entry s2.pt p = ⟨r % s.nframes, PROT_READ⟩ ∧
      (rd s2.f_table (r % s.nframes)).page = p ∧
      (rd s2.f_table (r % s.nframes)).bits = PROT_READ := by
  obtain ⟨hg, hrt2⟩ := reachable_good h
  have hs := scan_free_full hfull
  obtain ⟨s2, h1, hf, hr⟩ := handler_read_evict s p r hrt2 hb hs
  obtain ⟨hv, hvb, hvq, hqp⟩ := victim_facts hg r hb hs
  have hvic : victim s r = r % s.nframes := by unfold victim; rw [if_pos hrt]
  rw [hvic] at hv hvb hvq hqp hr
  have hlp := hg.cons.len_pt
  have hlf := hg.cons.len_ft
  have hpt := (hg.cons.ft_pt _ hv hvb).2
  refine ⟨s2, h1, hv, ?_, ?_, ?_, ?_, ?_⟩
  · rw [page_table_get_entry, hpt]; exact hvb
  · rw [page_table_get_entry, hr.pt, rd_set_ne _ _ _ _ (Ne.symm hqp), rd_set_eq _ _ _ (by omega)]
  · rw [page_table_get_entry, hr.pt, rd_set_eq _ _ _ (by simp; omega)]; rfl
  · rw [rd_eqv_page hr.ft, rd_set_eq _ _ _ (by omega)]
  · rw [rd_eqv_bits hr.ft, rd_set_eq _ _ _ (by omega)]; rfl

theorem C13_rand_victim_witness :
    (rd ex13_state.f_table 0).page = 1 ∧
    ∃ s2, page_fault_handler ex13_state 2 6 = .ret s2 ∧ 6 % ex13_state.nframes < ex13_state.nframes ∧
      (page_table_get_entry ex13_state.pt (rd ex13_state.f_table (6 % ex13_state.nframes)).page).bits ≠ 0 ∧
      (page_table_get_entry s2.pt (rd ex13_state.f_table (6 % ex13_state.nframes)).page).bits = 0 ∧
      page_table_get_entry s2.pt 2 = ⟨6 % ex13_state.nframes, PROT_READ⟩ ∧
      (rd s2.f_table (6 % ex13_state.nframes)).page = 2 ∧
      (rd s2.f_table (6 % ex13_state.nframes)).bits = PROT_READ :=
  ⟨by decide, C13_rand_victim ex13_state 2 6
    ⟨init "rand" 4 2, [(0, 0), (1, 0)], by decide, by decide, by decide, by decide⟩
    (by decide) (by decide) (by decide) (by decide)⟩

/-- C16: in every reachable state every page-table permission is 0,
`PROT_READ` or `PROT_READ|PROT_WRITE`, and a handler invocation on any page
below `npages` returns: it does not reach the `exit(1)` branch. -/
theorem C16_exit_unreachable (s : State) (h : Reachable s) :
    (∀ p, p < s.npages →
      (page_table_get_entry s.pt p).bits = 0 ∨
      (page_table_get_entry s.pt p).bits = PROT_READ ∨
      (page_table_get_entry s.pt p).bits = PROT_READ ||| PROT_WRITE) ∧
    (∀ p r, p < s.npages → ∃ s2, page_fault_handler s p r = .ret s2) ∧
    (∀ p r c s2, p < s.npages → page_fault_handler s p r ≠ .exit c s2) := by
  obtain ⟨hg, hrt⟩ := reachable_good h
  refine ⟨fun p hp => hg.cons.perm p hp, ?_, ?_⟩
  · intro p r hp
    obtain ⟨s2, h1, _⟩ := handler_good s p r hg hrt hp
    exact ⟨s2, h1⟩
  · intro p r c s2 hp hc
    obtain ⟨s3, h1, _⟩ := handler_good s p r hg hrt hp
    rw [h1] at hc
    cases hc

theorem C16_exit_unreachable_witness :
    (∀ p, p < ex_state.npages →
      (page_table_get_entry ex_state.pt p).bits = 0 ∨
      (page_table_get_entry ex_state.pt p).bits = PROT_READ ∨
      (page_table_get_entry ex_state.pt p).bits = PROT_READ ||| PROT_WRITE) ∧
    (∀ p r, p < ex_state.npages → ∃ s2, page_fault_handler ex_state p r = .ret s2) ∧
    (∀ p r c s2, p < ex_state.npages → page_fault_handler ex_state p r ≠ .exit c s2) :=
  C16_exit_unreachable ex_state
    ⟨init "lru" 5 3, ex_faults, by decide, by decide, by decide, by decide⟩

/-- C18: in a reachable state in which some frame is free, a read-fault
under rand, fifo or lru loads the page into a frame that was free, leaves
every other page's page-table entry and every other frame's page and bits
unchanged, leaves the backing store and the write counter unchanged and does
not move the head pointer of the queue. -/
theorem C18_no_eviction_when_free (s : State) (p r : Nat) (h : Reachable s)
    (hp : p < s.npages) (hb : (page_table_get_entry s.pt p).bits = 0)
    (hfree : ∃ i, i < s.nframes ∧ (rd s.f_table i).bits = 0) :
    ∃ s2 i, page_fault_handler s p r = .ret s2 ∧ i < s.nframes ∧
      (rd s.f_table i).bits = 0 ∧
      page_table_get_entry s2.pt p = ⟨i, PROT_READ⟩ ∧
      (rd s2.f_table i).page = p ∧ (rd s2.f_table i).bits = PROT_READ ∧
      (∀ q, q ≠ p → page_table_get_entry s2.pt q = page_table_get_entry s.pt q) ∧
      (∀ g, g ≠ i → (rd s2.f_table g).page = (rd s.f_table g).page ∧
        (rd s2.f_table g).bits = (rd s.f_table g).bits) ∧
      s2.disk = s.disk ∧ s2.wc = s.wc ∧ s2.ft_pointer = s.ft_pointer := by
  obtain ⟨hg, hrt⟩ := reachable_good h
  have hlp := hg.cons.len_pt
  have hlf := hg.cons.len_ft
  rcases scan_free_spec s.f_table s.nframes with ⟨_, h2⟩ | ⟨i, h1, h2, h3, _⟩
  · obtain ⟨i, hi, hib⟩ := hfree
    exact absurd hib (h2 i hi)
  · obtain ⟨s2, k1, _, k3⟩ := handler_read_free s p r i hrt hb h1
    refine ⟨s2, i, k1, h2, h3, ?_, ?_, ?_, ?_, ?_, k3.disk, k3.wc, k3.head⟩
    · rw [page_table_get_entry, k3.pt, rd_set_eq _ _ _ (by omega)]; rfl
    · rw [rd_eqv_page k3.ft, rd_set_eq _ _ _ (by omega)]
    · rw [rd_eqv_bits k3.ft, rd_set_eq _ _ _ (by omega)]; rfl
    · intro q hq
      rw [page_table_get_entry, page_table_get_entry, k3.pt, rd_set_ne _ _ _ _ (Ne.symm hq)]
    · intro g hgi
      rw [rd_eqv_page k3.ft, rd_eqv_bits k3.ft, rd_set_ne _ _ _ _ (Ne.symm hgi)]
      exact ⟨rfl, rfl⟩

theorem C18_no_eviction_when_free_witness :
    Reachable (ex18_state "lru") ∧
    ∃ s2 i, page_fault_handler (ex18_state "lru") 2 5 = .ret s2 ∧
      i < (ex18_state "lru").nframes ∧
      (rd (ex18_state "lru").f_table i).bits = 0 ∧
      page_table_get_entry s2.pt 2 = ⟨i, PROT_READ⟩ ∧
      (rd s2.f_table i).page = 2 ∧ (rd s2.f_table i).bits = PROT_READ ∧
      (∀ q, q ≠ 2 →
        page_table_get_entry s2.pt q = page_table_get_entry (ex18_state "lru").pt q) ∧
      (∀ g, g ≠ i → (rd s2.f_table g).page = (rd (ex18_state "lru").f_table g).page ∧
        (rd s2.f_table g).bits = (rd (ex18_state "lru").f_table g).bits) ∧
      s2.disk = (ex18_state "lru").disk ∧ s2.wc = (ex18_state "lru").wc ∧
      s2.ft_pointer = (ex18_state "lru").ft_pointer :=
  ⟨⟨init "lru" 4 3, [(0, 0)], by decide, by decide, by decide, by decide⟩,
    C18_no_eviction_when_free (ex18_state "lru") 2 5
      ⟨init "lru" 4 3, [(0, 0)], by decide, by decide, by decide, by decide⟩
      (by decide) (by decide) ⟨0, by decide, by decide⟩⟩

/-- C19: with a policy name other than rand, fifo and lru the handler
returns the state it was given with only the fault counter incremented, for
every state, page and generator value; the faulting page keeps its
permission. -/
theorem C19_unknown_policy_only_counts (s : State) (p r : Nat) (hrt : ¬ KnownPolicy s.rt) :
    page_fault_handler s p r = .ret { s with fc := s.fc + 1 } ∧
    page_table_get_entry { s with fc := s.fc + 1 }.pt p = page_table_get_entry s.pt p := by
  have h1 : ¬ s.rt = "rand" := fun h => hrt (Or.inl h)
  have h2 : ¬ s.rt = "fifo" := fun h => hrt (Or.inr (Or.inl h))
  have h3 : ¬ s.rt = "lru" := fun h => hrt (Or.inr (Or.inr h))
  exact ⟨by simp [page_fault_handler, h1, h2, h3], rfl⟩

theorem C19_unknown_policy_only_counts_witness :
    page_fault_handler ex19_state 1 0 = .ret { ex19_state with fc := ex19_state.fc + 1 } ∧
    page_table_get_entry { ex19_state with fc := ex19_state.fc + 1 }.pt 1 =
      page_table_get_entry ex19_state.pt 1 :=
  C19_unknown_policy_only_counts ex19_state 1 0 (by decide)

/-! ### The lru helper against the fifo helper -/

theorem scan_free_congr {a b : List Entry_frame} (h : ft_eqv a b) (n : Nat) :
    scan_free n a = scan_free n b := by
  induction n with
  | zero => rfl
  | succ n ih =>
    simp only [scan_free, List.range_succ, List.foldl_append, List.foldl_cons, List.foldl_nil]
      at ih ⊢
    rw [ih, rd_eqv_bits h]

theorem ft_eqv_symm {a b : List Entry_frame} (h : ft_eqv a b) : ft_eqv b a :=
  ⟨h.1.symm, fun i => ⟨(h.2 i).1.symm, (h.2 i).2.symm⟩⟩

theorem agree_symm {a b : State} (h : agree_upto_rbit a b) : agree_upto_rbit b a := by
  obtain ⟨h1, h2, h3, h4, h5, h6, h7, h8, h9, h10, h11, h12, h13⟩ := h
  exact ⟨h1.symm, h2.symm, h3.symm, h4.symm, h5.symm, h6.symm, h7.symm, h8.symm, ft_eqv_symm h9,
    h10.symm, h11.symm, h12.symm, h13.symm⟩

theorem agree_trans {a b c : State} (h : agree_upto_rbit a b)
    (k : agree_upto_rbit b c) : agree_upto_rbit a c := by
  obtain ⟨h1, h2, h3, h4, h5, h6, h7, h8, h9, h10, h11, h12, h13⟩ := h
  obtain ⟨k1, k2, k3, k4, k5, k6, k7, k8, k9, k10, k11, k12, k13⟩ := k
  exact ⟨h1.trans k1, h2.trans k2, h3.trans k3, h4.trans k4, h5.trans k5, h6.trans k6,
    h7.trans k7, h8.trans k8, h9.trans k9, h10.trans k10, h11.trans k11, h12.trans k12,
    h13.trans k13⟩

/-- `lru_helper` against `fifo_helper` on states that differ in the reference
flags. -/
theorem lru_fifo_agree (s t : State) (page : Nat) (h : agree_upto_rbit s t) :
    agree_outcome (lru_helper s page) (fifo_helper t page) := by
  obtain ⟨h1, h2, h3, h4, h5, h6, h7, h8, h9, h10, h11, h12, h13⟩ := h
  have hscan := scan_free_congr h9 s.nframes
  have he0 : ft_eqv (scan_rbit s.nframes s.f_table).2 t.f_table :=
    (scan_rbit_eqv _ _).trans h9
  by_cases hb : (rd t.pt page).bits = 0
  · cases hs : scan_free t.nframes t.f_table with
    | none =>
      rw [← h5, ← hscan] at hs
      simp only [lru_helper, fifo_helper, page_table_get_entry, h13, hb, hs, ← h5, ← hscan,
        if_true, agree_outcome, agree_upto_rbit, set_rbit, set_entry_add_data, rm_page_eq,
        page_table_set_entry, disk_read, h1, h2, h3, h4, h6, h7, h8, h10, h11, h12,
        rd_eqv_bits he0, rd_eqv_page he0, true_and, and_true, List.set_set]
      exact ft_eqv_set_rbit2 he0 _ _ _ _ rfl rfl
    | some i =>
      rw [← h5, ← hscan] at hs
      simp only [lru_helper, fifo_helper, page_table_get_entry, h13, hb, hs, ← h5, ← hscan,
        if_true, agree_outcome, agree_upto_rbit, set_rbit, set_entry_add_data,
        page_table_set_entry, disk_read, h1, h2, h3, h4, h6, h7, h8, h10, h11, h12,
        true_and, and_true, List.set_set]
      exact ft_eqv_set_rbit2 h9 _ _ _ _ rfl rfl
  · by_cases hr : (rd t.pt page).bits &&& PROT_READ = 0
    · simp only [lru_helper, fifo_helper, page_table_get_entry, h13, hb, hr, if_false,
        ne_eq, not_true_eq_false, agree_outcome, agree_upto_rbit, true_and]
      exact ⟨h1, h2, h3, h4, h5, h6, h7, h8, h9, h10, h11, h12, trivial⟩
    · simp only [lru_helper, fifo_helper, page_table_get_entry, h13, hb, hr, if_false,
        ne_eq, not_false_eq_true, if_true, agree_outcome, agree_upto_rbit, set_rbit,
        set_entry_add_data, page_table_set_entry, h1, h2, h3, h4, h6, h7, h8, h10, h11, h12,
        h5, true_and, and_true, List.set_set]
      exact ft_eqv_set_rbit2 h9 _ _ _ _ rfl rfl

/-- C15: for every pair of states that agree on everything except the
reference flags of the frames and every page, `lru_helper` on the one and
`fifo_helper` on the other either both take the error exit or both return, and
their results agree on the page table, every frame's page and bits, the queue
array, the head and tail pointers, the backing store, physical memory and the
counters; two runs of `lru_helper` from such states agree in the same way, so
the reference flags have no influence on the frame that is evicted. -/
theorem C15_lru_is_fifo (s t : State) (page : Nat) (h : agree_upto_rbit s t) :
    agree_outcome (lru_helper s page) (fifo_helper t page) ∧
    agree_outcome (lru_helper s page) (lru_helper t page) := by
  have hrefl : agree_upto_rbit t t :=
    ⟨rfl, rfl, rfl, rfl, rfl, rfl, rfl, rfl, ft_eqv.refl _, rfl, rfl, rfl, rfl⟩
  have h1 := lru_fifo_agree s t page h
  have h2 := lru_fifo_agree t t page hrefl
  refine ⟨h1, ?_⟩
  revert h1 h2
  cases lru_helper s page <;> cases fifo_helper t page <;> cases lru_helper t page <;>
    simp only [agree_outcome, false_implies, implies_true, imp_false, not_false_eq_true] <;>
    intro h1 h2
  · exact agree_trans h1 (agree_symm h2)
  · exact ⟨h1.1.trans h2.1.symm, agree_trans h1.2 (agree_symm h2.2)⟩

theorem C15_lru_is_fifo_witness :
    agree_outcome (lru_helper ex8_state 4) (fifo_helper ex15_state 4) ∧
    agree_outcome (lru_helper ex8_state 4) (lru_helper ex15_state 4) :=
  C15_lru_is_fifo ex8_state ex15_state 4 (by
    refine ⟨by decide, by decide, by decide, by decide, by decide, by decide, by decide,
      by decide, ⟨by decide, ?_⟩, by decide, by decide, by decide, by decide⟩
    intro i
    match i with
    | 0 => decide
    | 1 => decide
    | 2 => decide
    | (n + 3) => exact ⟨rfl, rfl⟩)

/-! ### The arrival queue -/

theorem rd_eq_getElem {α : Type} [Inhabited α] (a : List α) (i : Nat) (h : i < a.length) :
    rd a i = a[i] := by
  simp [rd, List.getD, h]

/-- Under fifo and lru, once `nframes` loads have taken place the queue array
is `nframes - 1, ..., 0`. -/
theorem full_queue_eq {s : State} (hg : Good s) (hr : s.rt ≠ "rand")
    (hge : s.nframes ≤ s.rc) : s.fifo_arr = (List.range s.nframes).reverse := by
  have hq := hg.queue hr
  apply List.ext_getElem
  · simp [hg.len_fifo]
  · intro j h1 h2
    have hj : j < s.nframes := by rw [← hg.len_fifo]; exact h1
    rw [← rd_eq_getElem _ _ h1, hq.arr j hj (by omega)]
    simp

/-- C17: in a state reached under fifo or lru, while some frame is free the
head pointer is 0 and the queue entries between head and tail are pairwise
distinct and are exactly the occupied frames; once every frame is occupied
head and tail pointers are equal, the queue array is a permutation of
`0 .. nframes-1`, and every read-fault evicts the frame at the head, loads the
page into it and leaves the queue array as it was, the frame id written back
into the slot it was taken from. -/
theorem C17_queue_one_slot_per_frame (s : State) (h : Reachable s)
    (hrt : s.rt = "fifo" ∨ s.rt = "lru") :
    ((∃ i, i < s.nframes ∧ (rd s.f_table i).bits = 0) →
      s.ft_pointer = 0 ∧ s.lt_pointer < s.nframes ∧
      (∀ j k, j < k → k < s.lt_pointer → rd s.fifo_arr j ≠ rd s.fifo_arr k) ∧
      (∀ j, j < s.lt_pointer → rd s.fifo_arr j < s.nframes) ∧
      (∀ f, f < s.nframes →
        ((rd s.f_table f).bits ≠ 0 ↔ ∃ j, j < s.lt_pointer ∧ rd s.fifo_arr j = f))) ∧
    ((∀ f, f < s.nframes → (rd s.f_table f).bits ≠ 0) →
      s.ft_pointer = s.lt_pointer ∧ s.fifo_arr.Perm (List.range s.nframes) ∧
      ∀ p r, p < s.npages → (page_table_get_entry s.pt p).bits = 0 →
        ∃ s2, page_fault_handler s p r = .ret s2 ∧
          page_table_get_entry s2.pt p = ⟨rd s.fifo_arr s.ft_pointer, PROT_READ⟩ ∧
          s2.fifo_arr = s.fifo_arr.set s.ft_pointer (rd s.fifo_arr s.ft_pointer) ∧
          s2.fifo_arr = s.fifo_arr ∧
          s2.ft_pointer = s2.lt_pointer ∧
          (∀ f, f < s2.nframes → (rd s2.f_table f).bits ≠ 0)) := by
  obtain ⟨hg, hkp⟩ := reachable_good h
  have hnr : s.rt ≠ "rand" := by
    rcases hrt with h | h <;> rw [h] <;> decide
  have hq := hg.queue hnr
  have hn := hg.nf
  constructor
  · rintro ⟨i, hi, hib⟩
    have hlt : s.rc < s.nframes := by have := (hq.free i hi).1 hib; omega
    have htail : s.lt_pointer = s.rc := by rw [hq.tail, Nat.mod_eq_of_lt hlt]
    have hhead := hq.head
    rw [if_pos hlt] at hhead
    rw [htail]
    refine ⟨hhead, hlt, ?_, ?_, ?_⟩
    · intro j k hjk hk
      rw [hq.arr j (by omega) (by omega), hq.arr k (by omega) hk]
      omega
    · intro j hj
      rw [hq.arr j (by omega) hj]; omega
    · intro f hf
      have hfree := hq.free f hf
      constructor
      · intro hocc
        have hnf : ¬ (f + s.rc < s.nframes) := fun hc => hocc (hfree.2 hc)
        exact ⟨s.nframes - 1 - f, by omega, by rw [hq.arr _ (by omega) (by omega)]; omega⟩
      · rintro ⟨j, hj, hjf⟩ hz
        rw [hq.arr j (by omega) hj] at hjf
        have := hfree.1 hz
        omega
  · intro hfull
    have hs := scan_free_full hfull
    obtain ⟨hge, hhead, hft⟩ := hq.scan_none hn hs
    have harr := full_queue_eq hg hnr hge
    refine ⟨by rw [hft, hq.tail], by rw [harr]; exact List.reverse_perm _, ?_⟩
    intro p r hp hb
    obtain ⟨s2, h1, hf, hg2, hstep⟩ := handler_good s p r hg hkp hp
    have hnr2 : s2.rt ≠ "rand" := by rw [hf.rt]; exact hnr
    have hq2 := hg2.queue hnr2
    rcases hstep with ⟨_, i, hs2, _⟩ | ⟨_, _, hr⟩ | ⟨hnb, _⟩
    · rw [hs] at hs2; cases hs2
    · have hvic : victim s r = rd s.fifo_arr s.ft_pointer := by
        unfold victim; rw [if_neg hnr]
      have hrc2 : s2.nframes ≤ s2.rc := by rw [hf.nframes, hr.rc]; omega
      have harr2 := full_queue_eq hg2 hnr2 hrc2
      have hlp := hg.cons.len_pt
      obtain ⟨hfa, hlt2, hfp2⟩ := hr.queue hnr
      refine ⟨s2, h1, ?_, ?_, ?_, ?_, ?_⟩
      · rw [page_table_get_entry, hr.pt, rd_set_eq _ _ _ (by simp; omega), hvic]; rfl
      · rw [hfa, hvic, hft, hq.tail]
      · rw [harr2, harr, hf.nframes]
      · rw [hlt2, hfp2, hft, hq.tail]
      · intro f hf2
        have := (hq2.free f hf2).not.2 (by omega)
        exact this
    · exact absurd hb hnb

theorem C17_queue_one_slot_per_frame_witness :
    ((∃ i, i < ex8_state.nframes ∧ (rd ex8_state.f_table i).bits = 0) →
      ex8_state.ft_pointer = 0 ∧ ex8_state.lt_pointer < ex8_state.nframes ∧
      (∀ j k, j < k → k < ex8_state.lt_pointer →
        rd ex8_state.fifo_arr j ≠ rd ex8_state.fifo_arr k) ∧
      (∀ j, j < ex8_state.lt_pointer → rd ex8_state.fifo_arr j < ex8_state.nframes) ∧
      (∀ f, f < ex8_state.nframes →
        ((rd ex8_state.f_table f).bits ≠ 0 ↔
          ∃ j, j < ex8_state.lt_pointer ∧ rd ex8_state.fifo_arr j = f))) ∧
    ((∀ f, f < ex8_state.nframes → (rd ex8_state.f_table f).bits ≠ 0) →
      ex8_state.ft_pointer = ex8_state.lt_pointer ∧
      ex8_state.fifo_arr.Perm (List.range ex8_state.nframes) ∧
      ∀ p r, p < ex8_state.npages → (page_table_get_entry ex8_state.pt p).bits = 0 →
        ∃ s2, page_fault_handler ex8_state p r = .ret s2 ∧
          page_table_get_entry s2.pt p =
            ⟨rd ex8_state.fifo_arr ex8_state.ft_pointer, PROT_READ⟩ ∧
          s2.fifo_arr = ex8_state.fifo_arr.set ex8_state.ft_pointer
            (rd ex8_state.fifo_arr ex8_state.ft_pointer) ∧
          s2.fifo_arr = ex8_state.fifo_arr ∧
          s2.ft_pointer = s2.lt_pointer ∧
          (∀ f, f < s2.nframes → (rd s2.f_table f).bits ≠ 0)) :=
  C17_queue_one_slot_per_frame ex8_state
    ⟨init "lru" 5 3, [(0, 0), (1, 0), (2, 0), (3, 0), (1, 0)],
      by decide, by decide, by decide, by decide⟩
    (by decide)

/-! ### Logical contents of the pages -/

/-- A handler invocation in a consistent state with clean ReadOnly frames
keeps the consistency, the logical contents and the clean ReadOnly frames. -/
theorem logical_step (s : State) (p r : Nat) (hrt : KnownPolicy s.rt)
    (hc : Cons s.nframes s.npages s.f_table s.pt)
    (hlm : s.physmem.length = s.nframes) (hld : s.disk.length = s.npages)
    (hclean : CleanRO s) (hp : p < s.npages)
    (hv : scan_free s.nframes s.f_table = none → victim s r < s.nframes) :
    ∃ s2, page_fault_handler s p r = .ret s2 ∧
      Cons s2.nframes s2.npages s2.f_table s2.pt ∧
      (∀ q, q < s.npages → logical s2 q = logical s q) ∧ CleanRO s2 := by
  have hlp := hc.len_pt
  have hlf := hc.len_ft
  by_cases hb : (rd s.pt p).bits = 0
  · cases hs : scan_free s.nframes s.f_table with
    | some i =>
      obtain ⟨s2, h1, hf, hr⟩ := handler_read_free s p r i hrt hb hs
      obtain ⟨hi, hib, _⟩ := scan_some_free hs
      refine ⟨s2, h1, ?_, ?_, ?_⟩
      · rw [hf.nframes, hf.npages, hr.pt]
        exact (hc.fill hp hb hi hib).eqv (hr.ft.trans ((ft_eqv.refl _).set _ rfl rfl))
      · intro q hq
        unfold logical page_table_get_entry
        rw [hr.pt, hr.physmem, hr.disk]
        by_cases hqp : p = q
        · subst hqp
          rw [rd_set_eq _ _ _ (by omega), hb]
          simp only [ne_eq, one_ne_zero, not_false_eq_true, if_true, not_true_eq_false, if_false]
          rw [rd_set_eq _ _ _ (by omega)]; rfl
        · rw [rd_set_ne _ _ _ _ hqp]
          by_cases hqb : (rd s.pt q).bits = 0
          · simp only [hqb, ne_eq, not_true_eq_false, if_false]
          · simp only [hqb, ne_eq, not_false_eq_true, if_true]
            obtain ⟨g1, g2, g3⟩ := hc.pt_ft q hq hqb
            have hne : i ≠ (rd s.pt q).frame := by
              intro he; rw [← he, hib] at g3; exact hqb g3.symm
            rw [rd_set_ne _ _ _ _ hne]
      · intro f hf2 hfb
        rw [hf.nframes] at hf2
        rw [rd_eqv_bits hr.ft] at hfb
        rw [rd_eqv_page hr.ft, hr.physmem, hr.disk]
        by_cases hfi : i = f
        · subst hfi
          rw [rd_set_eq _ _ _ (by omega), rd_set_eq _ _ _ (by omega)]; rfl
        · rw [rd_set_ne _ _ _ _ hfi] at hfb ⊢
          rw [rd_set_ne _ _ _ _ hfi]
          exact hclean f hf2 hfb
    | none =>
      obtain ⟨s2, h1, hf, hr⟩ := handler_read_evict s p r hrt hb hs
      have hvn := hv hs
      have hvb := scan_none_occupied hs hvn
      obtain ⟨hq0, hpt0⟩ := hc.ft_pt _ hvn hvb
      have hqp : (rd s.f_table (victim s r)).page ≠ p := by
        intro he
        rw [he] at hpt0
        have h3 := congrArg PTE.bits hpt0
        rw [hb] at h3
        exact hvb h3.symm
      have hdp : ∀ q, q ≠ (rd s.f_table (victim s r)).page → rd s2.disk q = rd s.disk q := by
        intro q hq
        rw [hr.disk]
        split
        · rw [rd_set_ne _ _ _ _ (Ne.symm hq)]
        · rfl
      refine ⟨s2, h1, ?_, ?_, ?_⟩
      · rw [hf.nframes, hf.npages, hr.pt]
        have c1 := hc.rm hvn hvb
        have hb1 : (rd (s.pt.set (rd s.f_table (victim s r)).page ⟨victim s r, 0⟩) p).bits = 0 := by
          rw [rd_set_ne _ _ _ _ hqp]; exact hb
        have hv1 : (rd (s.f_table.set (victim s r)
            { rd s.f_table (victim s r) with bits := 0 }) (victim s r)).bits = 0 := by
          rw [rd_set_eq _ _ _ (by omega)]
        have c2 := c1.fill hp hb1 hvn hv1
        rw [List.set_set] at c2
        exact c2.eqv (hr.ft.trans ((ft_eqv.refl _).set _ rfl rfl))
      · intro q hq
        unfold logical page_table_get_entry disk_read
        rw [hr.pt, hr.physmem]
        by_cases hqp2 : p = q
        · subst hqp2
          rw [rd_set_eq _ _ _ (by simp; omega), hb]
          simp only [ne_eq, one_ne_zero, not_false_eq_true, if_true, not_true_eq_false, if_false]
          rw [rd_set_eq _ _ _ (by omega)]
          exact hdp p (Ne.symm hqp)
        · rw [rd_set_ne _ _ _ _ hqp2]
          by_cases hq0q : (rd s.f_table (victim s r)).page = q
          · rw [← hq0q, rd_set_eq _ _ _ (by omega), hpt0]
            simp only [ne_eq, not_true_eq_false, if_false, hvb, not_false_eq_true, if_true]
            rw [hr.disk]
            rcases hc.perm _ hq0 with h0 | h0 | h0
            · rw [hpt0] at h0; exact absurd h0 hvb
            · rw [hpt0] at h0
              simp only at h0
              rw [h0, if_neg (by decide)]
              exact (hclean _ hvn h0).symm
            · rw [hpt0] at h0
              simp only at h0
              rw [h0, if_pos (by decide), rd_set_eq _ _ _ (by omega)]
          · rw [rd_set_ne _ _ _ _ hq0q]
            by_cases hqb : (rd s.pt q).bits = 0
            · simp only [hqb, ne_eq, not_true_eq_false, if_false]
              exact hdp q (Ne.symm hq0q)
            · simp only [hqb, ne_eq, not_false_eq_true, if_true]
              obtain ⟨g1, g2, g3⟩ := hc.pt_ft q hq hqb
              have hne : victim s r ≠ (rd s.pt q).frame := by
                intro he; rw [← he] at g2; exact hq0q g2
              rw [rd_set_ne _ _ _ _ hne]
      · intro f hf2 hfb
        rw [hf.nframes] at hf2
        rw [rd_eqv_bits hr.ft] at hfb
        rw [rd_eqv_page hr.ft, hr.physmem]
        unfold disk_read
        by_cases hfi : victim s r = f
        · subst hfi
          rw [rd_set_eq _ _ _ (by omega), rd_set_eq _ _ _ (by omega)]
        · rw [rd_set_ne _ _ _ _ hfi] at hfb ⊢
          rw [rd_set_ne _ _ _ _ hfi]
          have hfocc : (rd s.f_table f).bits ≠ 0 := by rw [hfb]; decide
          obtain ⟨k1, k2⟩ := hc.ft_pt f hf2 hfocc
          have hne : (rd s.f_table f).page ≠ (rd s.f_table (victim s r)).page := by
            intro he
            rw [he, hpt0] at k2
            exact hfi (congrArg PTE.frame k2)
          rw [hdp _ hne]
          exact hclean f hf2 hfb
  · obtain ⟨s2, h1, hf, hr⟩ := handler_write s p r hrt hb (perm_read (hc.perm p hp) hb)
    obtain ⟨g1, g2, g3⟩ := hc.pt_ft p hp hb
    refine ⟨s2, h1, ?_, ?_, ?_⟩
    · rw [hf.nframes, hf.npages, hr.pt]
      exact (hc.upgrade hp hb).eqv (hr.ft.trans ((ft_eqv.refl _).set _ rfl rfl))
    · intro q hq
      unfold logical page_table_get_entry
      rw [hr.pt, hr.physmem, hr.disk]
      by_cases hqp : p = q
      · subst hqp
        rw [rd_set_eq _ _ _ (by omega)]
        simp only [hb, ne_eq, not_false_eq_true, if_true]
        rw [if_pos (by decide)]
      · rw [rd_set_ne _ _ _ _ hqp]
    · intro f hf2 hfb
      rw [hf.nframes] at hf2
      rw [rd_eqv_bits hr.ft] at hfb
      rw [rd_eqv_page hr.ft, hr.physmem, hr.disk]
      by_cases hfi : (rd s.pt p).frame = f
      · subst hfi
        rw [rd_set_eq _ _ _ (by omega)] at hfb
        simp [PROT_READ] at hfb
      · rw [rd_set_ne _ _ _ _ hfi] at hfb ⊢
        exact hclean f hf2 hfb

/-- C20: in a state in which frame table and page table are consistent (the
arrays have their sizes, and the victim of an eviction, if one is needed, is a
frame id below `nframes`) and every ReadOnly frame holds the block of its
page, a handler invocation under rand, fifo or lru on a page below `npages`
returns, leaves the logical content of every page below `npages` unchanged
and again every ReadOnly frame holds the block of its page, with frame table
and page table consistent. -/
theorem C20_logical_contents_preserved (s : State) (p r : Nat) (hrt : KnownPolicy s.rt)
    (hc : Cons s.nframes s.npages s.f_table s.pt)
    (hlm : s.physmem.length = s.nframes) (hld : s.disk.length = s.npages)
    (hclean : CleanRO s) (hp : p < s.npages)
    (hv : (∀ f, f < s.nframes → (rd s.f_table f).bits ≠ 0) → victim s r < s.nframes) :
    ∃ s2, page_fault_handler s p r = .ret s2 ∧
      (∀ q, q < s.npages → logical s2 q = logical s q) ∧ CleanRO s2 ∧
      Cons s2.nframes s2.npages s2.f_table s2.pt :=
  have hv2 : scan_free s.nframes s.f_table = none → victim s r < s.nframes :=
    fun hs => hv (fun _ hf => scan_none_occupied hs hf)
  match logical_step s p r hrt hc hlm hld hclean hp hv2 with
  | ⟨s2, h1, h2, h3, h4⟩ => ⟨s2, h1, h3, h4, h2⟩

theorem C20_logical_contents_preserved_witness :
    ∃ s2, page_fault_handler (ex20_state "fifo") 2 0 = .ret s2 ∧
      (∀ q, q < (ex20_state "fifo").npages → logical s2 q = logical (ex20_state "fifo") q) ∧
      CleanRO s2 ∧ Cons s2.nframes s2.npages s2.f_table s2.pt :=
  C20_logical_contents_preserved (ex20_state "fifo") 2 0 (by decide)
    ⟨by decide, by decide, by decide, by decide, by decide⟩
    (by decide) (by decide) (by decide) (by decide) (fun _ => by decide)

/-! ### Reproducibility of rand -/

theorem scan_free_same_bits {n : Nat} {a b : List Entry_frame}
    (h : ∀ f, f < n → (rd a f).bits = (rd b f).bits) : scan_free n a = scan_free n b := by
  induction n with
  | zero => rfl
  | succ n ih =>
    have ih2 := ih (fun f hf => h f (by omega))
    simp only [scan_free, List.range_succ, List.foldl_append, List.foldl_cons, List.foldl_nil]
      at ih2 ⊢
    rw [ih2, h n (by omega)]

theorem obs_ft_set {n : Nat} {a b a2 b2 : List Entry_frame} (i : Nat) (x : Entry_frame)
    (ha : a.length = n) (hb : b.length = n)
    (h : ∀ f, f < n → (rd a f).bits = (rd b f).bits ∧
      ((rd a f).bits ≠ 0 → (rd a f).page = (rd b f).page))
    (ea : ft_eqv a2 (a.set i x)) (eb : ft_eqv b2 (b.set i x)) :
    ∀ f, f < n → (rd a2 f).bits = (rd b2 f).bits ∧
      ((rd a2 f).bits ≠ 0 → (rd a2 f).page = (rd b2 f).page) := by
  intro f hf
  rw [rd_eqv_bits ea, rd_eqv_bits eb, rd_eqv_page ea, rd_eqv_page eb]
  by_cases hi : i = f
  · subst hi
    rw [rd_set_eq _ _ _ (by omega), rd_set_eq _ _ _ (by omega)]
    exact ⟨rfl, fun _ => rfl⟩
  · rw [rd_set_ne _ _ _ _ hi, rd_set_ne _ _ _ _ hi]
    exact h f hf

theorem obs_pt_set {m : Nat} {a b : List PTE} (p : Nat) (x : PTE)
    (ha : a.length = m) (hb : b.length = m)
    (h : ∀ q, q < m → (rd a q).bits = (rd b q).bits ∧
      ((rd a q).bits ≠ 0 → (rd a q).frame = (rd b q).frame)) :
    ∀ q, q < m → (rd (a.set p x) q).bits = (rd (b.set p x) q).bits ∧
      ((rd (a.set p x) q).bits ≠ 0 → (rd (a.set p x) q).frame = (rd (b.set p x) q).frame) := by
  intro q hq
  by_cases hi : p = q
  · subst hi
    rw [rd_set_eq _ _ _ (by omega), rd_set_eq _ _ _ (by omega)]
    exact ⟨rfl, fun _ => rfl⟩
  · rw [rd_set_ne _ _ _ _ hi, rd_set_ne _ _ _ _ hi]
    exact h q hq

/-- Under rand one handler invocation takes states with the same observable
contents to states with the same observable contents. -/
theorem same_obs_step (s t : State) (p r : Nat) (hs : Good s) (ht : Good t)
    (hrt : s.rt = "rand") (hp : p < s.npages) (h : same_obs s t) :
    ∃ s2 t2, page_fault_handler s p r = .ret s2 ∧ page_fault_handler t p r = .ret t2 ∧
      Good s2 ∧ Good t2 ∧ same_obs s2 t2 ∧ s2.rt = s.rt ∧ s2.npages = s.npages := by
  obtain ⟨h1, h2, h3, h4, h5, h6, h7, h8, h9, h10⟩ := h
  have hks : KnownPolicy s.rt := Or.inl hrt
  have hkt : KnownPolicy t.rt := by rw [← h6]; exact hks
  have hpt : p < t.npages := by rw [← h4]; exact hp
  obtain ⟨s2, a1, af, ag, astep⟩ := handler_good s p r hs hks hp
  obtain ⟨t2, b1, bf, bg, bstep⟩ := handler_good t p r ht hkt hpt
  have hscan : scan_free s.nframes s.f_table = scan_free t.nframes t.f_table := by
    rw [← h5]; exact scan_free_same_bits (fun f hf => (h9 f hf).1)
  have hvic : victim s r = victim t r := by
    unfold victim; rw [← h6, if_pos hrt, if_pos hrt, h5]
  have hbp := (h10 p hp).1
  have hlps := hs.cons.len_pt
  have hlpt := ht.cons.len_pt
  have hlfs := hs.cons.len_ft
  have hlft := ht.cons.len_ft
  refine ⟨s2, t2, a1, b1, ag, bg, ?_, af.rt, af.npages⟩
  have hfc : s2.fc = t2.fc := by rw [af.fc, bf.fc, h1]
  have hnp : s2.npages = t2.npages := by rw [af.npages, bf.npages, h4]
  have hnf : s2.nframes = t2.nframes := by rw [af.nframes, bf.nframes, h5]
  have hre : s2.rt = t2.rt := by rw [af.rt, bf.rt, h6]
  rcases astep with ⟨ab, i, asc, ar⟩ | ⟨ab, asc, ar⟩ | ⟨ab, ar⟩
  · rcases bstep with ⟨_, j, bsc, br⟩ | ⟨_, bsc, _⟩ | ⟨bb, _⟩
    · have hij : i = j := by rw [hscan, bsc] at asc; exact (Option.some.inj asc).symm
      subst hij
      refine ⟨hfc, by rw [ar.rc, br.rc, h2], by rw [ar.wc, br.wc, h3], hnp, hnf, hre,
        by rw [ar.physmem, br.physmem, h7, h8], by rw [ar.disk, br.disk, h8], ?_, ?_⟩
      · rw [af.nframes]
        exact obs_ft_set i ⟨p, 1, 0⟩ hlfs (by rw [hlft, h5]) h9 ar.ft br.ft
      · rw [af.npages, ar.pt, br.pt]
        exact obs_pt_set p ⟨i, 1⟩ hlps (by rw [hlpt, h4]) h10
    · rw [hscan, bsc] at asc; cases asc
    · rw [hbp] at ab; exact absurd ab bb
  · rcases bstep with ⟨_, j, bsc, _⟩ | ⟨_, bsc, br⟩ | ⟨bb, _⟩
    · rw [hscan, bsc] at asc; cases asc
    · obtain ⟨hv, hvb, _, _⟩ := victim_facts hs r ab asc
      obtain ⟨hvbits, hvpage⟩ := h9 _ hv
      have hvp := hvpage hvb
      rw [← hvic] at br
      have hd : s2.disk = t2.disk := by
        rw [ar.disk, br.disk, ← hvbits, ← hvp, h7, h8]
      refine ⟨hfc, by rw [ar.rc, br.rc, h2], by rw [ar.wc, br.wc, ← hvbits, h3], hnp, hnf, hre,
        by rw [ar.physmem, br.physmem, h7, hd], hd, ?_, ?_⟩
      · rw [af.nframes]
        exact obs_ft_set _ ⟨p, 1, 0⟩ hlfs (by rw [hlft, h5]) h9 ar.ft br.ft
      · rw [af.npages, ar.pt, br.pt, ← hvp]
        exact obs_pt_set p _ (by simp [hlps]) (by simp [hlpt, h4])
          (obs_pt_set _ _ hlps (by rw [hlpt, h4]) h10)
    · rw [hbp] at ab; exact absurd ab bb
  · rcases bstep with ⟨bb, _⟩ | ⟨bb, _⟩ | ⟨_, br⟩
    · rw [hbp] at ab; exact absurd bb ab
    · rw [hbp] at ab; exact absurd bb ab
    · have hfr := (h10 p hp).2 ab
      have bft := br.ft
      have bpt := br.pt
      rw [← hfr] at bft bpt
      refine ⟨hfc, by rw [ar.rc, br.rc, h2], by rw [ar.wc, br.wc, h3], hnp, hnf, hre,
        by rw [ar.physmem, br.physmem, h7], by rw [ar.disk, br.disk, h8], ?_, ?_⟩
      · rw [af.nframes]
        exact obs_ft_set _ ⟨p, 3, 0⟩ hlfs (by rw [hlft, h5]) h9 ar.ft bft
      · rw [af.npages, ar.pt, bpt]
        exact obs_pt_set p _ hlps (by rw [hlpt, h4]) h10

/-- Under rand two runs on the same faults and generator values from good
states with the same observable contents return states with the same
observable contents. -/
theorem same_obs_run (fs : List (Nat × Nat)) (s t : State) (hs : Good s) (ht : Good t)
    (hrt : s.rt = "rand") (hfs : ∀ f ∈ fs, f.1 < s.npages) (h : same_obs s t) :
    ∃ s2 t2, run s fs = .ret s2 ∧ run t fs = .ret t2 ∧ same_obs s2 t2 := by
  induction fs generalizing s t with
  | nil => exact ⟨s, t, rfl, rfl, h⟩
  | cons f fs ih =>
    obtain ⟨s1, t1, a1, b1, ag, bg, hso, hr1, hn1⟩ :=
      same_obs_step s t f.1 f.2 hs ht hrt (hfs f (List.mem_cons_self _ _)) h
    obtain ⟨s2, t2, a2, b2, hso2⟩ := ih s1 t1 ag bg (by rw [hr1, hrt])
      (fun g hgm => by rw [hn1]; exact hfs g (List.mem_cons_of_mem _ hgm)) hso
    exact ⟨s2, t2, by simp [run, a1, a2], by simp [run, b1, b2], hso2⟩

/-- C14: under rand, two runs of the handler on the same sequence of faulting
pages and generator values, from initial states with the same sizes, physical
memory and backing store, both return, in states with the same counters,
backing store, physical memory, frame bits and resident pages, page
permissions and frames of the mapped pages; started from the same initial
state they return the same state. -/
theorem C14_rand_reproducible (s0 t0 : State) (fs : List (Nat × Nat))
    (hs : IsInitial s0) (ht : IsInitial t0) (hrt : s0.rt = "rand")
    (hfs : ∀ f ∈ fs, f.1 < s0.npages) (hobs : same_obs s0 t0) :
    ∃ s t, run s0 fs = .ret s ∧ run t0 fs = .ret t ∧ same_obs s t ∧ (s0 = t0 → s = t) := by
  obtain ⟨s, t, h1, h2, h3⟩ :=
    same_obs_run fs s0 t0 (good_initial hs) (good_initial ht) hrt hfs hobs
  refine ⟨s, t, h1, h2, h3, ?_⟩
  intro he
  subst he
  rw [h1] at h2
  exact Outcome.ret.inj h2

theorem C14_rand_reproducible_witness :
    ∃ s t, run (init "rand" 4 2) [(0, 5), (1, 2), (0, 1), (2, 3), (3, 8)] = .ret s ∧
      run ex14_init [(0, 5), (1, 2), (0, 1), (2, 3), (3, 8)] = .ret t ∧ same_obs s t ∧
      (init "rand" 4 2 = ex14_init → s = t) :=
  C14_rand_reproducible (init "rand" 4 2) ex14_init [(0, 5), (1, 2), (0, 1), (2, 3), (3, 8)]
    (by decide) (by decide) (by decide) (by decide) (by decide)

/-! ### The program `main` -/

theorem handler_unknown (s : State) (p r : Nat) (hrt : ¬ KnownPolicy s.rt) :
    page_fault_handler s p r = .ret { s with fc := s.fc + 1 } := by
  have h1 : ¬ s.rt = "rand" := fun h => hrt (Or.inl h)
  have h2 : ¬ s.rt = "fifo" := fun h => hrt (Or.inr (Or.inl h))
  have h3 : ¬ s.rt = "lru" := fun h => hrt (Or.inr (Or.inr h))
  simp [page_fault_handler, h1, h2, h3]

theorem run_unknown (fs : List (Nat × Nat)) (s : State) (hrt : ¬ KnownPolicy s.rt) :
    run s fs = .ret { s with fc := s.fc + fs.length } := by
  induction fs generalizing s with
  | nil => rfl
  | cons f fs ih =>
    simp only [run, handler_unknown s f.1 f.2 hrt]
    have h := ih { s with fc := s.fc + 1 } hrt
    rw [h]
    simp only [List.length_cons, Outcome.ret.injEq, State.mk.injEq, and_true]
    omega

/-- An access that is done within a bound is done, with the same result,
within every larger bound. -/
theorem do_access_mono (draw : Nat → Nat) (n k : Nat) (s : State) (a : Access) (o : Outcome)
    (h : do_access draw n s a = .done o) : do_access draw (n + k) s a = .done o := by
  induction n generalizing s with
  | zero =>
    by_cases hok : access_ok s a = true
    · simp only [do_access, hok, if_true] at h
      cases k with
      | zero => simp only [Nat.add_zero, do_access, hok, if_true]; exact h
      | succ k => simp only [Nat.zero_add, do_access, hok, if_true]; exact h
    · simp [do_access, hok] at h
  | succ n ih =>
    have e : n + 1 + k = (n + k) + 1 := by omega
    rw [e]
    by_cases hok : access_ok s a = true
    · simp only [do_access, hok, if_true] at h ⊢
      exact h
    · simp only [do_access, hok] at h ⊢
      cases hh : page_fault_handler s a.page (draw s.fc) with
      | ret s1 =>
        rw [hh] at h
        simp only at h ⊢
        exact ih s1 h
      | exit c s1 =>
        rw [hh] at h
        simpa using h

theorem run_accesses_mono (draw : Nat → Nat) (n k : Nat) (as : List Access) (s : State)
    (o : Outcome) (h : run_accesses draw n s as = .done o) :
    run_accesses draw (n + k) s as = .done o := by
  induction as generalizing s with
  | nil => simpa [run_accesses] using h
  | cons a as ih =>
    simp only [run_accesses] at h ⊢
    cases hd : do_access draw n s a with
    | done o1 =>
      rw [hd] at h
      rw [do_access_mono draw n k s a o1 hd]
      cases o1 with
      | ret s1 => exact ih s1 h
      | exit c s1 => exact h
    | faulting s1 =>
      rw [hd] at h
      cases h

/-- Once `main` returns within a bound, it returns the same within every
larger bound. -/
theorem main_mono (n k argc npages_arg nframes_arg : Nat) (policy program : String) (env : Env)
    (c : Nat) (h : (main n argc npages_arg nframes_arg policy program env).status = some c) :
    main (n + k) argc npages_arg nframes_arg policy program env =
      main n argc npages_arg nframes_arg policy program env := by
  have key : ∀ s0 : State,
      (run_workload program s0 env.draw n (env.accesses program)).status = some c →
      run_workload program s0 env.draw (n + k) (env.accesses program) =
        run_workload program s0 env.draw n (env.accesses program) := by
    intro s0 hs
    unfold run_workload at hs ⊢
    cases hr : run_accesses env.draw n s0 (env.accesses program) with
    | done o => rw [run_accesses_mono env.draw n k _ s0 o hr]
    | faulting s1 => rw [hr] at hs; cases hs
  by_cases hc : argc = 5
  · cases hd : env.disk with
    | none => simp [main, hd]
    | some disk =>
      cases ht : env.table with
      | none => simp [main, hd, ht]
      | some tb =>
        obtain ⟨pt, physmem⟩ := tb
        cases hf : env.f_table_mem with
        | none => simp [main, hd, ht, hf]
        | some f_table =>
          simp only [main, hc, hd, ht, hf, ne_eq, not_true_eq_false, if_false] at h ⊢
          split_ifs at h ⊢ with h1 h2 h3
          · exact key _ h
          · exact key _ h
          · exact key _ h
          · rfl
  · simp [main, hc]

/-- Under a policy other than rand, fifo and lru an access the page table
does not let through is never done: every handler invocation returns with
only the fault counter incremented and the access faults again. -/
theorem do_access_unknown (draw : Nat → Nat) (n : Nat) (s : State) (a : Access)
    (hrt : ¬ KnownPolicy s.rt) (hok : access_ok s a = false) :
    do_access draw n s a = .faulting { s with fc := s.fc + n } := by
  induction n generalizing s with
  | zero => simp [do_access, hok]
  | succ n ih =>
    simp only [do_access, hok, handler_unknown s a.page (draw s.fc) hrt]
    have := ih { s with fc := s.fc + 1 } hrt (by simpa [access_ok] using hok)
    simp only [Bool.false_eq_true, if_false]
    rw [this]
    simp only [Progress.faulting.injEq, State.mk.injEq, and_true]
    omega

theorem main_unknown_policy (fuel npages_arg nframes_arg : Nat) (policy program : String)
    (env : Env) (disk : List Block) (pt : List PTE) (physmem : List Block)
    (f_table : List Entry_frame) (a : Access) (as : List Access)
    (hpol : ¬ KnownPolicy policy)
    (hprog : program = "sort" ∨ program = "scan" ∨ program = "focus")
    (hd : env.disk = some disk) (ht : env.table = some (pt, physmem))
    (hf : env.f_table_mem = some f_table)
    (ha : env.accesses program = a :: as)
    (hbits : (page_table_get_entry pt a.page).bits = 0) :
    main fuel 5 npages_arg nframes_arg policy program env =
      ⟨none, true, some program,
        some { fc := fuel, rc := 0, wc := 0, npages := npages_arg, nframes := nframes_arg,
               rt := policy, physmem := physmem, disk := disk, f_table := f_table,
               ft_pointer := 0, lt_pointer := 0, fifo_arr := env.fifo_mem, pt := pt }⟩ := by
  have hok : access_ok
      { fc := 0, rc := 0, wc := 0, npages := npages_arg, nframes := nframes_arg,
        rt := policy, physmem := physmem, disk := disk, f_table := f_table,
        ft_pointer := 0, lt_pointer := 0, fifo_arr := env.fifo_mem, pt := pt } a = false := by
    unfold access_ok
    cases a.store <;> simp [hbits]
  have hacc := do_access_unknown env.draw fuel
    { fc := 0, rc := 0, wc := 0, npages := npages_arg, nframes := nframes_arg,
      rt := policy, physmem := physmem, disk := disk, f_table := f_table,
      ft_pointer := 0, lt_pointer := 0, fifo_arr := env.fifo_mem, pt := pt } a hpol hok
  simp only [Nat.zero_add] at hacc
  have hw : main fuel 5 npages_arg nframes_arg policy program env =
      run_workload program
        { fc := 0, rc := 0, wc := 0, npages := npages_arg, nframes := nframes_arg,
          rt := policy, physmem := physmem, disk := disk, f_table := f_table,
          ft_pointer := 0, lt_pointer := 0, fifo_arr := env.fifo_mem, pt := pt }
        env.draw fuel (env.accesses program) := by
    rcases hprog with h | h | h <;> simp [main, hd, ht, hf, h]
  rw [hw, run_workload, ha, run_accesses, hacc]

/-- C11 (the code departs from the claim): with four arguments, successful
creation of the disk, the page table and the frame table, and a workload name
that is none of sort, scan and focus, `main` runs no workload and returns 0;
with an argument count other than four, or when the disk or the page table
cannot be created, it returns 1; a known workload that completes returns
0. -/
theorem C11_unknown_workload_returns_zero :
    (∀ fuel, main fuel 5 4 2 "fifo" "bogus" ex_env =
      ⟨some 0, true, none, some { init "fifo" 4 2 with fifo_arr := [0, 0] }⟩) ∧
    (∀ fuel, (main fuel 5 4 2 "fifo" "bogus" ex_env).status = some 0) ∧
    (∀ fuel, 1 ≤ fuel → (main fuel 5 4 2 "fifo" "scan" ex_env).status = some 0) ∧
    (∀ fuel, (main fuel 4 4 2 "fifo" "scan" ex_env).status = some 1) ∧
    (∀ fuel, (main fuel 6 4 2 "fifo" "scan" ex_env).status = some 1) ∧
    (∀ fuel, (main fuel 5 4 2 "fifo" "scan" { ex_env with disk := none }).status = some 1) ∧
    (∀ fuel, (main fuel 5 4 2 "fifo" "scan" { ex_env with table := none }).status = some 1) := by
  refine ⟨fun _ => rfl, fun _ => rfl, ?_, fun _ => rfl, fun _ => rfl, fun _ => rfl, fun _ => rfl⟩
  intro fuel hfuel
  obtain ⟨k, rfl⟩ : ∃ k, fuel = 1 + k := ⟨fuel - 1, by omega⟩
  rw [main_mono 1 k 5 4 2 "fifo" "scan" ex_env 0 (by decide)]
  decide

/-- C12 (the code departs from the claim): `main` never looks at the policy
name.  With the policy argument "clock", which is none of rand, fifo and lru,
`main` creates the page table and starts the workload scan; the first access
invokes the handler with that policy, the handler only increments the fault
counter and leaves the page Absent, the access is retried and faults again,
and so on: whatever the bound on the handler invocations, `main` has not
returned, the page table is created, the workload is running and the handler
has been invoked that many times.  The same holds for every policy name other
than rand, fifo and lru and every workload whose first access is to a page
that is Absent in the page table `main` obtained. -/
theorem C12_unknown_policy_never_returns :
    ¬ KnownPolicy "clock" ∧
    (∀ fuel, main fuel 5 4 2 "clock" "scan" ex_env =
      ⟨none, true, some "scan", some { init "clock" 4 2 with fifo_arr := [0, 0], fc := fuel }⟩) ∧
    (∀ fuel, (main fuel 5 4 2 "clock" "scan" ex_env).status ≠ some 1) ∧
    page_fault_handler { init "clock" 4 2 with fifo_arr := [0, 0] } 0 0 =
      .ret { init "clock" 4 2 with fifo_arr := [0, 0], fc := 1 } ∧
    (∀ fuel, 1 ≤ fuel → (main fuel 5 4 2 "fifo" "scan" ex_env).status = some 0) ∧
    (main 0 4 4 2 "clock" "scan" ex_env).status = some 1 ∧
    (∀ (fuel npages_arg nframes_arg : Nat) (policy program : String) (env : Env)
      (disk : List Block) (pt : List PTE) (physmem : List Block) (f_table : List Entry_frame)
      (a : Access) (as : List Access),
      ¬ KnownPolicy policy →
      (program = "sort" ∨ program = "scan" ∨ program = "focus") →
      env.disk = some disk → env.table = some (pt, physmem) →
      env.f_table_mem = some f_table →
      env.accesses program = a :: as →
      (page_table_get_entry pt a.page).bits = 0 →
      main fuel 5 npages_arg nframes_arg policy program env =
        ⟨none, true, some program,
          some { fc := fuel, rc := 0, wc := 0, npages := npages_arg, nframes := nframes_arg,
                 rt := policy, physmem := physmem, disk := disk, f_table := f_table,
                 ft_pointer := 0, lt_pointer := 0, fifo_arr := env.fifo_mem, pt := pt }⟩) := by
  have h1 : ∀ fuel, main fuel 5 4 2 "clock" "scan" ex_env =
      ⟨none, true, some "scan",
        some { init "clock" 4 2 with fifo_arr := [0, 0], fc := fuel }⟩ := fun fuel =>
    main_unknown_policy fuel 4 2 "clock" "scan" ex_env (init "" 4 2).disk (init "" 4 2).pt
      (init "" 4 2).physmem (init "" 4 2).f_table ⟨0, none⟩ [⟨1, none⟩, ⟨0, some [7]⟩]
      (by decide) (by decide) rfl rfl rfl rfl (by decide)
  refine ⟨by decide, h1, fun fuel => by rw [h1 fuel]; simp, by decide, ?_, by decide, ?_⟩
  · intro fuel hfuel
    obtain ⟨k, rfl⟩ : ∃ k, fuel = 1 + k := ⟨fuel - 1, by omega⟩
    rw [main_mono 1 k 5 4 2 "fifo" "scan" ex_env 0 (by decide)]
    decide
  · intro fuel npages_arg nframes_arg policy program env disk pt physmem f_table a as
      hpol hprog hd ht hf ha hbits
    exact main_unknown_policy fuel npages_arg nframes_arg policy program env disk pt physmem
      f_table a as hpol hprog hd ht hf ha hbits

/-! ### Page table to frame table, validity of the victims -/

theorem winv_step (s : State) (tr : List (State × Nat × Nat)) (p r : Nat) (s2 : State)
    (hg : Good s) (hrt : KnownPolicy s.rt) (hw : WInv s tr) (hp : p < s.npages)
    (h1 : page_fault_handler s p r = .ret s2) (hf : Fixed s s2) (hstep : Step s p r s2) :
    WInv s2 (tr ++ [(s, p, r)]) := by
  intro hr j hj hjr
  rw [hf.rt] at hr
  rw [hf.nframes] at hj
  have hq := hg.queue hr
  obtain ⟨s3, k1, kf, kg, _⟩ := handler_good s p r hg hrt hp
  rw [h1] at k1
  cases k1
  have hq2 := kg.queue (by rw [hf.rt]; exact hr)
  have hread : (rd s.pt p).bits = 0 → s2.rc = s.rc + 1 →
      ∃ e, e ∈ tr ++ [(s, p, r)] ∧ is_read_fault e = true ∧ e.1.lt_pointer = j ∧
        rd (page_fault_handler e.1 e.2.1 e.2.2).state.fifo_arr j = rd s2.fifo_arr j := by
    intro hb hrc
    by_cases hjo : j < s.rc
    · obtain ⟨e, e1, e2, e3, e4⟩ := hw hr j hj hjo
      refine ⟨e, List.mem_append_left _ e1, e2, e3, ?_⟩
      rw [e4, hq.arr j hj hjo, hq2.arr j (by rw [hf.nframes]; exact hj) hjr, hf.nframes]
    · have hje : j = s.rc := by rw [hrc] at hjr; omega
      refine ⟨(s, p, r), by simp, by simp [is_read_fault, page_table_get_entry, hb], ?_, ?_⟩
      · simp only
        rw [hq.tail, hje, Nat.mod_eq_of_lt (by omega)]
      · simp only
        rw [h1]; rfl
  rcases hstep with ⟨hb, i, _, h⟩ | ⟨hb, _, h⟩ | ⟨hb, h⟩
  · exact hread hb h.rc
  · exact hread hb h.rc
  · rw [h.rc] at hjr
    obtain ⟨e, e1, e2, e3, e4⟩ := hw hr j hj hjr
    exact ⟨e, List.mem_append_left _ e1, e2, e3, by rw [e4, h.fifo_arr]⟩

theorem winv_run (s0 : State) (fs : List (Nat × Nat)) (s : State)
    (h0 : IsInitial s0) (hrt : KnownPolicy s0.rt) (hfs : ∀ f ∈ fs, f.1 < s0.npages)
    (hrun : run s0 fs = .ret s) : WInv s (trace s0 fs) := by
  have hbase : WInv s0 [] := by
    obtain ⟨_, h2, _⟩ := h0
    intro _ j _ hj
    rw [h2] at hj
    exact absurd hj (Nat.not_lt_zero _)
  have := run_history_induction WInv winv_step fs s0 [] (good_initial h0) hrt hfs hbase s hrun
  simpa using this

/-- C21: in every reachable state every page below `npages` with a non-zero
permission is mapped to a frame below `nframes` whose `f_table` entry holds
that page with that permission; two distinct mapped pages have distinct
frames, and at most `nframes` pages are mapped. -/
theorem C21_page_table_to_frame (s : State) (h : Reachable s) :
    (∀ p, p < s.npages → (page_table_get_entry s.pt p).bits ≠ 0 →
      (page_table_get_entry s.pt p).frame < s.nframes ∧
      (rd s.f_table (page_table_get_entry s.pt p).frame).page = p ∧
      (rd s.f_table (page_table_get_entry s.pt p).frame).bits =
        (page_table_get_entry s.pt p).bits) ∧
    (∀ p q, p < s.npages → q < s.npages → (page_table_get_entry s.pt p).bits ≠ 0 →
      (page_table_get_entry s.pt q).bits ≠ 0 →
      (page_table_get_entry s.pt p).frame = (page_table_get_entry s.pt q).frame → p = q) ∧
    (resident s).length ≤ s.nframes := by
  have hg := (reachable_good h).1
  have hconv := hg.cons.pt_ft
  have hinj : ∀ p q, p < s.npages → q < s.npages → (page_table_get_entry s.pt p).bits ≠ 0 →
      (page_table_get_entry s.pt q).bits ≠ 0 →
      (page_table_get_entry s.pt p).frame = (page_table_get_entry s.pt q).frame → p = q := by
    intro p q hp hq hpb hqb hfr
    have h1 := (hconv p hp hpb).2.1
    have h2 := (hconv q hq hqb).2.1
    unfold page_table_get_entry at hfr
    rw [hfr, h2] at h1
    exact h1.symm
  refine ⟨hconv, hinj, ?_⟩
  have hnd : ((resident s).map fun p => (page_table_get_entry s.pt p).frame).Nodup := by
    apply List.Nodup.map_on
    · intro p hp q hq hfr
      simp only [resident, List.mem_filter, List.mem_range, decide_eq_true_eq] at hp hq
      exact hinj p q hp.1 hq.1 hp.2 hq.2 hfr
    · exact (List.nodup_range _).filter _
  have hsub : ((resident s).map fun p => (page_table_get_entry s.pt p).frame) ⊆
      List.range s.nframes := by
    intro f hf
    simp only [List.mem_map] at hf
    obtain ⟨p, hp, rfl⟩ := hf
    simp only [resident, List.mem_filter, List.mem_range, decide_eq_true_eq] at hp
    exact List.mem_range.2 (hconv p hp.1 hp.2).1
  have hle := (List.subperm_of_subset hnd hsub).length_le
  simpa using hle

theorem C21_page_table_to_frame_witness :
    Reachable ex_state ∧
    (∀ p, p < ex_state.npages → (page_table_get_entry ex_state.pt p).bits ≠ 0 →
      (page_table_get_entry ex_state.pt p).frame < ex_state.nframes ∧
      (rd ex_state.f_table (page_table_get_entry ex_state.pt p).frame).page = p ∧
      (rd ex_state.f_table (page_table_get_entry ex_state.pt p).frame).bits =
        (page_table_get_entry ex_state.pt p).bits) ∧
    (∀ p q, p < ex_state.npages → q < ex_state.npages →
      (page_table_get_entry ex_state.pt p).bits ≠ 0 →
      (page_table_get_entry ex_state.pt q).bits ≠ 0 →
      (page_table_get_entry ex_state.pt p).frame = (page_table_get_entry ex_state.pt q).frame →
      p = q) ∧
    (resident ex_state).length ≤ ex_state.nframes :=
  ⟨⟨init "lru" 5 3, ex_faults, by decide, by decide, by decide, by decide⟩,
    C21_page_table_to_frame ex_state
      ⟨init "lru" 5 3, ex_faults, by decide, by decide, by decide, by decide⟩⟩

/-- C22: in a state reached from an initial state under rand, fifo or lru
(`nframes` is at least 1 there) in which no frame is free, a read-fault
returns after evicting the victim frame, whose index is below `nframes` and
whose bits are non-zero: its page is mapped before and Absent after, and the
faulting page is mapped to it.  Under fifo and lru the victim is
`fifo_arr[ft_pointer]` with `ft_pointer` below `nframes`, and that slot was
written by an earlier read-fault of the run, with the value it still holds. -/
theorem C22_victims_valid (s0 s : State) (fs : List (Nat × Nat)) (p r : Nat)
    (h0 : IsInitial s0) (hrt : KnownPolicy s0.rt) (hfs : ∀ f ∈ fs, f.1 < s0.npages)
    (hrun : run s0 fs = .ret s) (hp : p < s.npages)
    (hb : (page_table_get_entry s.pt p).bits = 0)
    (hfull : ∀ f, f < s.nframes → (rd s.f_table f).bits ≠ 0) :
    1 ≤ s.nframes ∧ victim s r < s.nframes ∧ (rd s.f_table (victim s r)).bits ≠ 0 ∧
    (∃ s2, page_fault_handler s p r = .ret s2 ∧
      (page_table_get_entry s.pt (rd s.f_table (victim s r)).page).bits ≠ 0 ∧
      (page_table_get_entry s2.pt (rd s.f_table (victim s r)).page).bits = 0 ∧
      page_table_get_entry s2.pt p = ⟨victim s r, PROT_READ⟩) ∧
    (s.rt = "rand" → victim s r = r % s.nframes) ∧
    (s.rt = "fifo" ∨ s.rt = "lru" →
      victim s r = rd s.fifo_arr s.ft_pointer ∧ s.ft_pointer < s.nframes ∧
      s.fifo_arr.length = s.nframes ∧
      ∃ e, e ∈ trace s0 fs ∧ is_read_fault e = true ∧ e.1.lt_pointer = s.ft_pointer ∧
        rd (page_fault_handler e.1 e.2.1 e.2.2).state.fifo_arr s.ft_pointer =
          rd s.fifo_arr s.ft_pointer) := by
  have hreach : Reachable s := ⟨s0, fs, h0, hrt, hfs, hrun⟩
  obtain ⟨hg, hrt2⟩ := reachable_good hreach
  have hw := winv_run s0 fs s h0 hrt hfs hrun
  have hs := scan_free_full hfull
  obtain ⟨s2, h1, hf, hr⟩ := handler_read_evict s p r hrt2 hb hs
  obtain ⟨hv, hvb, hvq, hqp⟩ := victim_facts hg r hb hs
  have hlp := hg.cons.len_pt
  have hpt := (hg.cons.ft_pt _ hv hvb).2
  refine ⟨hg.nf, hv, hvb, ⟨s2, h1, ?_, ?_, ?_⟩, ?_, ?_⟩
  · rw [page_table_get_entry, hpt]; exact hvb
  · rw [page_table_get_entry, hr.pt, rd_set_ne _ _ _ _ (Ne.symm hqp), rd_set_eq _ _ _ (by omega)]
  · rw [page_table_get_entry, hr.pt, rd_set_eq _ _ _ (by simp; omega)]; rfl
  · intro hrand
    unfold victim; rw [if_pos hrand]
  · intro hpol
    have hnr : s.rt ≠ "rand" := by
      rcases hpol with h | h <;> rw [h] <;> decide
    obtain ⟨hge, _, hft⟩ := (hg.queue hnr).scan_none hg.nf hs
    have hlt : s.ft_pointer < s.nframes := by
      rw [hft]; exact Nat.mod_lt _ (by have := hg.nf; omega)
    refine ⟨by unfold victim; rw [if_neg hnr], hlt, hg.len_fifo, ?_⟩
    exact hw hnr s.ft_pointer hlt (by omega)

theorem C22_victims_valid_witness :
    1 ≤ ex8_state.nframes ∧ victim ex8_state 0 < ex8_state.nframes ∧
    (rd ex8_state.f_table (victim ex8_state 0)).bits ≠ 0 ∧
    (∃ s2, page_fault_handler ex8_state 4 0 = .ret s2 ∧
      (page_table_get_entry ex8_state.pt (rd ex8_state.f_table (victim ex8_state 0)).page).bits ≠ 0 ∧
      (page_table_get_entry s2.pt (rd ex8_state.f_table (victim ex8_state 0)).page).bits = 0 ∧
      page_table_get_entry s2.pt 4 = ⟨victim ex8_state 0, PROT_READ⟩) ∧
    (ex8_state.rt = "rand" → victim ex8_state 0 = 0 % ex8_state.nframes) ∧
    (ex8_state.rt = "fifo" ∨ ex8_state.rt = "lru" →
      victim ex8_state 0 = rd ex8_state.fifo_arr ex8_state.ft_pointer ∧
      ex8_state.ft_pointer < ex8_state.nframes ∧
      ex8_state.fifo_arr.length = ex8_state.nframes ∧
      ∃ e, e ∈ trace (init "lru" 5 3) [(0, 0), (1, 0), (2, 0), (3, 0), (1, 0)] ∧
        is_read_fault e = true ∧ e.1.lt_pointer = ex8_state.ft_pointer ∧
        rd (page_fault_handler e.1 e.2.1 e.2.2).state.fifo_arr ex8_state.ft_pointer =
          rd ex8_state.fifo_arr ex8_state.ft_pointer) :=
  C22_victims_valid (init "lru" 5 3) ex8_state [(0, 0), (1, 0), (2, 0), (3, 0), (1, 0)] 4 0
    (by decide) (by decide) (by decide) (by decide) (by decide) (by decide) (by decide)

end Virtmem
